import Mathlib

/-!
# A verification development for the C-- interpreter (go-interpreter)

Shallow embedding of the lexer, parser, AST, symbol table and evaluator of
`src/`, followed by theorems about them.

Conventions of the embedding:

* A Go `string` is a sequence of bytes.  Source text handed to the lexer is a
  `List Nat` of byte values.  Token texts and messages are only ever built by
  the program from `string(b)` for a byte `b` (the UTF-8 encoding of the code
  point `b`) and from string constants, so they are modelled as Lean `String`s.
* Mutable objects (`*Lexer`, `*Parser`, `*SymbolTable`, standard output, the
  package variable `leftBraceCount`) are threaded explicitly.
* Recursion and loops of the parser and the evaluator take a fuel argument: one
  unit is used per call or loop iteration, and `none` / `Outcome.timeout` means
  the fuel ran out before the Go code would have returned.
* A Go interface value that is `nil` is the constructor `nil` of the
  corresponding Lean type.
-/

namespace GoInterpreter

/-! ## internal/token/token.go -/

/-- Token struct of `token.go`: `Type_` is the Go field `Type`. -/
structure Token where
  Type_ : String
  Value : String
deriving DecidableEq, Repr, Inhabited

/-- The `INVALID` constant. -/
def INVALID : String := "INVALID"
/-- The `END` constant. -/
def END : String := "END"
/-- The `IDENTIFIER` constant. -/
def IDENTIFIER : String := "IDENTIFIER"
/-- The `INTEGER` constant. -/
def INTEGER : String := "INTEGER"
/-- The `WHILE` constant. -/
def WHILE : String := "WHILE"
/-- The `IF` constant. -/
def IF : String := "IF"
/-- The `ELSE` constant. -/
def ELSE : String := "ELSE"
/-- The `PRINT` constant. -/
def PRINT : String := "PRINT"

/-- The `keywords` map of `token.go`. -/
def keywords (identifier : String) : Option String :=
  if identifier = "while" then some WHILE
  else if identifier = "if" then some IF
  else if identifier = "else" then some ELSE
  else if identifier = "print" then some PRINT
  else none

/-- `IsKeyword`: the keyword type of an identifier text, `IDENTIFIER` otherwise. -/
def IsKeyword (identifier : String) : String :=
  match keywords identifier with
  | some token => token
  | none => IDENTIFIER

/-! ## internal/lexer/lexer.go -/

/-- Go's conversion `string(b)` of a byte `b`: the text made of the single code
point `b`. -/
def byteString (b : Nat) : String := String.singleton (Char.ofNat b)

/-- The bytes of an ASCII text, as handed to `CreateLexer`. -/
def bytes (s : String) : List Nat := s.toList.map Char.toNat

/-- Lexer struct: `program` is the source, `currentIndex` the cursor,
`currentChar` the byte under the cursor (0 once the input is exhausted). -/
structure Lexer where
  program : List Nat
  currentIndex : Nat
  currentChar : Nat
deriving DecidableEq, Repr, Inhabited

/-- `CreateLexer`: reads `program[0]`; indexing an empty program is a run-time
fault, rendered as `none`. -/
def CreateLexer (program : List Nat) : Option Lexer :=
  match program with
  | [] => none
  | c :: _ => some { program := program, currentIndex := 0, currentChar := c }

/-- `whitespace`: the regular expression `[\s]` of Go's regexp package matches
exactly tab, line feed, form feed, carriage return and space. -/
def whitespace (char : Nat) : Bool :=
  char = 9 || char = 10 || char = 12 || char = 13 || char = 32

/-- `digit`: the regular expression `[0-9]`. -/
def digit (char : Nat) : Bool := 48 ≤ char && char ≤ 57

/-- `letter`: the regular expression `[a-zA-Z]`. -/
def letter (char : Nat) : Bool :=
  (97 ≤ char && char ≤ 122) || (65 ≤ char && char ≤ 90)

/-- `makeToken`. -/
def makeToken (tokenType : String) (tokenValue : String) : Token :=
  { Type_ := tokenType, Value := tokenValue }

namespace Lexer

/-- `advance`: the test `currentIndex >= len(program)-1` is written
`len(program) <= currentIndex + 1`, which is the same over Go's signed ints. -/
def advance (lexer : Lexer) : Lexer :=
  if lexer.program.length ≤ lexer.currentIndex + 1 then
    { lexer with currentChar := 0 }
  else
    { lexer with currentIndex := lexer.currentIndex + 1,
                 currentChar := lexer.program.getD (lexer.currentIndex + 1) 0 }

/-- `peek`. -/
def peek (lexer : Lexer) : Nat :=
  if lexer.program.length ≤ lexer.currentIndex + 1 then 0
  else lexer.program.getD (lexer.currentIndex + 1) 0

/-- The loop of `skipWhitespace`, at most `n` iterations. -/
def skipWhitespaceLoop : Nat → Lexer → Lexer
  | 0, lexer => lexer
  | n + 1, lexer =>
    if whitespace lexer.currentChar then skipWhitespaceLoop n lexer.advance else lexer

/-- `skipWhitespace`.  The loop leaves after at most `len(program)` rounds,
since `advance` either moves the cursor right or sets `currentChar` to 0. -/
def skipWhitespace (lexer : Lexer) : Lexer :=
  skipWhitespaceLoop (lexer.program.length + 1) lexer

/-- The loop of `createIdentifier`, at most `n` iterations. -/
def createIdentifierLoop : Nat → String → Lexer → String × Lexer
  | 0, word, lexer => (word, lexer)
  | n + 1, word, lexer =>
    if letter lexer.currentChar then
      createIdentifierLoop n (word ++ byteString lexer.currentChar) lexer.advance
    else (word, lexer)

/-- `createIdentifier`. -/
def createIdentifier (lexer : Lexer) : String × Lexer :=
  createIdentifierLoop (lexer.program.length + 1) "" lexer

/-- The loop of `createNumber`, at most `n` iterations. -/
def createNumberLoop : Nat → String → Lexer → String × Lexer
  | 0, number, lexer => (number, lexer)
  | n + 1, number, lexer =>
    if digit lexer.currentChar then
      createNumberLoop n (number ++ byteString lexer.currentChar) lexer.advance
    else (number, lexer)

/-- `createNumber`. -/
def createNumber (lexer : Lexer) : String × Lexer :=
  createNumberLoop (lexer.program.length + 1) "" lexer

/-- The two-character branch shared by the cases `=`, `!`, `<`, `>`, `&`, `|`
of `ReadNextToken`: when `peek` is `second` the combined token is made after one
`advance`, otherwise the single-character token. -/
def twoCharacter (lexer : Lexer) (second : Nat) (both : String) (single : String) :
    Token × Lexer :=
  if lexer.peek = second then
    (makeToken both (byteString lexer.currentChar ++ byteString lexer.peek), lexer.advance)
  else
    (makeToken single (byteString lexer.currentChar), lexer)

/-- The `switch` of `ReadNextToken`: the new token, the lexer after the case
body, and the flag `advance`. -/
def switchToken (lexer : Lexer) : Token × Lexer × Bool :=
  let c := lexer.currentChar
  if c = 61 then
    let r := twoCharacter lexer 61 "EQUAL" "ASSIGNMENT"; (r.1, r.2, true)
  else if c = 33 then
    let r := twoCharacter lexer 61 "NOTEQUAL" "INVALID"; (r.1, r.2, true)
  else if c = 60 then
    let r := twoCharacter lexer 61 "LESSTHANEQUAL" "LESSTHAN"; (r.1, r.2, true)
  else if c = 62 then
    let r := twoCharacter lexer 61 "GREATERTHANEQUAL" "GREATERTHAN"; (r.1, r.2, true)
  else if c = 38 then
    let r := twoCharacter lexer 38 "AND" "INVALID"; (r.1, r.2, true)
  else if c = 124 then
    let r := twoCharacter lexer 124 "OR" "INVALID"; (r.1, r.2, true)
  else if c = 43 then (makeToken "PLUS" (byteString c), lexer, true)
  else if c = 45 then (makeToken "MINUS" (byteString c), lexer, true)
  else if c = 42 then (makeToken "MULTIPLY" (byteString c), lexer, true)
  else if c = 47 then (makeToken "DIVIDE" (byteString c), lexer, true)
  else if c = 37 then (makeToken "MODULO" (byteString c), lexer, true)
  else if c = 40 then (makeToken "LEFTPARENTHESES" (byteString c), lexer, true)
  else if c = 41 then (makeToken "RIGHTPARENTHESES" (byteString c), lexer, true)
  else if c = 123 then (makeToken "LEFTCURLYBRACE" (byteString c), lexer, true)
  else if c = 125 then (makeToken "RIGHTCURLYBRACE" (byteString c), lexer, true)
  else if c = 44 then (makeToken "COMMA" (byteString c), lexer, true)
  else if c = 0 then (makeToken "END" "nil", lexer, true)
  else if digit c then
    let r := createNumber lexer; (makeToken "INTEGER" r.1, r.2, false)
  else if letter c then
    let r := createIdentifier lexer; (makeToken (IsKeyword r.1) r.1, r.2, false)
  else (makeToken "INVALID" (byteString c), lexer, true)

/-- `ReadNextToken`: the token and the lexer after the call. -/
def ReadNextToken (lexer : Lexer) : Token × Lexer :=
  let r := switchToken (skipWhitespace lexer)
  if r.2.2 then (r.1, r.2.1.advance) else (r.1, r.2.1)

/-- The tokens returned by `n` successive calls of `ReadNextToken`. -/
def readTokens : Nat → Lexer → List Token
  | 0, _ => []
  | n + 1, lexer => lexer.ReadNextToken.1 :: readTokens n lexer.ReadNextToken.2

/-- The lexer after `n` successive calls of `ReadNextToken`. -/
def afterTokens : Nat → Lexer → Lexer
  | 0, lexer => lexer
  | n + 1, lexer => afterTokens n lexer.ReadNextToken.2

end Lexer

/-! ## internal/ast/ast.go -/

/-- Identifier struct of `ast.go`. -/
structure Identifier where
  Token : Token
  Value : String
deriving DecidableEq, Repr, Inhabited

/-- An `ast.Expression` interface value: `nil`, or a pointer to an `Identifier`,
`Integer` or `InfixExpression` node.  `Integer.Value` is an int64, kept as an
`Int` in the int64 range. -/
inductive Expression where
  | nil
  | Identifier (node : Identifier)
  | Integer (Token : Token) (Value : Int)
  | InfixExpression (Token : Token) (Left : Expression) (Operator : String)
      (Right : Expression)
deriving DecidableEq, Repr, Inhabited

mutual
/-- An `ast.Statement` interface value.  `nil` is the nil interface;
`nilVariableStatement` is the non-nil interface value that holds a nil
`*ast.VariableStatement` (what `parseStatement` returns when
`parseVariableDeclaration` returns its nil pointer).  The branch and loop
fields are `*BlockStatement` pointers, `none` when nil. -/
inductive Statement where
  | nil
  | nilVariableStatement
  | VariableStatement (Token : Token) (Name : Identifier) (Value : Expression)
  | ExpressionStatement (Token : Token) (Expression : Expression)
  | IfStatement (Token : Token) (Condition : Expression)
      (FirstBranch : Option BlockStatement) (SecondBranch : Option BlockStatement)
  | WhileStatement (Token : Token) (Condition : Expression)
      (Loop : Option BlockStatement)
  | PrintStatement (Token : Token) (Values : List Expression)
/-- BlockStatement struct of `ast.go`. -/
inductive BlockStatement where
  | mk (Token : Token) (Statements : List Statement)
end

/-- Program struct of `ast.go`. -/
structure Program where
  Statements : List Statement

/-- The test `statement != nil` on a Statement interface value. -/
def Statement.notNil : Statement → Bool
  | .nil => false
  | _ => true

/-- The test `expression == nil` on an Expression interface value. -/
def Expression.isNil : Expression → Bool
  | .nil => true
  | _ => false

/-- Field `Token` of a block. -/
def BlockStatement.Token : BlockStatement → Token
  | .mk t _ => t

/-- Field `Statements` of a block. -/
def BlockStatement.Statements : BlockStatement → List Statement
  | .mk _ s => s

/-! ## internal/parser/parser.go -/

/-- The constant `NILPRECEDENCE`. -/
def NILPRECEDENCE : Nat := 0

/-- The map `opPrecedences`. -/
def opPrecedences (op : String) : Option Nat :=
  if op = "*" then some 6
  else if op = "/" then some 6
  else if op = "%" then some 6
  else if op = "+" then some 5
  else if op = "-" then some 5
  else if op = "<" then some 4
  else if op = ">" then some 4
  else if op = "<=" then some 4
  else if op = ">=" then some 4
  else if op = "==" then some 3
  else if op = "!=" then some 3
  else if op = "&&" then some 2
  else if op = "||" then some 1
  else none

/-- Wrap-around of an int32 computation. -/
def wrapInt32 (x : Int) : Int := (x + 2147483648) % 4294967296 - 2147483648

/-- Parser struct, together with the package variable `leftBraceCount` (an
int32).  The two function maps are fixed by `CreateParser` and are the
definitions `prefixExpFuncs` and `infixExpFuncs` below. -/
structure Parser where
  lexer : Lexer
  currentToken : Token
  nextToken : Token
  errors : List String
  leftBraceCount : Int
deriving DecidableEq, Repr, Inhabited

/-- The functions registered for prefix positions. -/
inductive PrefixExpFunc where
  | parseIdentifier
  | parseInteger
  | parseBoundExpression
deriving DecidableEq, Repr

/-- The map `prefixExpFuncs` as filled by `CreateParser`, keyed by token type. -/
def prefixExpFuncs (tokenType : String) : Option PrefixExpFunc :=
  if tokenType = IDENTIFIER then some .parseIdentifier
  else if tokenType = INTEGER then some .parseInteger
  else if tokenType = "LEFTPARENTHESES" then some .parseBoundExpression
  else none

/-- The map `infixExpFuncs` as filled by `CreateParser`, keyed by token text:
every registered entry is `parseInfix`, so `true` stands for "registered". -/
def infixExpFuncs (tokenValue : String) : Bool :=
  tokenValue = "*" || tokenValue = "/" || tokenValue = "%" || tokenValue = "+" ||
  tokenValue = "-" || tokenValue = "<" || tokenValue = ">" || tokenValue = "<=" ||
  tokenValue = ">=" || tokenValue = "==" || tokenValue = "!=" || tokenValue = "&&" ||
  tokenValue = "||"

namespace Parser

/-- `setTokens`. -/
def setTokens (parser : Parser) : Parser :=
  let r := parser.lexer.ReadNextToken
  { parser with currentToken := parser.nextToken, nextToken := r.1, lexer := r.2 }

/-- `CreateParser`: both tokens start as the zero Token and `setTokens` runs
twice.  `leftBraceCount` is the value the package variable holds at the call
(0 at program start). -/
def CreateParser (lexer : Lexer) (leftBraceCount : Int) : Parser :=
  setTokens (setTokens
    { lexer := lexer, currentToken := ⟨"", ""⟩, nextToken := ⟨"", ""⟩, errors := [],
      leftBraceCount := leftBraceCount })

/-- `GetErrors`. -/
def GetErrors (parser : Parser) : List String := parser.errors

/-- `logError`: `fmt.Sprintf` with the verb `%s`. -/
def logError (parser : Parser) (tokenValue : String) : Parser :=
  { parser with errors := parser.errors ++ ["Syntax error, didn't expect " ++ tokenValue] }

/-- `checkCurrentPrecedence`. -/
def checkCurrentPrecedence (parser : Parser) : Nat :=
  match opPrecedences parser.currentToken.Value with
  | some result => result
  | none => NILPRECEDENCE

/-- `checkNextPrecedence`. -/
def checkNextPrecedence (parser : Parser) : Nat :=
  match opPrecedences parser.nextToken.Value with
  | some result => result
  | none => NILPRECEDENCE

/-- `expectNext`. -/
def expectNext (parser : Parser) (tokenType : String) : Bool × Parser :=
  if parser.nextToken.Type_ = tokenType then (true, parser.setTokens)
  else (false, parser.logError parser.nextToken.Value)

/-- `parseIdentifier`. -/
def parseIdentifier (parser : Parser) : Expression × Parser :=
  (.Identifier ⟨parser.currentToken, parser.currentToken.Value⟩, parser)

end Parser

/-- Value of a run of digits in the given base, most significant first; `none`
when a character is not a decimal digit below the base. -/
def digitsValue (base : Nat) : Nat → List Char → Option Nat
  | acc, [] => some acc
  | acc, c :: cs =>
    if 48 ≤ c.toNat ∧ c.toNat ≤ 57 ∧ c.toNat - 48 < base then
      digitsValue base (acc * base + (c.toNat - 48)) cs
    else none

/-- Go's library call `strconv.ParseInt(s, 0, 64)`, for the texts an INTEGER
token can carry (runs of decimal digits): with base argument 0 a leading `0`
selects base 8 for the remaining digits, any other first digit base 10; a digit
not below the base, an empty text, or a value above the largest int64 is an
error (`none`).  Signs, the prefixes `0x`/`0o`/`0b` and underscores never occur
in such a text and are reported as errors here. -/
def strconvParseInt (s : String) : Option Int :=
  match s.toList with
  | [] => none
  | c :: cs =>
    match (if c = '0' then digitsValue 8 0 cs else digitsValue 10 0 (c :: cs)) with
    | some n => if n < 9223372036854775808 then some (Int.ofNat n) else none
    | none => none

namespace Parser

/-- `parseInteger`.  The verb `%q` puts the text between double quotes (a run
of digits needs no escaping). -/
def parseInteger (parser : Parser) : Expression × Parser :=
  match strconvParseInt parser.currentToken.Value with
  | none =>
    (.nil, { parser with errors := parser.errors ++
      ["Unable to parse \"" ++ parser.currentToken.Value ++ "\" as an integer"] })
  | some value => (.Integer parser.currentToken value, parser)

mutual
/-- `parseExpression`. -/
def parseExpression : Nat → Nat → Bool → Parser → Option (Expression × Parser)
  | 0, _, _, _ => none
  | fuel + 1, precedence, fromPrint, parser =>
    match prefixExpFuncs parser.currentToken.Type_ with
    | none => some (.nil, parser.logError parser.currentToken.Value)
    | some prefixFn =>
      match callPrefix fuel prefixFn parser with
      | none => none
      | some (leftExpression, parser) =>
        if !fromPrint ∧
            (parser.nextToken.Type_ = "INTEGER" ∨ parser.nextToken.Type_ = "IDENTIFIER") then
          some (.nil, parser.logError parser.nextToken.Value)
        else parseExpressionLoop fuel precedence leftExpression parser
/-- The call `prefix()` in `parseExpression`. -/
def callPrefix : Nat → PrefixExpFunc → Parser → Option (Expression × Parser)
  | _, .parseIdentifier, parser => some parser.parseIdentifier
  | _, .parseInteger, parser => some parser.parseInteger
  | fuel, .parseBoundExpression, parser => parseBoundExpression fuel parser
/-- The `for` loop of `parseExpression`. -/
def parseExpressionLoop : Nat → Nat → Expression → Parser → Option (Expression × Parser)
  | 0, _, _, _ => none
  | fuel + 1, precedence, leftExpression, parser =>
    if precedence < parser.checkNextPrecedence then
      if infixExpFuncs parser.nextToken.Value then
        match parseInfix fuel leftExpression parser.setTokens with
        | none => none
        | some (leftExpression, parser) =>
          parseExpressionLoop fuel precedence leftExpression parser
      else some (leftExpression, parser)
    else some (leftExpression, parser)
/-- `parseInfix`. -/
def parseInfix : Nat → Expression → Parser → Option (Expression × Parser)
  | 0, _, _ => none
  | fuel + 1, left, parser =>
    let token := parser.currentToken
    let precedence := parser.checkCurrentPrecedence
    match parseExpression fuel precedence false parser.setTokens with
    | none => none
    | some (right, parser) => some (.InfixExpression token left token.Value right, parser)
/-- `parseBoundExpression`. -/
def parseBoundExpression : Nat → Parser → Option (Expression × Parser)
  | 0, _ => none
  | fuel + 1, parser =>
    match parseExpression fuel NILPRECEDENCE false parser.setTokens with
    | none => none
    | some (expression, parser) =>
      let r := parser.expectNext "RIGHTPARENTHESES"
      if !r.1 then some (.nil, r.2.logError r.2.nextToken.Value)
      else some (expression, r.2)
end

/-- `parseExpressionStatement`: the returned pointer is never nil. -/
def parseExpressionStatement (fuel : Nat) (parser : Parser) : Option (Statement × Parser) :=
  let token := parser.currentToken
  match parseExpression fuel NILPRECEDENCE false parser with
  | none => none
  | some (expression, parser) => some (.ExpressionStatement token expression, parser)

/-- The closure `setValues` of `parsePrintStatement`. -/
def setValues : Nat → List Expression → Parser → Option (List Expression × Parser)
  | 0, _, _ => none
  | fuel + 1, values, parser =>
    match parseExpression fuel NILPRECEDENCE true parser.setTokens with
    | none => none
    | some (expression, parser) =>
      if parser.nextToken.Type_ = "COMMA" then
        setValues fuel (values ++ [expression]) parser.setTokens
      else some (values ++ [expression], parser)

/-- `parsePrintStatement`. -/
def parsePrintStatement (fuel : Nat) (parser : Parser) : Option (Statement × Parser) :=
  let token := parser.currentToken
  match setValues fuel [] parser with
  | none => none
  | some (values, parser) => some (.PrintStatement token values, parser.setTokens)

/-- `parseVariableDeclaration`.  A nil `*ast.VariableStatement` result is
written `nilVariableStatement`: the only caller, `parseStatement`, returns it
as a Statement interface value, which is then not `nil`. -/
def parseVariableDeclaration (fuel : Nat) (parser : Parser) : Option (Statement × Parser) :=
  let token := parser.currentToken
  let r := parser.expectNext "ASSIGNMENT"
  if !r.1 then some (.nilVariableStatement, r.2.logError r.2.nextToken.Value)
  else
    match parseExpression fuel NILPRECEDENCE false r.2.setTokens with
    | none => none
    | some (value, parser) => some (.VariableStatement token ⟨token, token.Value⟩ value, parser)

mutual
/-- `parseStatement`. -/
def parseStatement : Nat → Bool → Parser → Option (Statement × Parser)
  | 0, _, _ => none
  | fuel + 1, fromBlock, parser =>
    if parser.currentToken.Type_ = IDENTIFIER then
      if fromBlock then parser.parseExpressionStatement fuel
      else parser.parseVariableDeclaration fuel
    else if parser.currentToken.Type_ = IF then parseIfStatement fuel parser
    else if parser.currentToken.Type_ = WHILE then parseWhileStatement fuel parser
    else if parser.currentToken.Type_ = PRINT then parser.parsePrintStatement fuel
    else parser.parseExpressionStatement fuel
/-- `parseBlockStatement`. -/
def parseBlockStatement : Nat → Parser → Option (BlockStatement × Parser)
  | 0, _ => none
  | fuel + 1, parser =>
    let parser :=
      if parser.currentToken.Type_ = "LEFTCURLYBRACE" then
        { parser.setTokens with leftBraceCount := wrapInt32 (parser.leftBraceCount + 1) }
      else parser
    parseBlockLoop fuel parser.currentToken [] false parser
/-- The `for` loop of `parseBlockStatement`; `token` and `statements` are the
fields of `block`. -/
def parseBlockLoop : Nat → Token → List Statement → Bool → Parser →
    Option (BlockStatement × Parser)
  | 0, _, _, _, _ => none
  | fuel + 1, token, statements, returnBlock, parser =>
    if parser.currentToken.Type_ ≠ "RIGHTCURLYBRACE" ∧ parser.currentToken.Type_ ≠ END then
      if returnBlock then some (.mk token statements, parser)
      else if parser.currentToken.Type_ = "ELSE" then some (.mk token statements, parser)
      else
        let r :=
          if parser.currentToken.Type_ = "IDENTIFIER" ∧ parser.nextToken.Type_ = "ASSIGNMENT" then
            match parseStatement fuel false parser with
            | none => none
            | some (statement, parser) => some (statement, parser.setTokens)
          else parseStatement fuel true parser
        match r with
        | none => none
        | some (statement, parser) =>
          if statement.notNil then
            if parser.currentToken.Type_ = "RIGHTCURLYBRACE" ∧ parser.leftBraceCount > 1 then
              parseBlockLoop fuel token (statements ++ [statement]) true
                { parser.setTokens with leftBraceCount := wrapInt32 (parser.leftBraceCount - 1) }
            else parseBlockLoop fuel token (statements ++ [statement]) returnBlock parser
          else some (.mk token statements, parser)
    else some (.mk token statements, parser)
/-- `parseIfStatement`. -/
def parseIfStatement : Nat → Parser → Option (Statement × Parser)
  | 0, _ => none
  | fuel + 1, parser =>
    let token := parser.currentToken
    let r := parser.expectNext "LEFTPARENTHESES"
    if !r.1 then some (.nil, r.2.logError r.2.nextToken.Value)
    else
      match parseExpression fuel NILPRECEDENCE false r.2.setTokens with
      | none => none
      | some (condition, parser) =>
        if condition.isNil then some (.nil, parser.logError "condition of statement to be nil")
        else
          let r := parser.expectNext "RIGHTPARENTHESES"
          if !r.1 then some (.nil, r.2.logError r.2.nextToken.Value)
          else
            match parseBlockStatement fuel r.2.setTokens with
            | none => none
            | some (firstBranch, parser) =>
              if parser.currentToken.Type_ = "ELSE" then
                match parseBlockStatement fuel parser.setTokens with
                | none => none
                | some (secondBranch, parser) =>
                  some (.IfStatement token condition (some firstBranch) (some secondBranch), parser)
              else some (.IfStatement token condition (some firstBranch) none, parser)
/-- `parseWhileStatement`. -/
def parseWhileStatement : Nat → Parser → Option (Statement × Parser)
  | 0, _ => none
  | fuel + 1, parser =>
    let token := parser.currentToken
    let r := parser.expectNext "LEFTPARENTHESES"
    if !r.1 then some (.nil, r.2.logError r.2.nextToken.Value)
    else
      match parseExpression fuel NILPRECEDENCE false r.2.setTokens with
      | none => none
      | some (condition, parser) =>
        if condition.isNil then some (.nil, parser.logError "condition of statement to be nil")
        else
          let r := parser.expectNext "RIGHTPARENTHESES"
          if !r.1 then some (.nil, r.2.logError r.2.nextToken.Value)
          else
            match parseBlockStatement fuel r.2.setTokens with
            | none => none
            | some (loop, parser) => some (.WhileStatement token condition (some loop), parser)
end

/-- The `for` loop of `ParseProgram`; `statements` is `program.Statements`. -/
def ParseProgramLoop : Nat → List Statement → Parser → Option (Program × Parser)
  | 0, _, _ => none
  | fuel + 1, statements, parser =>
    if parser.currentToken.Type_ ≠ END then
      match parseStatement fuel false parser with
      | none => none
      | some (statement, parser) =>
        if statement.notNil then
          ParseProgramLoop fuel (statements ++ [statement])
            { parser with leftBraceCount := 0 }.setTokens
        else ParseProgramLoop fuel statements parser.setTokens
    else some (⟨statements⟩, parser)

/-- `ParseProgram`: the program and the parser after the call. -/
def ParseProgram (fuel : Nat) (parser : Parser) : Option (Program × Parser) :=
  ParseProgramLoop fuel [] parser

end Parser

/-! ## internal/symbol/symbol.go -/

/-- The digits of `n` in base 10, most significant first; `fuel` bounds the
number of digits. -/
def decimalDigits : Nat → Nat → List Char
  | 0, _ => []
  | fuel + 1, n =>
    if n < 10 then [Char.ofNat (48 + n)]
    else decimalDigits fuel (n / 10) ++ [Char.ofNat (48 + n % 10)]

/-- `fmt.Sprintf("%d", v)` for an int64 `v`: decimal digits, with a leading
minus sign for a negative value. -/
def formatInt (v : Int) : String :=
  if v < 0 then String.mk ('-' :: decimalDigits (v.natAbs + 1) v.natAbs)
  else String.mk (decimalDigits (v.natAbs + 1) v.natAbs)

/-- A `symbol.Symbol` interface value: `nil`, or a pointer to an `Integer`,
`Dummy` or `Error`. -/
inductive Symbol where
  | nil
  | Integer (Value : Int)
  | Dummy (Value : String)
  | Error (Message : String)
deriving DecidableEq, Repr, Inhabited

/-- `GetType`; calling a method on the nil interface is a fault (`none`). -/
def Symbol.GetType : Symbol → Option String
  | .nil => none
  | .Integer _ => some "INTEGER"
  | .Dummy _ => some ""
  | .Error _ => some "ERROR"

/-- `GetValue`; calling a method on the nil interface is a fault (`none`).
`Dummy.GetValue` is `fmt.Sprintf(dummy.Value)`, which returns `Value` itself
for a text without `%` (the evaluator only ever stores the empty text). -/
def Symbol.GetValue : Symbol → Option String
  | .nil => none
  | .Integer v => some (formatInt v)
  | .Dummy v => some v
  | .Error m => some ("ERROR: " ++ m)

/-- SymbolTable struct: the Go map `Table` as an association list with unique
keys. -/
structure SymbolTable where
  Table : List (String × Symbol)
deriving DecidableEq, Repr, Inhabited

/-- `CreateSymbolTable`. -/
def CreateSymbolTable : SymbolTable := ⟨[]⟩

/-- `Get`: the value (the zero value `nil` when absent) and the flag `ok`. -/
def SymbolTable.Get (symbolTable : SymbolTable) (identifier : String) : Symbol × Bool :=
  match symbolTable.Table.lookup identifier with
  | some value => (value, true)
  | none => (.nil, false)

/-- `Set`: the table after `Table[identifier] = value`. -/
def SymbolTable.Set (symbolTable : SymbolTable) (identifier : String) (value : Symbol) :
    SymbolTable :=
  ⟨(identifier, value) :: symbolTable.Table.filter (fun entry => entry.1 ≠ identifier)⟩

/-! ## internal/evaluator/evaluator.go -/

/-- What a call of the evaluator does: return a value, fault (a Go run-time
panic), or still be running when the fuel is used up. -/
inductive Outcome (α : Type) where
  | value (a : α)
  | fault
  | timeout
deriving DecidableEq, Repr

/-- The state an evaluation acts on: the symbol table and the text written to
standard output so far. -/
structure World where
  symbolTable : SymbolTable
  output : String
deriving DecidableEq, Repr, Inhabited

/-- An `ast.Node` interface value as passed to `Evaluate`, by dynamic type. -/
inductive Node where
  | Program (node : Program)
  | Statement (node : Statement)
  | BlockStatement (node : Option BlockStatement)
  | Expression (node : Expression)

/-- Wrap-around of an int64 computation. -/
def wrapInt64 (x : Int) : Int :=
  (x + 9223372036854775808) % 18446744073709551616 - 9223372036854775808

/-- `raiseError` as called by `evaluateIdentifier`: the format is the message
itself (an identifier text holds no `%`). -/
def raiseError (format : String) : Symbol := .Error format

/-- `evaluateToBooleanInteger`. -/
def evaluateToBooleanInteger (expression : Bool) : Int :=
  if expression then 1 else 0

/-- `setBooleanValue`. -/
def setBooleanValue (val : Int) : Bool :=
  if val = 1 then true else false

/-- `evaluateBooleanInfix`. -/
def evaluateBooleanInfix (operator : String) (left right : Int) : Symbol :=
  let leftBoolValue := setBooleanValue left
  let rightBoolValue := setBooleanValue right
  if operator = "&&" then
    if leftBoolValue && rightBoolValue then .Integer 1 else .Integer 0
  else if operator = "||" then
    if leftBoolValue || rightBoolValue then .Integer 1 else .Integer 0
  else .nil

/-- The type assertion `s.(*symbol.Integer).Value`: a fault (`none`) unless `s`
holds an Integer. -/
def Symbol.assertInteger : Symbol → Option Int
  | .Integer v => some v
  | _ => none

/-- `evaluateInfix`: `none` is a fault (failed type assertion, or integer
division by zero).  `/` and `%` truncate toward zero. -/
def evaluateInfix (operator : String) (left right : Symbol) : Option Symbol :=
  match left.assertInteger with
  | none => none
  | some leftValue =>
    match right.assertInteger with
    | none => none
    | some rightValue =>
      if operator = "+" then some (.Integer (wrapInt64 (leftValue + rightValue)))
      else if operator = "-" then some (.Integer (wrapInt64 (leftValue - rightValue)))
      else if operator = "*" then some (.Integer (wrapInt64 (leftValue * rightValue)))
      else if operator = "/" then
        if rightValue = 0 then none
        else some (.Integer (wrapInt64 (Int.tdiv leftValue rightValue)))
      else if operator = "%" then
        if rightValue = 0 then none
        else some (.Integer (wrapInt64 (Int.tmod leftValue rightValue)))
      else if operator = "<" then
        some (.Integer (evaluateToBooleanInteger (leftValue < rightValue)))
      else if operator = ">" then
        some (.Integer (evaluateToBooleanInteger (leftValue > rightValue)))
      else if operator = "<=" then
        some (.Integer (evaluateToBooleanInteger (leftValue ≤ rightValue)))
      else if operator = ">=" then
        some (.Integer (evaluateToBooleanInteger (leftValue ≥ rightValue)))
      else if operator = "==" then
        some (.Integer (evaluateToBooleanInteger (leftValue = rightValue)))
      else if operator = "!=" then
        some (.Integer (evaluateToBooleanInteger (leftValue ≠ rightValue)))
      else if operator = "&&" then some (evaluateBooleanInfix operator leftValue rightValue)
      else if operator = "||" then some (evaluateBooleanInfix operator leftValue rightValue)
      else some .nil

/-- `evaluateIdentifier`. -/
def evaluateIdentifier (node : Identifier) (symbolTable : SymbolTable) : Symbol :=
  let r := symbolTable.Get node.Value
  if !r.2 then raiseError ("Couldn't find identifier: " ++ node.Value)
  else r.1

mutual
/-- `Evaluate`: the returned symbol and the state after the call. -/
def Evaluate : Nat → Node → World → Outcome (Symbol × World)
  | 0, _, _ => .timeout
  | fuel + 1, .Program node, world => evaluateStatements fuel node.Statements .nil world
  | _ + 1, .Statement .nil, world => .value (.nil, world)
  | _ + 1, .Statement .nilVariableStatement, _ => .fault
  | fuel + 1, .Statement (.VariableStatement _ name value), world =>
    match Evaluate fuel (.Expression value) world with
    | .value (variableValue, world) =>
      .value (variableValue,
        { world with symbolTable := world.symbolTable.Set name.Value variableValue })
    | .fault => .fault
    | .timeout => .timeout
  | fuel + 1, .Statement (.ExpressionStatement _ expression), world =>
    Evaluate fuel (.Expression expression) world
  | _ + 1, .BlockStatement none, _ => .fault
  | fuel + 1, .BlockStatement (some node), world =>
    evaluateStatements fuel node.Statements .nil world
  | fuel + 1, .Statement (.IfStatement _ condition firstBranch secondBranch), world =>
    evaluateIfStatement fuel condition firstBranch secondBranch world
  | fuel + 1, .Statement (.WhileStatement _ condition loop), world =>
    evaluateWhileStatement fuel condition loop world
  | fuel + 1, .Statement (.PrintStatement _ values), world =>
    evaluatePrintStatement fuel values world
  | fuel + 1, .Expression (.InfixExpression _ left operator right), world =>
    match Evaluate fuel (.Expression left) world with
    | .value (left, world) =>
      match Evaluate fuel (.Expression right) world with
      | .value (right, world) =>
        match evaluateInfix operator left right with
        | some result => .value (result, world)
        | none => .fault
      | .fault => .fault
      | .timeout => .timeout
    | .fault => .fault
    | .timeout => .timeout
  | _ + 1, .Expression (.Identifier node), world =>
    .value (evaluateIdentifier node world.symbolTable, world)
  | _ + 1, .Expression (.Integer _ value), world => .value (.Integer value, world)
  | _ + 1, .Expression .nil, world => .value (.nil, world)
/-- `evaluateStatements`: the `range` loop, `result` being the variable of that
name. -/
def evaluateStatements : Nat → List Statement → Symbol → World → Outcome (Symbol × World)
  | 0, _, _, _ => .timeout
  | _ + 1, [], result, world => .value (result, world)
  | fuel + 1, statement :: rest, _, world =>
    match Evaluate fuel (.Statement statement) world with
    | .value (result, world) => evaluateStatements fuel rest result world
    | .fault => .fault
    | .timeout => .timeout
/-- `evaluateIfStatement`, on the fields of the IfStatement. -/
def evaluateIfStatement : Nat → Expression → Option BlockStatement → Option BlockStatement →
    World → Outcome (Symbol × World)
  | 0, _, _, _, _ => .timeout
  | fuel + 1, condition, firstBranch, secondBranch, world =>
    match Evaluate fuel (.Expression condition) world with
    | .value (condition, world) =>
      match condition.GetValue with
      | none => .fault
      | some rendered =>
        if rendered = "1" then Evaluate fuel (.BlockStatement firstBranch) world
        else if rendered = "0" ∧ secondBranch.isSome then
          Evaluate fuel (.BlockStatement secondBranch) world
        else .value (.Dummy "", world)
    | .fault => .fault
    | .timeout => .timeout
/-- `evaluateWhileStatement`, on the fields of the WhileStatement. -/
def evaluateWhileStatement : Nat → Expression → Option BlockStatement → World →
    Outcome (Symbol × World)
  | 0, _, _, _ => .timeout
  | fuel + 1, condition, loop, world =>
    match Evaluate fuel (.Expression condition) world with
    | .value (value, world) =>
      match value.GetValue with
      | none => .fault
      | some rendered =>
        if rendered = "1" then
          match Evaluate fuel (.BlockStatement loop) world with
          | .value (_, world) => evaluateWhileStatement fuel condition loop world
          | .fault => .fault
          | .timeout => .timeout
        else .value (.Dummy "", world)
    | .fault => .fault
    | .timeout => .timeout
/-- `evaluatePrintStatement`, on the field `Values`: `fmt.Print` appends to the
output. -/
def evaluatePrintStatement : Nat → List Expression → World → Outcome (Symbol × World)
  | 0, _, _ => .timeout
  | _ + 1, [], world => .value (.Dummy "", world)
  | fuel + 1, expression :: rest, world =>
    match Evaluate fuel (.Expression expression) world with
    | .value (value, world) =>
      match value.GetValue with
      | none => .fault
      | some rendered =>
        evaluatePrintStatement fuel rest { world with output := world.output ++ rendered ++ " " }
    | .fault => .fault
    | .timeout => .timeout
end

/-! ## internal/testcode/testcode.go and main.go -/

/-- `GetProgram`: the shipped sample program. -/
def GetProgram : List Nat :=
  bytes ("\nval = 104\nwhile (val >= 2) \x7b\n\tif (val % 2 == 0) \x7b\n\t\tnext = val / 2\n\t\x7d " ++
    "else \x7b\n\t\tnext = 3 * val + 1\n\t\x7d\n\tprint val, next\n\tval = next\n\x7d\n")

/-- The lines `fmt.Println(err)` of `main`. -/
def printErrors : List String → String
  | [] => ""
  | err :: rest => err ++ "\n" ++ printErrors rest

/-- The body of `main` for source text `code`, with `leftBraceCount` at its
initial value 0: the text written to standard output. -/
def run (fuel : Nat) (code : List Nat) : Outcome String :=
  match CreateLexer code with
  | none => .fault
  | some lexedCode =>
    match (Parser.CreateParser lexedCode 0).ParseProgram fuel with
    | none => .timeout
    | some (parsedProgram, program) =>
      let errors := program.GetErrors
      if errors.length = 0 then
        match Evaluate fuel (.Program parsedProgram) ⟨CreateSymbolTable, ""⟩ with
        | .value (evaluated, world) =>
          match evaluated.GetValue with
          | none => .fault
          | some rendered => .value (world.output ++ rendered)
        | .fault => .fault
        | .timeout => .timeout
      else .value (printErrors errors)

/-- `main`. -/
def main (fuel : Nat) : Outcome String := run fuel GetProgram

/-- The first three calls of `main` on source text `code` (`CreateLexer`,
`CreateParser` with `leftBraceCount` at 0, `ParseProgram`) followed by
`GetErrors`: the Program and the error list, `none` when `CreateLexer` faults
or the fuel runs out. -/
def parseSource (fuel : Nat) (code : List Nat) : Option (Program × List String) :=
  (CreateLexer code).bind fun lexer =>
    ((Parser.CreateParser lexer 0).ParseProgram fuel).map fun r => (r.1, r.2.GetErrors)

/-! ## Comparing syntax trees -/

mutual
/-- Equality test on statements, to nesting depth `fuel`. -/
def Statement.beq : Nat → Statement → Statement → Bool
  | 0, _, _ => false
  | _ + 1, .nil, .nil => true
  | _ + 1, .nilVariableStatement, .nilVariableStatement => true
  | _ + 1, .VariableStatement t n v, .VariableStatement t2 n2 v2 =>
    decide (t = t2) && decide (n = n2) && decide (v = v2)
  | _ + 1, .ExpressionStatement t e, .ExpressionStatement t2 e2 =>
    decide (t = t2) && decide (e = e2)
  | fuel + 1, .IfStatement t c f s, .IfStatement t2 c2 f2 s2 =>
    decide (t = t2) && decide (c = c2) && beqBlockPointer fuel f f2 && beqBlockPointer fuel s s2
  | fuel + 1, .WhileStatement t c l, .WhileStatement t2 c2 l2 =>
    decide (t = t2) && decide (c = c2) && beqBlockPointer fuel l l2
  | _ + 1, .PrintStatement t vs, .PrintStatement t2 vs2 => decide (t = t2) && decide (vs = vs2)
  | _ + 1, _, _ => false
/-- Equality test on block pointers. -/
def beqBlockPointer : Nat → Option BlockStatement → Option BlockStatement → Bool
  | 0, _, _ => false
  | _ + 1, none, none => true
  | fuel + 1, some (.mk t ss), some (.mk t2 ss2) => decide (t = t2) && beqStatements fuel ss ss2
  | _ + 1, _, _ => false
/-- Equality test on statement lists. -/
def beqStatements : Nat → List Statement → List Statement → Bool
  | 0, _, _ => false
  | _ + 1, [], [] => true
  | fuel + 1, s :: ss, s2 :: ss2 => Statement.beq fuel s s2 && beqStatements fuel ss ss2
  | _ + 1, _, _ => false
end

/-- Equality test on the results of `parseSource`. -/
def beqParsed : Option (Program × List String) → Option (Program × List String) → Bool
  | none, none => true
  | some (p, errors), some (p2, errors2) =>
    beqStatements 1000 p.Statements p2.Statements && decide (errors = errors2)
  | _, _ => false

/-- The text of a run of decimal digits (most significant first). -/
def digitText (ds : List Nat) : String := String.mk (ds.map fun d => Char.ofNat (48 + d))

/-- The value `parseInteger` gives a run of decimal digits: after a leading `0`
the remaining digits are read in base 8 (and must be below 8), any other run
is read in base 10. -/
def literalValue (ds : List Nat) : Option Nat :=
  if ds.head? = some 0 then
    if ∀ d ∈ ds.tail, d < 8 then some (Nat.ofDigits 8 ds.tail.reverse) else none
  else some (Nat.ofDigits 10 ds.reverse)

/-- The parser stands on a lone operand: the current token is an identifier or
a readable integer literal, and the next token is neither an operand nor an
operator. -/
def loneOperand (p : Parser) : Bool :=
  ((p.currentToken.Type_ = "INTEGER" ∧ (strconvParseInt p.currentToken.Value).isSome)
      ∨ p.currentToken.Type_ = "IDENTIFIER")
    ∧ p.nextToken.Type_ ≠ "INTEGER" ∧ p.nextToken.Type_ ≠ "IDENTIFIER"
    ∧ p.nextToken.Type_ ≠ "ASSIGNMENT"
    ∧ opPrecedences p.nextToken.Value = none

/-- The token pattern `( operand ) { operand` after the current token, the way
`parseIfStatement` and `parseWhileStatement` walk over it. -/
def bareBlockAhead (p : Parser) : Bool :=
  p.nextToken.Type_ = "LEFTPARENTHESES"
    ∧ loneOperand p.setTokens.setTokens
    ∧ p.setTokens.setTokens.nextToken.Type_ = "RIGHTPARENTHESES"
    ∧ p.setTokens.setTokens.setTokens.setTokens.currentToken.Type_ = "LEFTCURLYBRACE"
    ∧ loneOperand p.setTokens.setTokens.setTokens.setTokens.setTokens

/-! ## The lexer seen on the remaining input -/

/-- The text made of the code points `bs`, i.e. the concatenation of
`byteString b` for `b` in `bs`. -/
def textOf (bs : List Nat) : String := String.mk (bs.map Char.ofNat)

/-- The lexer that has consumed `consumed` and still has `rest` to read: the
cursor is on the first byte of `rest`, or, when `rest` is empty, on the last
byte of the program with `currentChar` 0. -/
def Lexer.onRest (consumed rest : List Nat) : Lexer :=
  match rest with
  | [] => ⟨consumed, consumed.length - 1, 0⟩
  | c :: r => ⟨consumed ++ c :: r, consumed.length, c⟩

/-- The two-character cases of `ReadNextToken` on the input `c :: t`. -/
def scanTwo (c : Nat) (t : List Nat) (second : Nat) (both single : String) :
    Token × List Nat :=
  if t.headD 0 = second then (⟨both, textOf [c, second]⟩, t.tail)
  else (⟨single, textOf [c]⟩, t)

/-- The `switch` of `ReadNextToken` on the remaining input `c :: t`, `c` not
being whitespace: the token and the input left after it. -/
def scanHead (c : Nat) (t : List Nat) : Token × List Nat :=
  if c = 61 then scanTwo c t 61 "EQUAL" "ASSIGNMENT"
  else if c = 33 then scanTwo c t 61 "NOTEQUAL" "INVALID"
  else if c = 60 then scanTwo c t 61 "LESSTHANEQUAL" "LESSTHAN"
  else if c = 62 then scanTwo c t 61 "GREATERTHANEQUAL" "GREATERTHAN"
  else if c = 38 then scanTwo c t 38 "AND" "INVALID"
  else if c = 124 then scanTwo c t 124 "OR" "INVALID"
  else if c = 43 then (⟨"PLUS", textOf [c]⟩, t)
  else if c = 45 then (⟨"MINUS", textOf [c]⟩, t)
  else if c = 42 then (⟨"MULTIPLY", textOf [c]⟩, t)
  else if c = 47 then (⟨"DIVIDE", textOf [c]⟩, t)
  else if c = 37 then (⟨"MODULO", textOf [c]⟩, t)
  else if c = 40 then (⟨"LEFTPARENTHESES", textOf [c]⟩, t)
  else if c = 41 then (⟨"RIGHTPARENTHESES", textOf [c]⟩, t)
  else if c = 123 then (⟨"LEFTCURLYBRACE", textOf [c]⟩, t)
  else if c = 125 then (⟨"RIGHTCURLYBRACE", textOf [c]⟩, t)
  else if c = 44 then (⟨"COMMA", textOf [c]⟩, t)
  else if c = 0 then (⟨"END", "nil"⟩, t)
  else if digit c then
    (⟨"INTEGER", textOf ((c :: t).takeWhile digit)⟩, (c :: t).dropWhile digit)
  else if letter c then
    (⟨IsKeyword (textOf ((c :: t).takeWhile letter)), textOf ((c :: t).takeWhile letter)⟩,
      (c :: t).dropWhile letter)
  else (⟨"INVALID", textOf [c]⟩, t)

/-- What `ReadNextToken` does on the remaining input `rest`: the token and the
input left after it. -/
def scanToken (rest : List Nat) : Token × List Nat :=
  match rest.dropWhile whitespace with
  | [] => (⟨"END", "nil"⟩, [])
  | c :: t => scanHead c t

/-- The first `n` tokens read from the remaining input `rest`. -/
def scanTokens : Nat → List Nat → List Token
  | 0, _ => []
  | n + 1, rest => (scanToken rest).1 :: scanTokens n (scanToken rest).2

/-- The bytes of a run of decimal digits (most significant first). -/
def digitBytes (ds : List Nat) : List Nat := ds.map fun d => 48 + d

/-- A decimal integer literal without leading zeros: a non-empty run of decimal
digits that starts with `0` only when it is the single digit `0`. -/
def isLiteral (ds : List Nat) : Prop :=
  ds ≠ [] ∧ (∀ d ∈ ds, d < 10) ∧ (ds.head? = some 0 → ds.length = 1)

/-- The operators of the precedence table: the bytes of the operator in the
source and the token the lexer makes of them. -/
def operatorTable : List (List Nat × Token) :=
  [([42], ⟨"MULTIPLY", "*"⟩), ([47], ⟨"DIVIDE", "/"⟩), ([37], ⟨"MODULO", "%"⟩),
   ([43], ⟨"PLUS", "+"⟩), ([45], ⟨"MINUS", "-"⟩),
   ([60], ⟨"LESSTHAN", "<"⟩), ([62], ⟨"GREATERTHAN", ">"⟩),
   ([60, 61], ⟨"LESSTHANEQUAL", "<="⟩), ([62, 61], ⟨"GREATERTHANEQUAL", ">="⟩),
   ([61, 61], ⟨"EQUAL", "=="⟩), ([33, 61], ⟨"NOTEQUAL", "!="⟩),
   ([38, 38], ⟨"AND", "&&"⟩), ([124, 124], ⟨"OR", "||"⟩)]

/-- The precedence the parser gives an operator token (0 when it has none). -/
def precedenceOf (t : Token) : Nat := (opPrecedences t.Value).getD 0

/-- The Integer node for the literal with digits `ds`. -/
def literalNode (ds : List Nat) : Expression :=
  .Integer ⟨"INTEGER", digitText ds⟩ (Int.ofNat (Nat.ofDigits 10 ds.reverse))

/-! ## Complete syntax trees -/

/-- No required child of the expression is missing: it is not nil, and both
operands of every InfixExpression in it are complete. -/
def Expression.complete : Expression → Prop
  | .nil => False
  | .Identifier _ => True
  | .Integer _ _ => True
  | .InfixExpression _ left _ right => left.complete ∧ right.complete

mutual
/-- No required child of the statement is missing: the statement is present, a
VariableStatement has a complete Value, an ExpressionStatement a complete
Expression, an IfStatement and a WhileStatement a complete Condition and a
(first) block that is complete, a SecondBranch that is complete when there is
one, and every value of a PrintStatement is complete. -/
def Statement.complete : Statement → Prop
  | .nil => False
  | .nilVariableStatement => False
  | .VariableStatement _ _ value => value.complete
  | .ExpressionStatement _ expression => expression.complete
  | .IfStatement _ condition firstBranch secondBranch =>
    condition.complete ∧ blockPresent firstBranch ∧ blockOptional secondBranch
  | .WhileStatement _ condition loop => condition.complete ∧ blockPresent loop
  | .PrintStatement _ values => ∀ value ∈ values, value.complete
/-- The block pointer is not nil and its statements are complete. -/
def blockPresent : Option BlockStatement → Prop
  | none => False
  | some (.mk _ statements) => statementsComplete statements
/-- The statements of the block are complete if the block pointer is not nil. -/
def blockOptional : Option BlockStatement → Prop
  | none => True
  | some (.mk _ statements) => statementsComplete statements
/-- Every statement of the list is complete. -/
def statementsComplete : List Statement → Prop
  | [] => True
  | statement :: rest => statement.complete ∧ statementsComplete rest
end

/-- A call that took the parser from `before` to `after` and built a tree
certifies it: if `after` holds no error, neither did `before`, and `complete`
holds of the tree. -/
def Certifies (before after : Parser) (complete : Prop) : Prop :=
  after.errors = [] → before.errors = [] ∧ complete

/-! ## Finished evaluations -/

/-- The evaluation of `node` in `world` finishes with `outcome`, which is a
value together with the state left, or a fault: some amount of fuel is enough
for it. -/
def Finishes (node : Node) (world : World) (outcome : Outcome (Symbol × World)) : Prop :=
  outcome ≠ .timeout ∧ ∃ fuel, Evaluate fuel node world = outcome

/-- The statements are evaluated one after the other, each in the state left by
the one before it: `outcome` is the fault of the first statement that faults,
otherwise the value of the last statement with the final state; for no
statement at all it is `result` with the state as it was. -/
def inOrder : List Statement → Symbol → World → Outcome (Symbol × World) → Prop
  | [], result, world, outcome => outcome = .value (result, world)
  | statement :: rest, _, world, outcome =>
    (Finishes (.Statement statement) world .fault ∧ outcome = .fault)
      ∨ ∃ result next, Finishes (.Statement statement) world (.value (result, next))
          ∧ inOrder rest result next outcome

/-- The values of Go's type int64. -/
def inInt64 (x : Int) : Prop := -9223372036854775808 ≤ x ∧ x ≤ 9223372036854775807

/-- The texts of the tokens before the first END token, joined in order;
`none` when the list holds no END token. -/
def textBeforeEnd : List Token → Option String
  | [] => none
  | token :: rest =>
    if token.Type_ = END then some ""
    else (textBeforeEnd rest).map fun text => token.Value ++ text

/-! ## Soundness of the syntax-tree comparison -/

theorem beq_sound : ∀ fuel : Nat,
    (∀ a b : Statement, Statement.beq fuel a b = true → a = b) ∧
    (∀ a b : Option BlockStatement, beqBlockPointer fuel a b = true → a = b) ∧
    (∀ a b : List Statement, beqStatements fuel a b = true → a = b) := by
  intro fuel
  induction fuel with
  | zero => simp [Statement.beq, beqBlockPointer, beqStatements]
  | succ n ih =>
    obtain ⟨ihs, ihb, ihl⟩ := ih
    refine ⟨?_, ?_, ?_⟩
    · intro a b h
      cases a <;> cases b <;> simp [Statement.beq] at h <;> try rfl
      · obtain ⟨⟨h1, h2⟩, h3⟩ := h; subst h1 h2 h3; rfl
      · obtain ⟨h1, h2⟩ := h; subst h1 h2; rfl
      · obtain ⟨⟨⟨h1, h2⟩, h3⟩, h4⟩ := h
        rw [h1, h2, ihb _ _ h3, ihb _ _ h4]
      · obtain ⟨⟨h1, h2⟩, h3⟩ := h
        rw [h1, h2, ihb _ _ h3]
      · obtain ⟨h1, h2⟩ := h; subst h1 h2; rfl
    · intro a b h
      rcases a with _ | ⟨t, ss⟩ <;> rcases b with _ | ⟨t2, ss2⟩ <;>
        simp [beqBlockPointer] at h <;> try rfl
      obtain ⟨h1, h2⟩ := h
      rw [h1, ihl _ _ h2]
    · intro a b h
      rcases a with _ | ⟨x, xs⟩ <;> rcases b with _ | ⟨y, ys⟩ <;>
        simp [beqStatements] at h <;> try rfl
      obtain ⟨h1, h2⟩ := h
      rw [ihs _ _ h1, ihl _ _ h2]

theorem parsed_eq_of_beq {r e : Option (Program × List String)} (h : beqParsed r e = true) :
    r = e := by
  rcases r with _ | ⟨⟨p⟩, errors⟩ <;> rcases e with _ | ⟨⟨p2⟩, errors2⟩ <;>
    simp [beqParsed] at h <;> try rfl
  obtain ⟨h1, h2⟩ := h
  rw [(beq_sound 1000).2.2 _ _ h1, h2]

/-! ## The shipped sample program -/

/-- C1. Lexing and parsing the shipped sample program records no syntax error,
evaluating the resulting Program against a fresh symbol table returns (the
Dummy value of the final `while`) having printed exactly
`104 52 52 26 26 13 13 40 40 20 20 10 10 5 5 16 16 8 8 4 4 2 2 1 `, and this is
all that `main` writes to standard output. -/
theorem sample_program_output :
    ((CreateLexer GetProgram).bind fun lexer =>
      ((Parser.CreateParser lexer 0).ParseProgram 200).map fun r =>
        (r.2.GetErrors, Evaluate 200 (.Program r.1) ⟨CreateSymbolTable, ""⟩))
      = some ([], .value (.Dummy "",
          ⟨⟨[("val", .Integer 1), ("next", .Integer 1)]⟩,
           "104 52 52 26 26 13 13 40 40 20 20 10 10 5 5 16 16 8 8 4 4 2 2 1 "⟩))
    ∧ main 200 = .value "104 52 52 26 26 13 13 40 40 20 20 10 10 5 5 16 16 8 8 4 4 2 2 1 " := by
  decide!

/-! ## Lexer: creation and two-character operators -/

/-- C9. `CreateLexer` on the empty source does not return a lexer: reading
`program[0]` faults. -/
theorem createLexer_empty_faults : CreateLexer [] = none ∧ CreateLexer (bytes "") = none := by
  decide

theorem skipWhitespace_of_not_whitespace (lexer : Lexer)
    (h : whitespace lexer.currentChar = false) : lexer.skipWhitespace = lexer := by
  simp [Lexer.skipWhitespace, Lexer.skipWhitespaceLoop, h]

/-- C10. When the current character and the following one spell `==`, `!=`,
`<=`, `>=`, `&&` or `||`, `ReadNextToken` returns the one token of kind EQUAL,
NOTEQUAL, LESSTHANEQUAL, GREATERTHANEQUAL, AND, OR with that two-character text
and leaves the lexer two `advance` steps further; tokenizing each of the six
strings gives that token and then END on every later call. -/
theorem two_character_operator_token :
    (∀ (lexer : Lexer) (first second : Nat) (kind text : String),
      (first, second, kind, text) ∈
        [(61, 61, "EQUAL", "=="), (33, 61, "NOTEQUAL", "!="), (60, 61, "LESSTHANEQUAL", "<="),
         (62, 61, "GREATERTHANEQUAL", ">="), (38, 38, "AND", "&&"), (124, 124, "OR", "||")] →
      lexer.currentChar = first → lexer.peek = second →
      lexer.ReadNextToken = (⟨kind, text⟩, lexer.advance.advance))
    ∧ (∀ entry ∈ [("EQUAL", "=="), ("NOTEQUAL", "!="), ("LESSTHANEQUAL", "<="),
         ("GREATERTHANEQUAL", ">="), ("AND", "&&"), ("OR", "||")],
        (CreateLexer (bytes entry.2)).map (Lexer.readTokens 3)
          = some [⟨entry.1, entry.2⟩, ⟨"END", "nil"⟩, ⟨"END", "nil"⟩]) := by
  refine ⟨?_, ?_⟩
  · intro lexer first second kind text hmem hc hp
    simp only [List.mem_cons, Prod.mk.injEq, List.mem_singleton, List.not_mem_nil, or_false] at hmem
    rcases hmem with ⟨rfl, rfl, rfl, rfl⟩ | ⟨rfl, rfl, rfl, rfl⟩ | ⟨rfl, rfl, rfl, rfl⟩ |
      ⟨rfl, rfl, rfl, rfl⟩ | ⟨rfl, rfl, rfl, rfl⟩ | ⟨rfl, rfl, rfl, rfl⟩ <;>
    · have hw : whitespace lexer.currentChar = false := by rw [hc]; decide
      simp [Lexer.ReadNextToken, skipWhitespace_of_not_whitespace lexer hw, Lexer.switchToken,
        Lexer.twoCharacter, hc, hp, makeToken]
      decide
  · decide!

/-- Witness for C10: the lexer standing on the `<=` of `a<=b`. -/
theorem two_character_operator_token_witness :
    (⟨bytes "a<=b", 1, 60⟩ : Lexer).ReadNextToken
      = (⟨"LESSTHANEQUAL", "<="⟩, (⟨bytes "a<=b", 1, 60⟩ : Lexer).advance.advance) :=
  two_character_operator_token.1 ⟨bytes "a<=b", 1, 60⟩ 60 61 "LESSTHANEQUAL" "<="
    (by decide) (by decide) (by decide)

/-! ## Parser: `else` after a top-level `if` -/

/-- C4. For the top-level source `if (1) { x = 1 } else { x = 2 }` the parser
returns an IfStatement without SecondBranch, parses `else`, `{`, `x = 2`, `}`
as four further top-level statements and records three syntax errors; the same
`if`/`else` inside a `while` block gets both branches and no error. -/
theorem top_level_else_is_not_attached :
    parseSource 100 (bytes "if (1) \x7b x = 1 \x7d else \x7b x = 2 \x7d")
      = some (⟨[.IfStatement ⟨"IF", "if"⟩ (.Integer ⟨"INTEGER", "1"⟩ 1)
                  (some (.mk ⟨"IDENTIFIER", "x"⟩
                    [.VariableStatement ⟨"IDENTIFIER", "x"⟩ ⟨⟨"IDENTIFIER", "x"⟩, "x"⟩
                      (.Integer ⟨"INTEGER", "1"⟩ 1)]))
                  none,
                .ExpressionStatement ⟨"ELSE", "else"⟩ .nil,
                .ExpressionStatement ⟨"LEFTCURLYBRACE", "\x7b"⟩ .nil,
                .VariableStatement ⟨"IDENTIFIER", "x"⟩ ⟨⟨"IDENTIFIER", "x"⟩, "x"⟩
                  (.Integer ⟨"INTEGER", "2"⟩ 2),
                .ExpressionStatement ⟨"RIGHTCURLYBRACE", "\x7d"⟩ .nil]⟩,
              ["Syntax error, didn't expect else", "Syntax error, didn't expect \x7b",
               "Syntax error, didn't expect \x7d"])
    ∧ parseSource 100 (bytes "while (a) \x7b if (1) \x7b x = 1 \x7d else \x7b x = 2 \x7d \x7d")
      = some (⟨[.WhileStatement ⟨"WHILE", "while"⟩ (.Identifier ⟨⟨"IDENTIFIER", "a"⟩, "a"⟩)
                  (some (.mk ⟨"IF", "if"⟩
                    [.IfStatement ⟨"IF", "if"⟩ (.Integer ⟨"INTEGER", "1"⟩ 1)
                      (some (.mk ⟨"IDENTIFIER", "x"⟩
                        [.VariableStatement ⟨"IDENTIFIER", "x"⟩ ⟨⟨"IDENTIFIER", "x"⟩, "x"⟩
                          (.Integer ⟨"INTEGER", "1"⟩ 1)]))
                      (some (.mk ⟨"IDENTIFIER", "x"⟩
                        [.VariableStatement ⟨"IDENTIFIER", "x"⟩ ⟨⟨"IDENTIFIER", "x"⟩, "x"⟩
                          (.Integer ⟨"INTEGER", "2"⟩ 2)]))]))]⟩,
              []) :=
  ⟨parsed_eq_of_beq (by decide!), parsed_eq_of_beq (by decide!)⟩

/-! ## Parser: the missing-operator check -/

/-- C6. When the prefix function of the current token has returned `left` and
the next token is then an INTEGER or IDENTIFIER with text `v`, `parseExpression`
with `fromPrint = false` appends `Syntax error, didn't expect v` and returns
nil, while with `fromPrint = true` it skips the check and goes on to its
operator loop with `left`.  The source `x = 1 y = 2` yields the one error
`Syntax error, didn't expect y` and leaves the first assignment without Value;
`print a, b c` yields no error. -/
theorem missing_operator_check :
    (∀ (fuel precedence : Nat) (parser parser1 : Parser) (prefixFn : PrefixExpFunc)
        (left : Expression),
      prefixExpFuncs parser.currentToken.Type_ = some prefixFn →
      Parser.callPrefix fuel prefixFn parser = some (left, parser1) →
      parser1.nextToken.Type_ = "INTEGER" ∨ parser1.nextToken.Type_ = "IDENTIFIER" →
      Parser.parseExpression (fuel + 1) precedence false parser
          = some (.nil, { parser1 with errors := parser1.errors ++
              ["Syntax error, didn't expect " ++ parser1.nextToken.Value] })
        ∧ Parser.parseExpression (fuel + 1) precedence true parser
          = Parser.parseExpressionLoop fuel precedence left parser1)
    ∧ parseSource 100 (bytes "x = 1 y = 2")
      = some (⟨[.VariableStatement ⟨"IDENTIFIER", "x"⟩ ⟨⟨"IDENTIFIER", "x"⟩, "x"⟩ .nil,
                .VariableStatement ⟨"IDENTIFIER", "y"⟩ ⟨⟨"IDENTIFIER", "y"⟩, "y"⟩
                  (.Integer ⟨"INTEGER", "2"⟩ 2)]⟩,
              ["Syntax error, didn't expect y"])
    ∧ parseSource 100 (bytes "print a, b c")
      = some (⟨[.PrintStatement ⟨"PRINT", "print"⟩
                  [.Identifier ⟨⟨"IDENTIFIER", "a"⟩, "a"⟩,
                   .Identifier ⟨⟨"IDENTIFIER", "b"⟩, "b"⟩]]⟩, []) := by
  refine ⟨?_, parsed_eq_of_beq (by decide!), parsed_eq_of_beq (by decide!)⟩
  intro fuel precedence parser parser1 prefixFn left hpre hcall hnext
  constructor
  · rw [Parser.parseExpression]
    simp only [hpre, hcall]
    simp [hnext, Parser.logError]
  · rw [Parser.parseExpression]
    simp only [hpre, hcall]
    simp

/-- Witness for C6: the parser standing on the `1` of `x = 1 y = 2`. -/
theorem missing_operator_check_witness :
    Parser.parseExpression 1 0 false
        ⟨⟨bytes "x = 1 y = 2", 8, 61⟩, ⟨"INTEGER", "1"⟩, ⟨"IDENTIFIER", "y"⟩, [], 0⟩
      = some (.nil, ⟨⟨bytes "x = 1 y = 2", 8, 61⟩, ⟨"INTEGER", "1"⟩, ⟨"IDENTIFIER", "y"⟩,
          ["Syntax error, didn't expect y"], 0⟩) :=
  (missing_operator_check.1 0 0
    ⟨⟨bytes "x = 1 y = 2", 8, 61⟩, ⟨"INTEGER", "1"⟩, ⟨"IDENTIFIER", "y"⟩, [], 0⟩
    ⟨⟨bytes "x = 1 y = 2", 8, 61⟩, ⟨"INTEGER", "1"⟩, ⟨"IDENTIFIER", "y"⟩, [], 0⟩
    .parseInteger (.Integer ⟨"INTEGER", "1"⟩ 1) (by decide) (by decide!) (by decide)).1

/-! ## Parser: integer literals -/

theorem digit_char_toNat (d : Nat) (h : d < 10) : (Char.ofNat (48 + d)).toNat = 48 + d := by
  interval_cases d <;> rfl

theorem digitsValue_digits (base : Nat) (ds : List Nat) (hds : ∀ d ∈ ds, d < 10) :
    ∀ acc : Nat, digitsValue base acc (ds.map fun d => Char.ofNat (48 + d))
      = if ∀ d ∈ ds, d < base then some (acc * base ^ ds.length + Nat.ofDigits base ds.reverse)
        else none := by
  induction ds with
  | nil => intro acc; simp [digitsValue]
  | cons d rest ih =>
    intro acc
    have hd : d < 10 := hds d (List.mem_cons_self _ _)
    have hrest : ∀ x ∈ rest, x < 10 := fun x hx => hds x (List.mem_cons_of_mem _ hx)
    simp only [List.map_cons, digitsValue, digit_char_toNat d hd]
    by_cases hb : d < base
    · have h1 : 48 ≤ 48 + d ∧ 48 + d ≤ 57 ∧ 48 + d - 48 < base := by omega
      rw [if_pos h1, ih hrest]
      simp only [List.mem_cons, forall_eq_or_imp, hb, true_and, List.length_cons,
        List.reverse_cons, Nat.ofDigits_append, Nat.ofDigits_singleton, List.length_reverse]
      split
      · congr 1
        have : 48 + d - 48 = d := by omega
        rw [this]; ring
      · rfl
    · have h1 : ¬ (48 ≤ 48 + d ∧ 48 + d ≤ 57 ∧ 48 + d - 48 < base) := by omega
      rw [if_neg h1]
      simp [hb]

theorem strconvParseInt_digits (ds : List Nat) (hne : ds ≠ []) (hds : ∀ d ∈ ds, d < 10) :
    strconvParseInt (digitText ds)
      = match literalValue ds with
        | some n => if n < 9223372036854775808 then some (Int.ofNat n) else none
        | none => none := by
  rcases ds with _ | ⟨d, rest⟩
  · exact absurd rfl hne
  have hd : d < 10 := hds d (List.mem_cons_self _ _)
  have hrest : ∀ x ∈ rest, x < 10 := fun x hx => hds x (List.mem_cons_of_mem _ hx)
  have hzero : (Char.ofNat (48 + d) = '0') ↔ d = 0 := by
    interval_cases d <;> decide
  simp only [strconvParseInt, digitText, List.map_cons, literalValue, List.head?_cons,
    Option.some.injEq, List.tail_cons, String.toList]
  by_cases h0 : d = 0
  · rw [if_pos (hzero.2 h0), if_pos h0, digitsValue_digits 8 rest hrest 0]
    split_ifs <;> simp
  · rw [if_neg (fun h => h0 (hzero.1 h)), if_neg h0]
    have := digitsValue_digits 10 (d :: rest) hds 0
    simp only [List.map_cons] at this
    rw [this, if_pos hds]
    simp

/-- C7 (as amended). For an INTEGER token whose text is a non-empty run of
decimal digits, `parseInteger` reads the digits after a leading `0` in base 8
and any other run in base 10: when every digit is below the base and the value
fits in an int64 it yields the Integer node with that value and records no
error; otherwise it appends `Unable to parse "d" as an integer` and yields no
node. -/
theorem parseInteger_digit_text (parser : Parser) (ds : List Nat) (hne : ds ≠ [])
    (hds : ∀ d ∈ ds, d < 10) (htext : parser.currentToken.Value = digitText ds) :
    parser.parseInteger =
      match literalValue ds with
      | some n =>
        if n < 9223372036854775808 then (.Integer parser.currentToken (Int.ofNat n), parser)
        else (.nil, { parser with errors := parser.errors ++
          ["Unable to parse \"" ++ digitText ds ++ "\" as an integer"] })
      | none => (.nil, { parser with errors := parser.errors ++
          ["Unable to parse \"" ++ digitText ds ++ "\" as an integer"] }) := by
  have h := strconvParseInt_digits ds hne hds
  unfold Parser.parseInteger
  rw [htext, h]
  cases literalValue ds with
  | none => rfl
  | some n =>
    by_cases hn : n < 9223372036854775808
    · simp [hn]
    · simp [hn]

/-- Witness for C7 (as amended): the token `010`. -/
theorem parseInteger_digit_text_witness :
    Parser.parseInteger ⟨⟨bytes "010", 2, 0⟩, ⟨"INTEGER", "010"⟩, ⟨"END", "nil"⟩, [], 0⟩
      = match literalValue [0, 1, 0] with
        | some n =>
          if n < 9223372036854775808 then
            (.Integer ⟨"INTEGER", "010"⟩ (Int.ofNat n),
              ⟨⟨bytes "010", 2, 0⟩, ⟨"INTEGER", "010"⟩, ⟨"END", "nil"⟩, [], 0⟩)
          else (.nil, ⟨⟨bytes "010", 2, 0⟩, ⟨"INTEGER", "010"⟩, ⟨"END", "nil"⟩,
            [] ++ ["Unable to parse \"" ++ digitText [0, 1, 0] ++ "\" as an integer"], 0⟩)
        | none => (.nil, ⟨⟨bytes "010", 2, 0⟩, ⟨"INTEGER", "010"⟩, ⟨"END", "nil"⟩,
            [] ++ ["Unable to parse \"" ++ digitText [0, 1, 0] ++ "\" as an integer"], 0⟩) :=
  parseInteger_digit_text ⟨⟨bytes "010", 2, 0⟩, ⟨"INTEGER", "010"⟩, ⟨"END", "nil"⟩, [], 0⟩
    [0, 1, 0] (by decide) (by decide) (by decide)

/-- C7 (as stated) fails: the literal `010` is given the value eight, not ten,
and the literal `08` is rejected with an error although its base-10 value
fits in an int64. -/
theorem parseInteger_leading_zero_not_decimal :
    (Parser.parseInteger ⟨⟨bytes "010", 2, 0⟩, ⟨"INTEGER", "010"⟩, ⟨"END", "nil"⟩, [], 0⟩).1
        = .Integer ⟨"INTEGER", "010"⟩ 8
    ∧ (Parser.parseInteger ⟨⟨bytes "010", 2, 0⟩, ⟨"INTEGER", "010"⟩, ⟨"END", "nil"⟩, [], 0⟩).1
        ≠ .Integer ⟨"INTEGER", "010"⟩ 10
    ∧ Parser.parseInteger ⟨⟨bytes "08", 1, 0⟩, ⟨"INTEGER", "08"⟩, ⟨"END", "nil"⟩, [], 0⟩
        = (.nil, ⟨⟨bytes "08", 1, 0⟩, ⟨"INTEGER", "08"⟩, ⟨"END", "nil"⟩,
            ["Unable to parse \"08\" as an integer"], 0⟩)
    ∧ parseSource 100 (bytes "010")
        = some (⟨[.ExpressionStatement ⟨"INTEGER", "010"⟩ (.Integer ⟨"INTEGER", "010"⟩ 8)]⟩, [])
    ∧ parseSource 100 (bytes "08")
        = some (⟨[.ExpressionStatement ⟨"INTEGER", "08"⟩ .nil]⟩,
            ["Unable to parse \"08\" as an integer"]) :=
  ⟨by decide, by decide, by decide, parsed_eq_of_beq (by decide!), parsed_eq_of_beq (by decide!)⟩

/-! ## Parser: a bare expression statement inside a block -/

theorem loneOperand_iff (p : Parser) :
    loneOperand p = true ↔
      ((p.currentToken.Type_ = "INTEGER" ∧ (strconvParseInt p.currentToken.Value).isSome)
        ∨ p.currentToken.Type_ = "IDENTIFIER")
      ∧ p.nextToken.Type_ ≠ "INTEGER" ∧ p.nextToken.Type_ ≠ "IDENTIFIER"
      ∧ p.nextToken.Type_ ≠ "ASSIGNMENT"
      ∧ opPrecedences p.nextToken.Value = none := by
  simp [loneOperand]

theorem parseExpression_loneOperand (p : Parser) (h : loneOperand p = true)
    (precedence : Nat) (m : Nat) :
    Parser.parseExpression m precedence false p = none ∨
      ∃ e, e.isNil = false ∧ Parser.parseExpression m precedence false p = some (e, p) := by
  obtain ⟨hcur, hn1, hn2, -, hprec⟩ := (loneOperand_iff p).1 h
  rcases m with _ | _ | k
  · left; simp [Parser.parseExpression]
  · left
    rcases hcur with ⟨hc, hv⟩ | hc
    · simp [Parser.parseExpression, hc, prefixExpFuncs, IDENTIFIER, INTEGER, Parser.callPrefix,
        Parser.parseInteger, hn1, hn2, Parser.parseExpressionLoop]
      cases hs : strconvParseInt p.currentToken.Value <;>
        simp [hn1, hn2, Parser.parseExpressionLoop]
    · simp [Parser.parseExpression, hc, prefixExpFuncs, IDENTIFIER, INTEGER, Parser.callPrefix,
        Parser.parseIdentifier, hn1, hn2, Parser.parseExpressionLoop]
  · right
    rcases hcur with ⟨hc, hv⟩ | hc
    · obtain ⟨v, hv⟩ := Option.isSome_iff_exists.1 hv
      refine ⟨.Integer p.currentToken v, rfl, ?_⟩
      simp [Parser.parseExpression, hc, prefixExpFuncs, IDENTIFIER, INTEGER, Parser.callPrefix,
        Parser.parseInteger, hv, hn1, hn2, Parser.parseExpressionLoop,
        Parser.checkNextPrecedence, hprec, NILPRECEDENCE]
    · refine ⟨.Identifier ⟨p.currentToken, p.currentToken.Value⟩, rfl, ?_⟩
      simp [Parser.parseExpression, hc, prefixExpFuncs, IDENTIFIER, INTEGER, Parser.callPrefix,
        Parser.parseIdentifier, hn1, hn2, Parser.parseExpressionLoop,
        Parser.checkNextPrecedence, hprec, NILPRECEDENCE]

theorem parseStatement_loneOperand (p : Parser) (h : loneOperand p = true) (m : Nat) :
    Parser.parseStatement m true p = none ∨
      ∃ s, s.notNil = true ∧ Parser.parseStatement m true p = some (s, p) := by
  obtain ⟨hcur, -, -, -, -⟩ := (loneOperand_iff p).1 h
  rcases m with _ | k
  · left; simp [Parser.parseStatement]
  · have hstmt : Parser.parseStatement (k + 1) true p = p.parseExpressionStatement k := by
      rcases hcur with ⟨hc, -⟩ | hc <;>
        simp [Parser.parseStatement, hc, IDENTIFIER, IF, WHILE, PRINT]
    rw [hstmt]
    rcases parseExpression_loneOperand p h NILPRECEDENCE k with he | ⟨e, -, he⟩
    · left; simp [Parser.parseExpressionStatement, he]
    · right
      exact ⟨.ExpressionStatement p.currentToken e, rfl, by
        simp [Parser.parseExpressionStatement, he]⟩

theorem parseBlockLoop_loneOperand (p : Parser) (h : loneOperand p = true) :
    ∀ (fuel : Nat) (token : Token) (statements : List Statement),
      Parser.parseBlockLoop fuel token statements false p = none := by
  obtain ⟨hcur, -, -, hna, -⟩ := (loneOperand_iff p).1 h
  have h1 : p.currentToken.Type_ ≠ "RIGHTCURLYBRACE" := by
    rcases hcur with ⟨hc, -⟩ | hc <;> simp [hc]
  have h2 : p.currentToken.Type_ ≠ END := by
    rcases hcur with ⟨hc, -⟩ | hc <;> simp [hc, END]
  have h3 : p.currentToken.Type_ ≠ "ELSE" := by
    rcases hcur with ⟨hc, -⟩ | hc <;> simp [hc]
  intro fuel
  induction fuel with
  | zero => intro token statements; simp [Parser.parseBlockLoop]
  | succ n ih =>
    intro token statements
    rw [Parser.parseBlockLoop]
    rcases parseStatement_loneOperand p h n with hs | ⟨s, hnil, hs⟩
    · simp [h1, h2, h3, hna, hs]
    · simp [h1, h2, h3, hna, hs, hnil, ih]

theorem parseBlockStatement_bare (p : Parser)
    (hbrace : p.currentToken.Type_ = "LEFTCURLYBRACE") (h : loneOperand p.setTokens = true)
    (fuel : Nat) : Parser.parseBlockStatement fuel p = none := by
  rcases fuel with _ | n
  · simp [Parser.parseBlockStatement]
  · have hl : loneOperand
        { p.setTokens with leftBraceCount := wrapInt32 (p.leftBraceCount + 1) } = true := by
      rw [← h]; rfl
    simp only [Parser.parseBlockStatement, hbrace, if_true]
    exact parseBlockLoop_loneOperand _ hl n _ _

theorem parseWhileStatement_bare (p : Parser) (h : bareBlockAhead p = true) (fuel : Nat) :
    Parser.parseWhileStatement fuel p = none := by
  simp only [bareBlockAhead, Bool.decide_and, Bool.and_eq_true, decide_eq_true_eq,
    Bool.decide_eq_true] at h
  obtain ⟨h0, hcond, hclose, hbrace, hbody⟩ := h
  rcases fuel with _ | n
  · simp [Parser.parseWhileStatement]
  · rw [Parser.parseWhileStatement]
    simp only [Parser.expectNext, h0, if_true, Bool.not_true, Bool.false_eq_true, if_false]
    rcases parseExpression_loneOperand _ hcond NILPRECEDENCE n with he | ⟨e, hnil, he⟩
    · simp [he]
    · simp only [he, hnil, hclose, if_true, Bool.not_true, Bool.false_eq_true, if_false]
      rw [parseBlockStatement_bare _ hbrace hbody n]

theorem parseIfStatement_bare (p : Parser) (h : bareBlockAhead p = true) (fuel : Nat) :
    Parser.parseIfStatement fuel p = none := by
  simp only [bareBlockAhead, Bool.decide_and, Bool.and_eq_true, decide_eq_true_eq,
    Bool.decide_eq_true] at h
  obtain ⟨h0, hcond, hclose, hbrace, hbody⟩ := h
  rcases fuel with _ | n
  · simp [Parser.parseIfStatement]
  · rw [Parser.parseIfStatement]
    simp only [Parser.expectNext, h0, if_true, Bool.not_true, Bool.false_eq_true, if_false]
    rcases parseExpression_loneOperand _ hcond NILPRECEDENCE n with he | ⟨e, hnil, he⟩
    · simp [he]
    · simp only [he, hnil, hclose, if_true, Bool.not_true, Bool.false_eq_true, if_false]
      rw [parseBlockStatement_bare _ hbrace hbody n]

theorem parseProgram_bare (p : Parser)
    (hcur : p.currentToken.Type_ = "WHILE" ∨ p.currentToken.Type_ = "IF")
    (h : bareBlockAhead p = true) (fuel : Nat) : p.ParseProgram fuel = none := by
  unfold Parser.ParseProgram
  rcases fuel with _ | _ | n
  · simp [Parser.ParseProgramLoop]
  · rcases hcur with hc | hc <;> simp [Parser.ParseProgramLoop, Parser.parseStatement, hc, END]
  · rcases hcur with hc | hc
    · simp [Parser.ParseProgramLoop, Parser.parseStatement, hc, END, IDENTIFIER, IF, WHILE,
        parseWhileStatement_bare p h]
    · simp [Parser.ParseProgramLoop, Parser.parseStatement, hc, END, IDENTIFIER, IF,
        parseIfStatement_bare p h]

/-- C3. For the sources `while (1) { 5 }` and `if (x) { y }` the lexer is
created, but `ParseProgram` does not return, whatever the fuel: the block loop
parses the bare expression statement again and again without moving the
tokens. -/
theorem parseProgram_diverges_on_bare_block_statement :
    (∃ lexer, CreateLexer (bytes "while (1) \x7b 5 \x7d") = some lexer ∧
        ∀ fuel, (Parser.CreateParser lexer 0).ParseProgram fuel = none)
    ∧ (∃ lexer, CreateLexer (bytes "if (x) \x7b y \x7d") = some lexer ∧
        ∀ fuel, (Parser.CreateParser lexer 0).ParseProgram fuel = none) := by
  refine ⟨⟨⟨bytes "while (1) \x7b 5 \x7d", 0, 119⟩, by decide, ?_⟩,
    ⟨⟨bytes "if (x) \x7b y \x7d", 0, 105⟩, by decide, ?_⟩⟩
  · exact parseProgram_bare _ (Or.inl (by decide!)) (by decide!)
  · exact parseProgram_bare _ (Or.inr (by decide!)) (by decide!)

/-! ## Lexer: `ReadNextToken` on the remaining input -/

theorem textOf_append (a b : List Nat) : textOf (a ++ b) = textOf a ++ textOf b := by
  simp [textOf, String.ext_iff]

theorem byteString_eq_textOf (b : Nat) : byteString b = textOf [b] := rfl

theorem onRest_currentChar (p r : List Nat) : (Lexer.onRest p r).currentChar = r.headD 0 := by
  cases r <;> rfl

theorem onRest_program_length (p r : List Nat) :
    (Lexer.onRest p r).program.length = p.length + r.length := by
  cases r <;> simp [Lexer.onRest]

theorem onRest_advance_nil (p : List Nat) : (Lexer.onRest p []).advance = Lexer.onRest p [] := by
  simp only [Lexer.onRest, Lexer.advance]
  rw [if_pos (by omega)]

theorem getD_append_length (p : List Nat) (c : Nat) (t : List Nat) :
    (p ++ c :: t).getD p.length 0 = c := by
  induction p with
  | nil => rfl
  | cons a p ih => simpa using ih

theorem onRest_advance_cons (p : List Nat) (c : Nat) (r : List Nat) :
    (Lexer.onRest p (c :: r)).advance = Lexer.onRest (p ++ [c]) r := by
  cases r with
  | nil => simp [Lexer.onRest, Lexer.advance]
  | cons d t =>
    simp only [Lexer.onRest, Lexer.advance, List.length_append, List.length_cons]
    rw [if_neg (by omega)]
    have h := getD_append_length (p ++ [c]) d t
    simp only [List.length_append, List.length_singleton, List.append_assoc,
      List.singleton_append] at h
    rw [h]
    simp

theorem onRest_peek (p : List Nat) (c : Nat) (r : List Nat) :
    (Lexer.onRest p (c :: r)).peek = r.headD 0 := by
  cases r with
  | nil => simp [Lexer.onRest, Lexer.peek]
  | cons d t =>
    simp only [Lexer.onRest, Lexer.peek, List.length_append, List.length_cons]
    rw [if_neg (by omega)]
    have h := getD_append_length (p ++ [c]) d t
    simp only [List.length_append, List.length_singleton, List.append_assoc,
      List.singleton_append] at h
    rw [h]
    simp

theorem createLexer_cons (c : Nat) (r : List Nat) :
    CreateLexer (c :: r) = some (Lexer.onRest [] (c :: r)) := rfl

theorem skipWhitespaceLoop_onRest (r : List Nat) :
    ∀ (n : Nat) (p : List Nat), r.length ≤ n →
      Lexer.skipWhitespaceLoop n (Lexer.onRest p r)
        = Lexer.onRest (p ++ r.takeWhile whitespace) (r.dropWhile whitespace) := by
  induction r with
  | nil =>
    intro n p _
    cases n <;> simp [Lexer.skipWhitespaceLoop, onRest_currentChar, whitespace]
  | cons c t ih =>
    intro n p hn
    cases n with
    | zero => simp at hn
    | succ m =>
      simp only [Lexer.skipWhitespaceLoop, onRest_currentChar, List.headD_cons]
      by_cases hw : whitespace c = true
      · rw [if_pos hw, onRest_advance_cons, ih m _ (by simpa using hn)]
        simp [List.takeWhile_cons, List.dropWhile_cons, hw]
      · rw [if_neg hw]
        simp [List.takeWhile_cons, List.dropWhile_cons, hw]

theorem skipWhitespace_onRest (p r : List Nat) :
    (Lexer.onRest p r).skipWhitespace
      = Lexer.onRest (p ++ r.takeWhile whitespace) (r.dropWhile whitespace) := by
  unfold Lexer.skipWhitespace
  apply skipWhitespaceLoop_onRest
  rw [onRest_program_length]; omega

theorem createNumberLoop_onRest (r : List Nat) :
    ∀ (n : Nat) (p : List Nat) (w : List Nat), r.length ≤ n →
      Lexer.createNumberLoop n (textOf w) (Lexer.onRest p r)
        = (textOf (w ++ r.takeWhile digit),
            Lexer.onRest (p ++ r.takeWhile digit) (r.dropWhile digit)) := by
  induction r with
  | nil =>
    intro n p w _
    cases n <;> simp [Lexer.createNumberLoop, onRest_currentChar, digit]
  | cons c t ih =>
    intro n p w hn
    cases n with
    | zero => simp at hn
    | succ m =>
      simp only [Lexer.createNumberLoop, onRest_currentChar, List.headD_cons]
      by_cases hw : digit c = true
      · rw [if_pos hw, onRest_advance_cons, byteString_eq_textOf, ← textOf_append,
          ih m _ _ (by simpa using hn)]
        simp [List.takeWhile_cons, List.dropWhile_cons, hw]
      · rw [if_neg hw]
        simp [List.takeWhile_cons, List.dropWhile_cons, hw]

theorem createNumber_onRest (p r : List Nat) :
    (Lexer.onRest p r).createNumber
      = (textOf (r.takeWhile digit),
          Lexer.onRest (p ++ r.takeWhile digit) (r.dropWhile digit)) := by
  unfold Lexer.createNumber
  have h := createNumberLoop_onRest r ((Lexer.onRest p r).program.length + 1) p []
    (by rw [onRest_program_length]; omega)
  simpa [textOf] using h

theorem createIdentifierLoop_onRest (r : List Nat) :
    ∀ (n : Nat) (p : List Nat) (w : List Nat), r.length ≤ n →
      Lexer.createIdentifierLoop n (textOf w) (Lexer.onRest p r)
        = (textOf (w ++ r.takeWhile letter),
            Lexer.onRest (p ++ r.takeWhile letter) (r.dropWhile letter)) := by
  induction r with
  | nil =>
    intro n p w _
    cases n <;> simp [Lexer.createIdentifierLoop, onRest_currentChar, letter]
  | cons c t ih =>
    intro n p w hn
    cases n with
    | zero => simp at hn
    | succ m =>
      simp only [Lexer.createIdentifierLoop, onRest_currentChar, List.headD_cons]
      by_cases hw : letter c = true
      · rw [if_pos hw, onRest_advance_cons, byteString_eq_textOf, ← textOf_append,
          ih m _ _ (by simpa using hn)]
        simp [List.takeWhile_cons, List.dropWhile_cons, hw]
      · rw [if_neg hw]
        simp [List.takeWhile_cons, List.dropWhile_cons, hw]

theorem createIdentifier_onRest (p r : List Nat) :
    (Lexer.onRest p r).createIdentifier
      = (textOf (r.takeWhile letter),
          Lexer.onRest (p ++ r.takeWhile letter) (r.dropWhile letter)) := by
  unfold Lexer.createIdentifier
  have h := createIdentifierLoop_onRest r ((Lexer.onRest p r).program.length + 1) p []
    (by rw [onRest_program_length]; omega)
  simpa [textOf] using h

theorem twoCharacter_onRest (p : List Nat) (c : Nat) (t : List Nat) (second : Nat)
    (both single : String) (hs : second ≠ 0) :
    ∃ q, (Lexer.twoCharacter (Lexer.onRest p (c :: t)) second both single).1
          = (scanTwo c t second both single).1
      ∧ (Lexer.twoCharacter (Lexer.onRest p (c :: t)) second both single).2.advance
          = Lexer.onRest q (scanTwo c t second both single).2 := by
  unfold Lexer.twoCharacter scanTwo
  rw [onRest_peek, onRest_currentChar]
  by_cases h : t.headD 0 = second
  · rw [if_pos h, if_pos h]
    cases t with
    | nil => exact absurd h.symm hs
    | cons d t2 =>
      simp only [List.headD_cons] at h
      subst h
      refine ⟨(p ++ [c]) ++ [d], ?_, ?_⟩
      · simp [makeToken, byteString_eq_textOf, ← textOf_append]
      · simp only [List.tail_cons]
        rw [onRest_advance_cons, onRest_advance_cons]
  · rw [if_neg h, if_neg h]
    refine ⟨p ++ [c], ?_, ?_⟩
    · simp [makeToken, byteString_eq_textOf]
    · simp only []
      rw [onRest_advance_cons]

theorem switchToken_onRest_nil (p : List Nat) :
    (Lexer.onRest p []).switchToken = (⟨"END", "nil"⟩, Lexer.onRest p [], true) := by
  simp [Lexer.switchToken, onRest_currentChar, makeToken]

/-- `ReadNextToken` on a lexer with remaining input `r` returns the token of
`scanToken r` and a lexer with the remaining input of `scanToken r`. -/
theorem readNextToken_onRest (p r : List Nat) :
    ∃ q, (Lexer.onRest p r).ReadNextToken
      = ((scanToken r).1, Lexer.onRest q (scanToken r).2) := by
  unfold Lexer.ReadNextToken scanToken
  rw [skipWhitespace_onRest]
  generalize p ++ r.takeWhile whitespace = p1
  cases hr : r.dropWhile whitespace with
  | nil =>
    refine ⟨p1, ?_⟩
    simp [switchToken_onRest_nil, onRest_advance_nil]
  | cons c t =>
    simp only []
    have two : ∀ (second : Nat) (both single : String), second ≠ 0 →
        ∃ q, ((Lexer.twoCharacter (Lexer.onRest p1 (c :: t)) second both single).1,
            (Lexer.twoCharacter (Lexer.onRest p1 (c :: t)) second both single).2.advance)
          = ((scanTwo c t second both single).1,
              Lexer.onRest q (scanTwo c t second both single).2) := by
      intro second both single hs
      obtain ⟨q, h1, h2⟩ := twoCharacter_onRest p1 c t second both single hs
      exact ⟨q, by rw [h1, h2]⟩
    simp only [Lexer.switchToken, onRest_currentChar, List.headD_cons, scanHead]
    by_cases h61 : c = 61
    · simp only [if_pos h61]; exact two _ _ _ (by decide)
    simp only [if_neg h61]
    by_cases h33 : c = 33
    · simp only [if_pos h33]; exact two _ _ _ (by decide)
    simp only [if_neg h33]
    by_cases h60 : c = 60
    · simp only [if_pos h60]; exact two _ _ _ (by decide)
    simp only [if_neg h60]
    by_cases h62 : c = 62
    · simp only [if_pos h62]; exact two _ _ _ (by decide)
    simp only [if_neg h62]
    by_cases h38 : c = 38
    · simp only [if_pos h38]; exact two _ _ _ (by decide)
    simp only [if_neg h38]
    by_cases h124 : c = 124
    · simp only [if_pos h124]; exact two _ _ _ (by decide)
    simp only [if_neg h124]
    by_cases h43 : c = 43
    · simp only [if_pos h43]
      exact ⟨p1 ++ [c], by simp [makeToken, byteString_eq_textOf, onRest_advance_cons]⟩
    simp only [if_neg h43]
    by_cases h45 : c = 45
    · simp only [if_pos h45]
      exact ⟨p1 ++ [c], by simp [makeToken, byteString_eq_textOf, onRest_advance_cons]⟩
    simp only [if_neg h45]
    by_cases h42 : c = 42
    · simp only [if_pos h42]
      exact ⟨p1 ++ [c], by simp [makeToken, byteString_eq_textOf, onRest_advance_cons]⟩
    simp only [if_neg h42]
    by_cases h47 : c = 47
    · simp only [if_pos h47]
      exact ⟨p1 ++ [c], by simp [makeToken, byteString_eq_textOf, onRest_advance_cons]⟩
    simp only [if_neg h47]
    by_cases h37 : c = 37
    · simp only [if_pos h37]
      exact ⟨p1 ++ [c], by simp [makeToken, byteString_eq_textOf, onRest_advance_cons]⟩
    simp only [if_neg h37]
    by_cases h40 : c = 40
    · simp only [if_pos h40]
      exact ⟨p1 ++ [c], by simp [makeToken, byteString_eq_textOf, onRest_advance_cons]⟩
    simp only [if_neg h40]
    by_cases h41 : c = 41
    · simp only [if_pos h41]
      exact ⟨p1 ++ [c], by simp [makeToken, byteString_eq_textOf, onRest_advance_cons]⟩
    simp only [if_neg h41]
    by_cases h123 : c = 123
    · simp only [if_pos h123]
      exact ⟨p1 ++ [c], by simp [makeToken, byteString_eq_textOf, onRest_advance_cons]⟩
    simp only [if_neg h123]
    by_cases h125 : c = 125
    · simp only [if_pos h125]
      exact ⟨p1 ++ [c], by simp [makeToken, byteString_eq_textOf, onRest_advance_cons]⟩
    simp only [if_neg h125]
    by_cases h44 : c = 44
    · simp only [if_pos h44]
      exact ⟨p1 ++ [c], by simp [makeToken, byteString_eq_textOf, onRest_advance_cons]⟩
    simp only [if_neg h44]
    by_cases h0 : c = 0
    · simp only [if_pos h0]
      exact ⟨p1 ++ [c], by simp [makeToken, onRest_advance_cons]⟩
    simp only [if_neg h0]
    by_cases hd : digit c = true
    · simp only [if_pos hd, createNumber_onRest, makeToken]
      exact ⟨_, rfl⟩
    simp only [if_neg hd]
    by_cases hl : letter c = true
    · simp only [if_pos hl, createIdentifier_onRest, makeToken]
      exact ⟨_, rfl⟩
    simp only [if_neg hl]
    exact ⟨p1 ++ [c], by simp [makeToken, byteString_eq_textOf, onRest_advance_cons]⟩

theorem readTokens_onRest : ∀ (n : Nat) (p r : List Nat),
    (Lexer.onRest p r).readTokens n = scanTokens n r := by
  intro n
  induction n with
  | zero => intro p r; rfl
  | succ m ih =>
    intro p r
    obtain ⟨q, hq⟩ := readNextToken_onRest p r
    simp only [Lexer.readTokens, scanTokens, hq, ih]

/-! ## Lexer: the token stream ends in END -/

theorem isKeyword_ne_end (s : String) : IsKeyword s ≠ "END" := by
  unfold IsKeyword keywords
  split_ifs <;> simp [WHILE, IF, ELSE, PRINT, IDENTIFIER]

theorem dropWhile_suffix_cons (f : Nat → Bool) (c : Nat) (t : List Nat) (h : f c = true) :
    (c :: t).dropWhile f <:+ t := by
  rw [List.dropWhile_cons, if_pos h]
  exact List.dropWhile_suffix f

theorem scanTwo_suffix (c : Nat) (t : List Nat) (second : Nat) (both single : String) :
    (scanTwo c t second both single).2 <:+ t := by
  unfold scanTwo
  split_ifs
  · exact List.tail_suffix t
  · exact List.suffix_refl t

theorem scanHead_cases (c : Nat) (t : List Nat) (P : Token × List Nat → Prop)
    (htwo : ∀ (second : Nat) (both single : String), second ≠ 0 →
      whitespace second = false → both ≠ "END" → single ≠ "END" →
      P (scanTwo c t second both single))
    (hone : ∀ kind : String, kind ≠ "END" → P (⟨kind, textOf [c]⟩, t))
    (hnul : c = 0 → P (⟨"END", "nil"⟩, t))
    (hdigit : digit c = true →
      P (⟨"INTEGER", textOf ((c :: t).takeWhile digit)⟩, (c :: t).dropWhile digit))
    (hletter : letter c = true →
      P (⟨IsKeyword (textOf ((c :: t).takeWhile letter)), textOf ((c :: t).takeWhile letter)⟩,
        (c :: t).dropWhile letter)) :
    P (scanHead c t) := by
  simp only [scanHead]
  by_cases h61 : c = 61
  · simp only [if_pos h61]
    exact htwo _ _ _ (by decide) (by decide) (by decide) (by decide)
  simp only [if_neg h61]
  by_cases h33 : c = 33
  · simp only [if_pos h33]
    exact htwo _ _ _ (by decide) (by decide) (by decide) (by decide)
  simp only [if_neg h33]
  by_cases h60 : c = 60
  · simp only [if_pos h60]
    exact htwo _ _ _ (by decide) (by decide) (by decide) (by decide)
  simp only [if_neg h60]
  by_cases h62 : c = 62
  · simp only [if_pos h62]
    exact htwo _ _ _ (by decide) (by decide) (by decide) (by decide)
  simp only [if_neg h62]
  by_cases h38 : c = 38
  · simp only [if_pos h38]
    exact htwo _ _ _ (by decide) (by decide) (by decide) (by decide)
  simp only [if_neg h38]
  by_cases h124 : c = 124
  · simp only [if_pos h124]
    exact htwo _ _ _ (by decide) (by decide) (by decide) (by decide)
  simp only [if_neg h124]
  by_cases h43 : c = 43
  · simp only [if_pos h43]
    exact hone _ (by decide)
  simp only [if_neg h43]
  by_cases h45 : c = 45
  · simp only [if_pos h45]
    exact hone _ (by decide)
  simp only [if_neg h45]
  by_cases h42 : c = 42
  · simp only [if_pos h42]
    exact hone _ (by decide)
  simp only [if_neg h42]
  by_cases h47 : c = 47
  · simp only [if_pos h47]
    exact hone _ (by decide)
  simp only [if_neg h47]
  by_cases h37 : c = 37
  · simp only [if_pos h37]
    exact hone _ (by decide)
  simp only [if_neg h37]
  by_cases h40 : c = 40
  · simp only [if_pos h40]
    exact hone _ (by decide)
  simp only [if_neg h40]
  by_cases h41 : c = 41
  · simp only [if_pos h41]
    exact hone _ (by decide)
  simp only [if_neg h41]
  by_cases h123 : c = 123
  · simp only [if_pos h123]
    exact hone _ (by decide)
  simp only [if_neg h123]
  by_cases h125 : c = 125
  · simp only [if_pos h125]
    exact hone _ (by decide)
  simp only [if_neg h125]
  by_cases h44 : c = 44
  · simp only [if_pos h44]
    exact hone _ (by decide)
  simp only [if_neg h44]
  by_cases h0 : c = 0
  · simp only [if_pos h0]
    exact hnul h0
  simp only [if_neg h0]
  by_cases hd : digit c = true
  · simp only [if_pos hd]
    exact hdigit hd
  simp only [if_neg hd]
  by_cases hl : letter c = true
  · simp only [if_pos hl]
    exact hletter hl
  simp only [if_neg hl]
  exact hone _ (by decide)

theorem scanHead_suffix (c : Nat) (t : List Nat) : (scanHead c t).2 <:+ t := by
  apply scanHead_cases c t (fun r => r.2 <:+ t)
  · intro second both single _ _ _ _; exact scanTwo_suffix _ _ _ _ _
  · intro kind _; exact List.suffix_refl t
  · intro _; exact List.suffix_refl t
  · intro hd; exact dropWhile_suffix_cons _ _ _ hd
  · intro hl; exact dropWhile_suffix_cons _ _ _ hl

theorem scanTwo_type (c : Nat) (t : List Nat) (second : Nat) (both single : String) :
    (scanTwo c t second both single).1.Type_ = both ∨
      (scanTwo c t second both single).1.Type_ = single := by
  unfold scanTwo
  split_ifs <;> simp

theorem scanHead_not_end (c : Nat) (t : List Nat) (hc : c ≠ 0) :
    (scanHead c t).1.Type_ ≠ "END" := by
  apply scanHead_cases c t (fun r => r.1.Type_ ≠ "END")
  · intro second both single _ _ hb hs
    rcases scanTwo_type c t second both single with h2 | h2 <;> rw [h2] <;> assumption
  · intro kind hk; exact hk
  · intro h0; exact absurd h0 hc
  · intro _; simp
  · intro _; exact isKeyword_ne_end _

theorem scanToken_nil : scanToken [] = (⟨"END", "nil"⟩, []) := rfl

theorem scanTokens_nil (n : Nat) : scanTokens n [] = List.replicate n ⟨"END", "nil"⟩ := by
  induction n with
  | zero => rfl
  | succ m ih => simp [scanTokens, scanToken_nil, ih, List.replicate_succ]

theorem scanToken_of_blank (r : List Nat) (h : r.dropWhile whitespace = []) :
    scanToken r = (⟨"END", "nil"⟩, []) := by
  simp [scanToken, h]

/-- On input without NUL bytes a call either reports END with nothing left, or
returns another token and shortens the input. -/
theorem scanToken_end_or_shorter (r : List Nat) (hnul : ∀ b ∈ r, b ≠ 0) :
    scanToken r = (⟨"END", "nil"⟩, []) ∨
      ((scanToken r).1.Type_ ≠ "END" ∧ (scanToken r).2.length < r.length ∧
        ∀ b ∈ (scanToken r).2, b ≠ 0) := by
  cases hr : r.dropWhile whitespace with
  | nil => left; exact scanToken_of_blank r hr
  | cons c t =>
    right
    have hsuf : c :: t <:+ r := hr ▸ List.dropWhile_suffix whitespace
    have hc : c ≠ 0 := hnul c (hsuf.subset (List.mem_cons_self _ _))
    have hst : scanToken r = scanHead c t := by simp [scanToken, hr]
    rw [hst]
    have h2 : (scanHead c t).2 <:+ t := scanHead_suffix c t
    refine ⟨scanHead_not_end c t hc, ?_, ?_⟩
    · have := h2.length_le
      have := hsuf.length_le
      simp only [List.length_cons] at *
      omega
    · intro b hb
      exact hnul b (hsuf.subset (List.mem_cons_of_mem _ (h2.subset hb)))

theorem scanTokens_finite (n : Nat) : ∀ r : List Nat, r.length ≤ n → (∀ b ∈ r, b ≠ 0) →
    ∃ k, k ≤ r.length ∧ (∀ t ∈ scanTokens k r, t.Type_ ≠ "END") ∧
      ∀ m, scanTokens (k + m) r = scanTokens k r ++ List.replicate m ⟨"END", "nil"⟩ := by
  induction n with
  | zero =>
    intro r hr _
    have : r = [] := List.length_eq_zero.1 (Nat.le_zero.1 hr)
    subst this
    exact ⟨0, le_refl _, by simp [scanTokens], fun m => by simp [scanTokens, scanTokens_nil]⟩
  | succ n ih =>
    intro r hr hnul
    rcases scanToken_end_or_shorter r hnul with hend | ⟨hne, hlen, hnul2⟩
    · refine ⟨0, Nat.zero_le _, by simp [scanTokens], ?_⟩
      intro m
      cases m with
      | zero => simp [scanTokens]
      | succ j =>
        simp [scanTokens, hend, scanTokens_nil, List.replicate_succ]
    · obtain ⟨k, hk, hall, hrest⟩ := ih (scanToken r).2 (by omega) hnul2
      refine ⟨k + 1, by omega, ?_, ?_⟩
      · intro t ht
        simp only [scanTokens, List.mem_cons] at ht
        rcases ht with rfl | ht
        · exact hne
        · exact hall t ht
      · intro m
        have : k + 1 + m = (k + m) + 1 := by omega
        rw [this]
        simp only [scanTokens, hrest m, List.cons_append]

theorem whitespace_not_digit (w : Nat) (h : whitespace w = true) : digit w = false := by
  simp only [whitespace, Bool.or_eq_true, decide_eq_true_eq] at h
  rcases h with (((h | h) | h) | h) | h <;> subst h <;> decide

theorem whitespace_not_letter (w : Nat) (h : whitespace w = true) : letter w = false := by
  simp only [whitespace, Bool.or_eq_true, decide_eq_true_eq] at h
  rcases h with (((h | h) | h) | h) | h <;> subst h <;> decide

theorem takeWhile_append_none (f : Nat → Bool) (ws : List Nat) (hws : ∀ w ∈ ws, f w = false) :
    ∀ l : List Nat, (l ++ ws).takeWhile f = l.takeWhile f := by
  intro l
  induction l with
  | nil =>
    cases ws with
    | nil => rfl
    | cons w t => simp [List.takeWhile_cons, hws w (List.mem_cons_self _ _)]
  | cons a l ih =>
    simp only [List.cons_append, List.takeWhile_cons, ih]

theorem dropWhile_append_none (f : Nat → Bool) (ws : List Nat) (hws : ∀ w ∈ ws, f w = false) :
    ∀ l : List Nat, (l ++ ws).dropWhile f = l.dropWhile f ++ ws := by
  intro l
  induction l with
  | nil =>
    cases ws with
    | nil => rfl
    | cons w t => simp [List.dropWhile_cons, hws w (List.mem_cons_self _ _)]
  | cons a l ih =>
    simp only [List.cons_append, List.dropWhile_cons, ih]
    split_ifs <;> rfl

theorem scanTwo_append (c : Nat) (t ws : List Nat) (second : Nat) (both single : String)
    (hws : ∀ w ∈ ws, whitespace w = true) (h0 : second ≠ 0)
    (hs : whitespace second = false) :
    scanTwo c (t ++ ws) second both single
      = ((scanTwo c t second both single).1, (scanTwo c t second both single).2 ++ ws) := by
  unfold scanTwo
  cases t with
  | nil =>
    have h1 : ¬ (([] : List Nat) ++ ws).headD 0 = second := by
      cases ws with
      | nil => simpa using h0.symm
      | cons w t2 =>
        intro h
        simp only [List.nil_append, List.headD_cons] at h
        have := hws w (List.mem_cons_self _ _)
        rw [h, hs] at this
        exact absurd this (by decide)
    have h2 : ¬ ([] : List Nat).headD 0 = second := by simpa using h0.symm
    rw [if_neg h1, if_neg h2]
  | cons d t2 =>
    simp only [List.cons_append, List.headD_cons, List.tail_cons]
    split_ifs <;> rfl

theorem scanHead_append (c : Nat) (t ws : List Nat) (hws : ∀ w ∈ ws, whitespace w = true) :
    scanHead c (t ++ ws) = ((scanHead c t).1, (scanHead c t).2 ++ ws) := by
  have two : ∀ (second : Nat) (both single : String), second ≠ 0 →
      whitespace second = false →
      scanTwo c (t ++ ws) second both single
        = ((scanTwo c t second both single).1, (scanTwo c t second both single).2 ++ ws) :=
    fun second both single h0 hs => scanTwo_append c t ws second both single hws h0 hs
  have hd : ∀ w ∈ ws, digit w = false := fun w hw => whitespace_not_digit w (hws w hw)
  have hl : ∀ w ∈ ws, letter w = false := fun w hw => whitespace_not_letter w (hws w hw)
  have td := takeWhile_append_none digit ws hd (c :: t)
  have dd := dropWhile_append_none digit ws hd (c :: t)
  have tl := takeWhile_append_none letter ws hl (c :: t)
  have dl := dropWhile_append_none letter ws hl (c :: t)
  simp only [List.cons_append] at td dd tl dl
  simp only [scanHead]
  by_cases h61 : c = 61
  · simp only [if_pos h61]; exact two _ _ _ (by decide) (by decide)
  simp only [if_neg h61]
  by_cases h33 : c = 33
  · simp only [if_pos h33]; exact two _ _ _ (by decide) (by decide)
  simp only [if_neg h33]
  by_cases h60 : c = 60
  · simp only [if_pos h60]; exact two _ _ _ (by decide) (by decide)
  simp only [if_neg h60]
  by_cases h62 : c = 62
  · simp only [if_pos h62]; exact two _ _ _ (by decide) (by decide)
  simp only [if_neg h62]
  by_cases h38 : c = 38
  · simp only [if_pos h38]; exact two _ _ _ (by decide) (by decide)
  simp only [if_neg h38]
  by_cases h124 : c = 124
  · simp only [if_pos h124]; exact two _ _ _ (by decide) (by decide)
  simp only [if_neg h124]
  by_cases h43 : c = 43
  · simp only [if_pos h43]
  simp only [if_neg h43]
  by_cases h45 : c = 45
  · simp only [if_pos h45]
  simp only [if_neg h45]
  by_cases h42 : c = 42
  · simp only [if_pos h42]
  simp only [if_neg h42]
  by_cases h47 : c = 47
  · simp only [if_pos h47]
  simp only [if_neg h47]
  by_cases h37 : c = 37
  · simp only [if_pos h37]
  simp only [if_neg h37]
  by_cases h40 : c = 40
  · simp only [if_pos h40]
  simp only [if_neg h40]
  by_cases h41 : c = 41
  · simp only [if_pos h41]
  simp only [if_neg h41]
  by_cases h123 : c = 123
  · simp only [if_pos h123]
  simp only [if_neg h123]
  by_cases h125 : c = 125
  · simp only [if_pos h125]
  simp only [if_neg h125]
  by_cases h44 : c = 44
  · simp only [if_pos h44]
  simp only [if_neg h44]
  by_cases h0 : c = 0
  · simp only [if_pos h0]
  simp only [if_neg h0]
  by_cases hdc : digit c = true
  · simp only [if_pos hdc, td, dd]
  simp only [if_neg hdc]
  by_cases hlc : letter c = true
  · simp only [if_pos hlc, tl, dl]
  simp only [if_neg hlc]

theorem dropWhile_append_of_cons (f : Nat → Bool) (r ws : List Nat) (c : Nat) (t : List Nat)
    (h : r.dropWhile f = c :: t) : (r ++ ws).dropWhile f = c :: (t ++ ws) := by
  induction r with
  | nil => simp at h
  | cons a r ih =>
    simp only [List.cons_append, List.dropWhile_cons] at h ⊢
    split_ifs at h ⊢ with ha
    · exact ih h
    · cases h; rfl

theorem dropWhile_append_of_nil (f : Nat → Bool) (r ws : List Nat)
    (h : r.dropWhile f = []) (hws : ∀ w ∈ ws, f w = true) : (r ++ ws).dropWhile f = [] := by
  rw [List.dropWhile_eq_nil_iff] at h ⊢
  intro x hx
  rcases List.mem_append.1 hx with hx | hx
  · exact h x hx
  · exact hws x hx

theorem scanTokens_append_whitespace (ws : List Nat) (hws : ∀ w ∈ ws, whitespace w = true) :
    ∀ (n : Nat) (r : List Nat), scanTokens n (r ++ ws) = scanTokens n r := by
  intro n
  induction n with
  | zero => intro r; rfl
  | succ m ih =>
    intro r
    cases hr : r.dropWhile whitespace with
    | nil =>
      have h1 := scanToken_of_blank r hr
      have h2 := scanToken_of_blank (r ++ ws) (dropWhile_append_of_nil _ r ws hr hws)
      simp only [scanTokens, h1, h2]
    | cons c t =>
      have h1 : scanToken r = scanHead c t := by simp [scanToken, hr]
      have h2 : scanToken (r ++ ws) = scanHead c (t ++ ws) := by
        simp [scanToken, dropWhile_append_of_cons _ r ws c t hr]
      simp only [scanTokens, h1, h2, scanHead_append c t ws hws, ih]

/-- C8. For a non-empty source without NUL bytes: the lexer is created, the
first `k` calls of `ReadNextToken` return non-END tokens for some `k` not
above the length of the source, and every later call returns END; appending
whitespace to the source does not change the token returned by any call. -/
theorem token_stream_ends_in_END (source : List Nat) (hne : source ≠ [])
    (hnul : ∀ b ∈ source, b ≠ 0) :
    ∃ lexer, CreateLexer source = some lexer ∧
      (∃ k, k ≤ source.length ∧ (∀ t ∈ lexer.readTokens k, t.Type_ ≠ "END") ∧
        ∀ m, lexer.readTokens (k + m)
          = lexer.readTokens k ++ List.replicate m ⟨"END", "nil"⟩) ∧
      ∀ ws : List Nat, (∀ w ∈ ws, whitespace w = true) →
        ∃ lexer2, CreateLexer (source ++ ws) = some lexer2 ∧
          ∀ n, lexer2.readTokens n = lexer.readTokens n := by
  cases source with
  | nil => exact absurd rfl hne
  | cons c r =>
    refine ⟨Lexer.onRest [] (c :: r), rfl, ?_, ?_⟩
    · obtain ⟨k, hk, hall, hrest⟩ := scanTokens_finite (c :: r).length (c :: r) (le_refl _) hnul
      refine ⟨k, hk, ?_, ?_⟩
      · rw [readTokens_onRest]; exact hall
      · intro m; rw [readTokens_onRest, readTokens_onRest]; exact hrest m
    · intro ws hws
      refine ⟨Lexer.onRest [] (c :: (r ++ ws)), rfl, ?_⟩
      intro n
      rw [readTokens_onRest, readTokens_onRest]
      exact scanTokens_append_whitespace ws hws n (c :: r)

/-- Witness for C8: the source `x = 1`. -/
theorem token_stream_ends_in_END_witness :
    ∃ lexer, CreateLexer (bytes "x = 1") = some lexer ∧
      (∃ k, k ≤ (bytes "x = 1").length ∧ (∀ t ∈ lexer.readTokens k, t.Type_ ≠ "END") ∧
        ∀ m, lexer.readTokens (k + m)
          = lexer.readTokens k ++ List.replicate m ⟨"END", "nil"⟩) ∧
      ∀ ws : List Nat, (∀ w ∈ ws, whitespace w = true) →
        ∃ lexer2, CreateLexer (bytes "x = 1" ++ ws) = some lexer2 ∧
          ∀ n, lexer2.readTokens n = lexer.readTokens n :=
  token_stream_ends_in_END (bytes "x = 1") (by decide) (by decide)

/-! ## Parser: operator precedence -/

theorem parse_three_operands (l0 l1 l2 l3 l4 l5 l6 l7 : Lexer) (ta t1 tb t2 tc : Token)
    (va vb vc : Int) (p1 p2 : Nat) (count : Int)
    (h0 : l0.ReadNextToken = (ta, l1)) (h1 : l1.ReadNextToken = (t1, l2))
    (h2 : l2.ReadNextToken = (tb, l3)) (h3 : l3.ReadNextToken = (t2, l4))
    (h4 : l4.ReadNextToken = (tc, l5)) (h5 : l5.ReadNextToken = (⟨"END", "nil"⟩, l6))
    (h6 : l6.ReadNextToken = (⟨"END", "nil"⟩, l7))
    (hta : ta.Type_ = "INTEGER") (htb : tb.Type_ = "INTEGER") (htc : tc.Type_ = "INTEGER")
    (hva : strconvParseInt ta.Value = some va) (hvb : strconvParseInt tb.Value = some vb)
    (hvc : strconvParseInt tc.Value = some vc)
    (ht1 : t1.Type_ ≠ "INTEGER" ∧ t1.Type_ ≠ "IDENTIFIER")
    (ht2 : t2.Type_ ≠ "INTEGER" ∧ t2.Type_ ≠ "IDENTIFIER")
    (hp1 : opPrecedences t1.Value = some p1) (hp2 : opPrecedences t2.Value = some p2)
    (hpos1 : 0 < p1) (hpos2 : 0 < p2)
    (hi1 : infixExpFuncs t1.Value = true) (hi2 : infixExpFuncs t2.Value = true) (n : Nat) :
    (Parser.CreateParser l0 count).ParseProgram (n + 10)
      = some (⟨[.ExpressionStatement ta
          (if p1 < p2 then
            .InfixExpression t1 (.Integer ta va) t1.Value
              (.InfixExpression t2 (.Integer tb vb) t2.Value (.Integer tc vc))
          else
            .InfixExpression t2 (.InfixExpression t1 (.Integer ta va) t1.Value (.Integer tb vb))
              t2.Value (.Integer tc vc))]⟩,
        ⟨l7, ⟨"END", "nil"⟩, ⟨"END", "nil"⟩, [], 0⟩) := by
  have hend : opPrecedences "nil" = none := by decide
  by_cases hlt : p1 < p2
  · simp [Parser.CreateParser, Parser.ParseProgram, Parser.ParseProgramLoop, Parser.setTokens,
      h0, h1, h2, h3, h4, h5, h6, hta, htb, htc, END, IDENTIFIER, IF, WHILE, PRINT, INTEGER,
      Parser.parseStatement, Parser.parseExpressionStatement, Parser.parseExpression,
      prefixExpFuncs, Parser.callPrefix, Parser.parseInteger, hva, hvb, hvc, ht1, ht2,
      Parser.parseExpressionLoop, Parser.checkNextPrecedence, Parser.checkCurrentPrecedence,
      hp1, hp2, hpos1, hpos2, hi1, hi2, NILPRECEDENCE, Parser.parseInfix, hend, hlt,
      Statement.notNil]
  · simp [Parser.CreateParser, Parser.ParseProgram, Parser.ParseProgramLoop, Parser.setTokens,
      h0, h1, h2, h3, h4, h5, h6, hta, htb, htc, END, IDENTIFIER, IF, WHILE, PRINT, INTEGER,
      Parser.parseStatement, Parser.parseExpressionStatement, Parser.parseExpression,
      prefixExpFuncs, Parser.callPrefix, Parser.parseInteger, hva, hvb, hvc, ht1, ht2,
      Parser.parseExpressionLoop, Parser.checkNextPrecedence, Parser.checkCurrentPrecedence,
      hp1, hp2, hpos1, hpos2, hi1, hi2, NILPRECEDENCE, Parser.parseInfix, hend, hlt,
      Statement.notNil]

theorem textOf_digitBytes (ds : List Nat) : textOf (digitBytes ds) = digitText ds := by
  simp [textOf, digitBytes, digitText, List.map_map, Function.comp_def]

theorem literalValue_of_isLiteral (ds : List Nat) (h : isLiteral ds) :
    literalValue ds = some (Nat.ofDigits 10 ds.reverse) := by
  obtain ⟨hne, -, hzero⟩ := h
  unfold literalValue
  by_cases h0 : ds.head? = some 0
  · have hlen := hzero h0
    rcases ds with _ | ⟨d, rest⟩
    · exact absurd rfl hne
    · have hr : rest = [] := List.length_eq_zero.1 (by simpa using hlen)
      subst hr
      simp only [List.head?_cons, Option.some.injEq] at h0
      subst h0
      simp
  · rw [if_neg h0]

theorem strconvParseInt_literal (ds : List Nat) (h : isLiteral ds)
    (hv : Nat.ofDigits 10 ds.reverse < 9223372036854775808) :
    strconvParseInt (digitText ds) = some (Int.ofNat (Nat.ofDigits 10 ds.reverse)) := by
  rw [strconvParseInt_digits ds h.1 h.2.1, literalValue_of_isLiteral ds h]
  simp [hv]

theorem scanHead_digit (c : Nat) (t : List Nat) (h : digit c = true) :
    scanHead c t
      = (⟨"INTEGER", textOf ((c :: t).takeWhile digit)⟩, (c :: t).dropWhile digit) := by
  have hb : 48 ≤ c ∧ c ≤ 57 := by simpa [digit] using h
  simp only [scanHead]
  rw [if_neg (show ¬ c = 61 by omega), if_neg (show ¬ c = 33 by omega),
    if_neg (show ¬ c = 60 by omega), if_neg (show ¬ c = 62 by omega),
    if_neg (show ¬ c = 38 by omega), if_neg (show ¬ c = 124 by omega),
    if_neg (show ¬ c = 43 by omega), if_neg (show ¬ c = 45 by omega),
    if_neg (show ¬ c = 42 by omega), if_neg (show ¬ c = 47 by omega),
    if_neg (show ¬ c = 37 by omega), if_neg (show ¬ c = 40 by omega),
    if_neg (show ¬ c = 41 by omega), if_neg (show ¬ c = 123 by omega),
    if_neg (show ¬ c = 125 by omega), if_neg (show ¬ c = 44 by omega),
    if_neg (show ¬ c = 0 by omega), if_pos h]

theorem digit_digitByte (d : Nat) (h : d < 10) : digit (48 + d) = true := by
  simp [digit]; omega

theorem takeWhile_digitBytes (ds rest : List Nat) (hds : ∀ d ∈ ds, d < 10)
    (hrest : digit (rest.headD 0) = false) :
    (digitBytes ds ++ rest).takeWhile digit = digitBytes ds
      ∧ (digitBytes ds ++ rest).dropWhile digit = rest := by
  induction ds with
  | nil =>
    cases rest with
    | nil => exact ⟨rfl, rfl⟩
    | cons r t =>
      simp only [List.headD_cons] at hrest
      simp [digitBytes, List.takeWhile_cons, List.dropWhile_cons, hrest]
  | cons d ds ih =>
    have hd := digit_digitByte d (hds d (List.mem_cons_self _ _))
    have ih2 := ih (fun x hx => hds x (List.mem_cons_of_mem _ hx))
    simp only [digitBytes, List.map_cons, List.cons_append, List.takeWhile_cons,
      List.dropWhile_cons, hd, if_true] at ih2 ⊢
    exact ⟨by rw [ih2.1], ih2.2⟩

theorem scanToken_space (r : List Nat) : scanToken (32 :: r) = scanToken r := by
  simp [scanToken, List.dropWhile_cons, whitespace]

theorem scanToken_literal (ds rest : List Nat) (hne : ds ≠ []) (hds : ∀ d ∈ ds, d < 10)
    (hrest : digit (rest.headD 0) = false) :
    scanToken (digitBytes ds ++ rest) = (⟨"INTEGER", digitText ds⟩, rest) := by
  obtain ⟨h1, h2⟩ := takeWhile_digitBytes ds rest hds hrest
  rcases ds with _ | ⟨d, ds2⟩
  · exact absurd rfl hne
  · have hd := digit_digitByte d (hds d (List.mem_cons_self _ _))
    have hw : whitespace (48 + d) = false := by
      cases hwd : whitespace (48 + d) with
      | false => rfl
      | true => rw [whitespace_not_digit _ hwd] at hd; exact absurd hd (by decide)
    have hdrop : (digitBytes (d :: ds2) ++ rest).dropWhile whitespace
        = (48 + d) :: (digitBytes ds2 ++ rest) := by
      simp [digitBytes, List.dropWhile_cons, hw]
    have hcons : (48 + d) :: (digitBytes ds2 ++ rest) = digitBytes (d :: ds2) ++ rest := rfl
    simp only [scanToken, hdrop]
    rw [scanHead_digit _ _ hd, hcons, h1, h2, textOf_digitBytes]

theorem scanToken_operator : ∀ e ∈ operatorTable, ∀ rest : List Nat,
    scanToken (32 :: (e.1 ++ 32 :: rest)) = (e.2, 32 :: rest) := by
  intro e he rest
  simp only [operatorTable, List.mem_cons, List.mem_singleton, List.not_mem_nil, or_false] at he
  rcases he with rfl | rfl | rfl | rfl | rfl | rfl | rfl | rfl | rfl | rfl | rfl | rfl | rfl <;>
    simp [scanToken, scanHead, scanTwo, List.dropWhile_cons, whitespace] <;> decide

theorem operatorTable_facts : ∀ e ∈ operatorTable,
    e.2.Type_ ≠ "INTEGER" ∧ e.2.Type_ ≠ "IDENTIFIER" ∧
      opPrecedences e.2.Value = some (precedenceOf e.2) ∧ 0 < precedenceOf e.2 ∧
      infixExpFuncs e.2.Value = true := by
  decide

theorem lex_three_operands (a b c : List Nat) (e1 e2 : List Nat × Token)
    (ha : isLiteral a) (hb : isLiteral b) (hc : isLiteral c)
    (he1 : e1 ∈ operatorTable) (he2 : e2 ∈ operatorTable) :
    ∃ l0 l1 l2 l3 l4 l5 l6 l7 : Lexer,
      CreateLexer (digitBytes a ++ 32 :: (e1.1 ++ 32 :: (digitBytes b ++ 32 ::
        (e2.1 ++ 32 :: digitBytes c)))) = some l0 ∧
      l0.ReadNextToken = (⟨"INTEGER", digitText a⟩, l1) ∧
      l1.ReadNextToken = (e1.2, l2) ∧
      l2.ReadNextToken = (⟨"INTEGER", digitText b⟩, l3) ∧
      l3.ReadNextToken = (e2.2, l4) ∧
      l4.ReadNextToken = (⟨"INTEGER", digitText c⟩, l5) ∧
      l5.ReadNextToken = (⟨"END", "nil"⟩, l6) ∧
      l6.ReadNextToken = (⟨"END", "nil"⟩, l7) := by
  have hsp : ∀ r : List Nat, digit ((32 :: r).headD 0) = false := fun r => by
    simp only [List.headD_cons]; decide
  have s0 := scanToken_literal a (32 :: (e1.1 ++ 32 :: (digitBytes b ++ 32 ::
    (e2.1 ++ 32 :: digitBytes c)))) ha.1 ha.2.1 (hsp _)
  have s1 := scanToken_operator e1 he1 (digitBytes b ++ 32 :: (e2.1 ++ 32 :: digitBytes c))
  have s2 : scanToken (32 :: (digitBytes b ++ 32 :: (e2.1 ++ 32 :: digitBytes c)))
      = (⟨"INTEGER", digitText b⟩, 32 :: (e2.1 ++ 32 :: digitBytes c)) := by
    rw [scanToken_space]; exact scanToken_literal b _ hb.1 hb.2.1 (hsp _)
  have s3 := scanToken_operator e2 he2 (digitBytes c)
  have s4 : scanToken (32 :: digitBytes c) = (⟨"INTEGER", digitText c⟩, []) := by
    rw [scanToken_space]
    have := scanToken_literal c [] hc.1 hc.2.1 (by decide)
    rwa [List.append_nil] at this
  obtain ⟨q1, h1⟩ := readNextToken_onRest [] (digitBytes a ++ 32 :: (e1.1 ++ 32 ::
    (digitBytes b ++ 32 :: (e2.1 ++ 32 :: digitBytes c))))
  rw [s0] at h1
  obtain ⟨q2, h2⟩ := readNextToken_onRest q1 (32 :: (e1.1 ++ 32 ::
    (digitBytes b ++ 32 :: (e2.1 ++ 32 :: digitBytes c))))
  rw [s1] at h2
  obtain ⟨q3, h3⟩ := readNextToken_onRest q2 (32 :: (digitBytes b ++ 32 ::
    (e2.1 ++ 32 :: digitBytes c)))
  rw [s2] at h3
  obtain ⟨q4, h4⟩ := readNextToken_onRest q3 (32 :: (e2.1 ++ 32 :: digitBytes c))
  rw [s3] at h4
  obtain ⟨q5, h5⟩ := readNextToken_onRest q4 (32 :: digitBytes c)
  rw [s4] at h5
  obtain ⟨q6, h6⟩ := readNextToken_onRest q5 []
  rw [scanToken_nil] at h6
  obtain ⟨q7, h7⟩ := readNextToken_onRest q6 []
  rw [scanToken_nil] at h7
  refine ⟨_, _, _, _, _, _, _, _, ?_, h1, h2, h3, h4, h5, h6, h7⟩
  obtain ⟨hne, -, -⟩ := ha
  rcases a with _ | ⟨d, a2⟩
  · exact absurd rfl hne
  · rfl

theorem scanToken_open (r : List Nat) :
    scanToken (40 :: r) = (⟨"LEFTPARENTHESES", "("⟩, r) := by
  simp [scanToken, scanHead, List.dropWhile_cons, whitespace]
  rfl

theorem scanToken_close (r : List Nat) :
    scanToken (41 :: r) = (⟨"RIGHTPARENTHESES", ")"⟩, r) := by
  simp [scanToken, scanHead, List.dropWhile_cons, whitespace]
  rfl

theorem readNextToken_scan (p r : List Nat) (t : Token) (rest : List Nat)
    (h : scanToken r = (t, rest)) :
    ∃ q, (Lexer.onRest p r).ReadNextToken = (t, Lexer.onRest q rest) := by
  obtain ⟨q, hq⟩ := readNextToken_onRest p r
  rw [h] at hq
  exact ⟨q, hq⟩

/-- The tokens of `(a p b) q c`. -/
theorem lex_parenthesised_left (a b c : List Nat) (e1 e2 : List Nat × Token)
    (ha : isLiteral a) (hb : isLiteral b) (hc : isLiteral c)
    (he1 : e1 ∈ operatorTable) (he2 : e2 ∈ operatorTable) :
    ∃ l0 l1 l2 l3 l4 l5 l6 l7 l8 l9 : Lexer,
      CreateLexer (40 :: (digitBytes a ++ 32 :: (e1.1 ++ 32 :: (digitBytes b ++ 41 :: 32 ::
        (e2.1 ++ 32 :: digitBytes c))))) = some l0 ∧
      l0.ReadNextToken = (⟨"LEFTPARENTHESES", "("⟩, l1) ∧
      l1.ReadNextToken = (⟨"INTEGER", digitText a⟩, l2) ∧
      l2.ReadNextToken = (e1.2, l3) ∧
      l3.ReadNextToken = (⟨"INTEGER", digitText b⟩, l4) ∧
      l4.ReadNextToken = (⟨"RIGHTPARENTHESES", ")"⟩, l5) ∧
      l5.ReadNextToken = (e2.2, l6) ∧
      l6.ReadNextToken = (⟨"INTEGER", digitText c⟩, l7) ∧
      l7.ReadNextToken = (⟨"END", "nil"⟩, l8) ∧
      l8.ReadNextToken = (⟨"END", "nil"⟩, l9) := by
  have hsp : ∀ r : List Nat, digit ((32 :: r).headD 0) = false := fun r => by
    simp only [List.headD_cons]; decide
  have hcl : ∀ r : List Nat, digit ((41 :: r).headD 0) = false := fun r => by
    simp only [List.headD_cons]; decide
  have s0 := scanToken_open (digitBytes a ++ 32 :: (e1.1 ++ 32 :: (digitBytes b ++ 41 :: 32 ::
    (e2.1 ++ 32 :: digitBytes c))))
  have s1 := scanToken_literal a (32 :: (e1.1 ++ 32 :: (digitBytes b ++ 41 :: 32 ::
    (e2.1 ++ 32 :: digitBytes c)))) ha.1 ha.2.1 (hsp _)
  have s2 := scanToken_operator e1 he1 (digitBytes b ++ 41 :: 32 :: (e2.1 ++ 32 :: digitBytes c))
  have s3 : scanToken (32 :: (digitBytes b ++ 41 :: 32 :: (e2.1 ++ 32 :: digitBytes c)))
      = (⟨"INTEGER", digitText b⟩, 41 :: 32 :: (e2.1 ++ 32 :: digitBytes c)) := by
    rw [scanToken_space]; exact scanToken_literal b _ hb.1 hb.2.1 (hcl _)
  have s4 := scanToken_close (32 :: (e2.1 ++ 32 :: digitBytes c))
  have s5 := scanToken_operator e2 he2 (digitBytes c)
  have s6 : scanToken (32 :: digitBytes c) = (⟨"INTEGER", digitText c⟩, []) := by
    rw [scanToken_space]
    have := scanToken_literal c [] hc.1 hc.2.1 (by decide)
    rwa [List.append_nil] at this
  obtain ⟨q1, h0⟩ := readNextToken_scan [] _ _ _ s0
  obtain ⟨q2, h1⟩ := readNextToken_scan q1 _ _ _ s1
  obtain ⟨q3, h2⟩ := readNextToken_scan q2 _ _ _ s2
  obtain ⟨q4, h3⟩ := readNextToken_scan q3 _ _ _ s3
  obtain ⟨q5, h4⟩ := readNextToken_scan q4 _ _ _ s4
  obtain ⟨q6, h5⟩ := readNextToken_scan q5 _ _ _ s5
  obtain ⟨q7, h6⟩ := readNextToken_scan q6 _ _ _ s6
  obtain ⟨q8, h7⟩ := readNextToken_scan q7 _ _ _ scanToken_nil
  obtain ⟨q9, h8⟩ := readNextToken_scan q8 _ _ _ scanToken_nil
  exact ⟨_, _, _, _, _, _, _, _, _, _, createLexer_cons _ _, h0, h1, h2, h3, h4, h5, h6, h7, h8⟩

/-- The tokens of `a p (b q c)`. -/
theorem lex_parenthesised_right (a b c : List Nat) (e1 e2 : List Nat × Token)
    (ha : isLiteral a) (hb : isLiteral b) (hc : isLiteral c)
    (he1 : e1 ∈ operatorTable) (he2 : e2 ∈ operatorTable) :
    ∃ l0 l1 l2 l3 l4 l5 l6 l7 l8 l9 : Lexer,
      CreateLexer (digitBytes a ++ 32 :: (e1.1 ++ 32 :: 40 :: (digitBytes b ++ 32 ::
        (e2.1 ++ 32 :: (digitBytes c ++ [41]))))) = some l0 ∧
      l0.ReadNextToken = (⟨"INTEGER", digitText a⟩, l1) ∧
      l1.ReadNextToken = (e1.2, l2) ∧
      l2.ReadNextToken = (⟨"LEFTPARENTHESES", "("⟩, l3) ∧
      l3.ReadNextToken = (⟨"INTEGER", digitText b⟩, l4) ∧
      l4.ReadNextToken = (e2.2, l5) ∧
      l5.ReadNextToken = (⟨"INTEGER", digitText c⟩, l6) ∧
      l6.ReadNextToken = (⟨"RIGHTPARENTHESES", ")"⟩, l7) ∧
      l7.ReadNextToken = (⟨"END", "nil"⟩, l8) ∧
      l8.ReadNextToken = (⟨"END", "nil"⟩, l9) := by
  have hsp : ∀ r : List Nat, digit ((32 :: r).headD 0) = false := fun r => by
    simp only [List.headD_cons]; decide
  have s0 := scanToken_literal a (32 :: (e1.1 ++ 32 :: 40 :: (digitBytes b ++ 32 ::
    (e2.1 ++ 32 :: (digitBytes c ++ [41]))))) ha.1 ha.2.1 (hsp _)
  have s1 := scanToken_operator e1 he1 (40 :: (digitBytes b ++ 32 ::
    (e2.1 ++ 32 :: (digitBytes c ++ [41]))))
  have s2 : scanToken (32 :: 40 :: (digitBytes b ++ 32 :: (e2.1 ++ 32 :: (digitBytes c ++ [41]))))
      = (⟨"LEFTPARENTHESES", "("⟩,
          digitBytes b ++ 32 :: (e2.1 ++ 32 :: (digitBytes c ++ [41]))) := by
    rw [scanToken_space]; exact scanToken_open _
  have s3 := scanToken_literal b (32 :: (e2.1 ++ 32 :: (digitBytes c ++ [41]))) hb.1 hb.2.1
    (hsp _)
  have s4 := scanToken_operator e2 he2 (digitBytes c ++ [41])
  have s5 : scanToken (32 :: (digitBytes c ++ [41])) = (⟨"INTEGER", digitText c⟩, [41]) := by
    rw [scanToken_space]
    exact scanToken_literal c [41] hc.1 hc.2.1 (by decide)
  have s6 := scanToken_close []
  obtain ⟨q1, h0⟩ := readNextToken_scan [] _ _ _ s0
  obtain ⟨q2, h1⟩ := readNextToken_scan q1 _ _ _ s1
  obtain ⟨q3, h2⟩ := readNextToken_scan q2 _ _ _ s2
  obtain ⟨q4, h3⟩ := readNextToken_scan q3 _ _ _ s3
  obtain ⟨q5, h4⟩ := readNextToken_scan q4 _ _ _ s4
  obtain ⟨q6, h5⟩ := readNextToken_scan q5 _ _ _ s5
  obtain ⟨q7, h6⟩ := readNextToken_scan q6 _ _ _ s6
  obtain ⟨q8, h7⟩ := readNextToken_scan q7 _ _ _ scanToken_nil
  obtain ⟨q9, h8⟩ := readNextToken_scan q8 _ _ _ scanToken_nil
  have hl : CreateLexer (digitBytes a ++ 32 :: (e1.1 ++ 32 :: 40 :: (digitBytes b ++ 32 ::
      (e2.1 ++ 32 :: (digitBytes c ++ [41])))))
      = some (Lexer.onRest [] (digitBytes a ++ 32 :: (e1.1 ++ 32 :: 40 :: (digitBytes b ++ 32 ::
        (e2.1 ++ 32 :: (digitBytes c ++ [41])))))) := by
    obtain ⟨hne, -, -⟩ := ha
    rcases a with _ | ⟨d, a2⟩
    · exact absurd rfl hne
    · rfl
  exact ⟨_, _, _, _, _, _, _, _, _, _, hl, h0, h1, h2, h3, h4, h5, h6, h7, h8⟩

/-- The parser on the tokens of `(a p b) q c`. -/
theorem parse_parenthesised_left (l0 l1 l2 l3 l4 l5 l6 l7 l8 l9 : Lexer)
    (ta t1 tb t2 tc : Token) (va vb vc : Int) (p1 p2 : Nat) (count : Int)
    (h0 : l0.ReadNextToken = (⟨"LEFTPARENTHESES", "("⟩, l1))
    (h1 : l1.ReadNextToken = (ta, l2)) (h2 : l2.ReadNextToken = (t1, l3))
    (h3 : l3.ReadNextToken = (tb, l4))
    (h4 : l4.ReadNextToken = (⟨"RIGHTPARENTHESES", ")"⟩, l5))
    (h5 : l5.ReadNextToken = (t2, l6)) (h6 : l6.ReadNextToken = (tc, l7))
    (h7 : l7.ReadNextToken = (⟨"END", "nil"⟩, l8))
    (h8 : l8.ReadNextToken = (⟨"END", "nil"⟩, l9))
    (hta : ta.Type_ = "INTEGER") (htb : tb.Type_ = "INTEGER") (htc : tc.Type_ = "INTEGER")
    (hva : strconvParseInt ta.Value = some va) (hvb : strconvParseInt tb.Value = some vb)
    (hvc : strconvParseInt tc.Value = some vc)
    (ht1 : t1.Type_ ≠ "INTEGER" ∧ t1.Type_ ≠ "IDENTIFIER")
    (ht2 : t2.Type_ ≠ "INTEGER" ∧ t2.Type_ ≠ "IDENTIFIER")
    (hp1 : opPrecedences t1.Value = some p1) (hp2 : opPrecedences t2.Value = some p2)
    (hpos1 : 0 < p1) (hpos2 : 0 < p2)
    (hi1 : infixExpFuncs t1.Value = true) (hi2 : infixExpFuncs t2.Value = true) (n : Nat) :
    (Parser.CreateParser l0 count).ParseProgram (n + 12)
      = some (⟨[.ExpressionStatement ⟨"LEFTPARENTHESES", "("⟩
          (.InfixExpression t2 (.InfixExpression t1 (.Integer ta va) t1.Value (.Integer tb vb))
            t2.Value (.Integer tc vc))]⟩,
        ⟨l9, ⟨"END", "nil"⟩, ⟨"END", "nil"⟩, [], 0⟩) := by
  have hend : opPrecedences "nil" = none := by decide
  have hclose : opPrecedences ")" = none := by decide
  simp [Parser.CreateParser, Parser.ParseProgram, Parser.ParseProgramLoop, Parser.setTokens,
    h0, h1, h2, h3, h4, h5, h6, h7, h8, hta, htb, htc, END, IDENTIFIER, IF, WHILE, PRINT,
    INTEGER, Parser.parseStatement, Parser.parseExpressionStatement, Parser.parseExpression,
    prefixExpFuncs, Parser.callPrefix, Parser.parseInteger, Parser.parseBoundExpression,
    Parser.expectNext, hva, hvb, hvc, ht1, ht2,
    Parser.parseExpressionLoop, Parser.checkNextPrecedence, Parser.checkCurrentPrecedence,
    hp1, hp2, hpos1, hpos2, hi1, hi2, NILPRECEDENCE, Parser.parseInfix, hend, hclose,
    Statement.notNil]

/-- The parser on the tokens of `a p (b q c)`. -/
theorem parse_parenthesised_right (l0 l1 l2 l3 l4 l5 l6 l7 l8 l9 : Lexer)
    (ta t1 tb t2 tc : Token) (va vb vc : Int) (p1 p2 : Nat) (count : Int)
    (h0 : l0.ReadNextToken = (ta, l1)) (h1 : l1.ReadNextToken = (t1, l2))
    (h2 : l2.ReadNextToken = (⟨"LEFTPARENTHESES", "("⟩, l3))
    (h3 : l3.ReadNextToken = (tb, l4)) (h4 : l4.ReadNextToken = (t2, l5))
    (h5 : l5.ReadNextToken = (tc, l6))
    (h6 : l6.ReadNextToken = (⟨"RIGHTPARENTHESES", ")"⟩, l7))
    (h7 : l7.ReadNextToken = (⟨"END", "nil"⟩, l8))
    (h8 : l8.ReadNextToken = (⟨"END", "nil"⟩, l9))
    (hta : ta.Type_ = "INTEGER") (htb : tb.Type_ = "INTEGER") (htc : tc.Type_ = "INTEGER")
    (hva : strconvParseInt ta.Value = some va) (hvb : strconvParseInt tb.Value = some vb)
    (hvc : strconvParseInt tc.Value = some vc)
    (ht1 : t1.Type_ ≠ "INTEGER" ∧ t1.Type_ ≠ "IDENTIFIER")
    (ht2 : t2.Type_ ≠ "INTEGER" ∧ t2.Type_ ≠ "IDENTIFIER")
    (hp1 : opPrecedences t1.Value = some p1) (hp2 : opPrecedences t2.Value = some p2)
    (hpos1 : 0 < p1) (hpos2 : 0 < p2)
    (hi1 : infixExpFuncs t1.Value = true) (hi2 : infixExpFuncs t2.Value = true) (n : Nat) :
    (Parser.CreateParser l0 count).ParseProgram (n + 12)
      = some (⟨[.ExpressionStatement ta
          (.InfixExpression t1 (.Integer ta va) t1.Value
            (.InfixExpression t2 (.Integer tb vb) t2.Value (.Integer tc vc)))]⟩,
        ⟨l9, ⟨"END", "nil"⟩, ⟨"END", "nil"⟩, [], 0⟩) := by
  have hend : opPrecedences "nil" = none := by decide
  have hclose : opPrecedences ")" = none := by decide
  simp [Parser.CreateParser, Parser.ParseProgram, Parser.ParseProgramLoop, Parser.setTokens,
    h0, h1, h2, h3, h4, h5, h6, h7, h8, hta, htb, htc, END, IDENTIFIER, IF, WHILE, PRINT,
    INTEGER, Parser.parseStatement, Parser.parseExpressionStatement, Parser.parseExpression,
    prefixExpFuncs, Parser.callPrefix, Parser.parseInteger, Parser.parseBoundExpression,
    Parser.expectNext, hva, hvb, hvc, ht1, ht2,
    Parser.parseExpressionLoop, Parser.checkNextPrecedence, Parser.checkCurrentPrecedence,
    hp1, hp2, hpos1, hpos2, hi1, hi2, NILPRECEDENCE, Parser.parseInfix, hend, hclose,
    Statement.notNil]

/-- A parenthesised group is one operand: when the tokens after `(` parse, with
the lowest bound, to `e` and the next token is `)`, `parseBoundExpression`
returns `e` with `)` as current token, and `parseExpression` goes on exactly as
after any other operand: the missing-operator check, then the operator loop
with `e` as left operand. -/
theorem parseExpression_parenthesised (fuel precedence : Nat) (fromPrint : Bool)
    (p after : Parser) (e : Expression)
    (hopen : p.currentToken.Type_ = "LEFTPARENTHESES")
    (hinner : Parser.parseExpression fuel NILPRECEDENCE false p.setTokens = some (e, after))
    (hclose : after.nextToken.Type_ = "RIGHTPARENTHESES") :
    Parser.parseBoundExpression (fuel + 1) p = some (e, after.setTokens)
    ∧ Parser.parseExpression (fuel + 2) precedence fromPrint p
      = (if !fromPrint ∧ (after.setTokens.nextToken.Type_ = "INTEGER"
            ∨ after.setTokens.nextToken.Type_ = "IDENTIFIER") then
          some (.nil, after.setTokens.logError after.setTokens.nextToken.Value)
        else Parser.parseExpressionLoop (fuel + 1) precedence e after.setTokens) := by
  have hbound : Parser.parseBoundExpression (fuel + 1) p = some (e, after.setTokens) := by
    simp [Parser.parseBoundExpression, hinner, Parser.expectNext, hclose]
  refine ⟨hbound, ?_⟩
  have hprefix2 : prefixExpFuncs p.currentToken.Type_ = some .parseBoundExpression := by
    rw [hopen]; decide
  rw [Parser.parseExpression, hprefix2]
  simp only [Parser.callPrefix, hbound]

/-- C2. For operators `p`, `q` of the precedence table and decimal literals
`a`, `b`, `c` without leading zeros and within int64, the source `a p b q c`
parses without error into the single expression statement
`Infix(p, a, Infix(q, b, c))` when `q` has the higher precedence and
`Infix(q, Infix(p, a, b), c)` otherwise.  A parenthesised sub-expression is one
operand: whatever the precedences of `p` and `q`, `(a p b) q c` parses without
error into `Infix(q, Infix(p, a, b), c)` and `a p (b q c)` into
`Infix(p, a, Infix(q, b, c))`; and for any parser on `(`, when the tokens after
it parse (with the lowest bound) to `e` and `)` follows, `parseBoundExpression`
returns `e` and `parseExpression` goes on as after any other operand, with `e`
as the left operand of the operator loop.  `1 + 2 * 3`, `(1 + 2) * 3`,
`10 - 4 - 3` evaluate to 7, 9, 3. -/
theorem operator_precedence_parse (a b c : List Nat) (p q : List Nat × Token)
    (ha : isLiteral a) (hb : isLiteral b) (hc : isLiteral c)
    (hva : Nat.ofDigits 10 a.reverse < 9223372036854775808)
    (hvb : Nat.ofDigits 10 b.reverse < 9223372036854775808)
    (hvc : Nat.ofDigits 10 c.reverse < 9223372036854775808)
    (hp : p ∈ operatorTable) (hq : q ∈ operatorTable) (n : Nat) :
    parseSource (n + 10)
        (digitBytes a ++ 32 :: (p.1 ++ 32 :: (digitBytes b ++ 32 :: (q.1 ++ 32 :: digitBytes c))))
      = some (⟨[.ExpressionStatement ⟨"INTEGER", digitText a⟩
          (if precedenceOf p.2 < precedenceOf q.2 then
            .InfixExpression p.2 (literalNode a) p.2.Value
              (.InfixExpression q.2 (literalNode b) q.2.Value (literalNode c))
          else
            .InfixExpression q.2 (.InfixExpression p.2 (literalNode a) p.2.Value (literalNode b))
              q.2.Value (literalNode c))]⟩, [])
    ∧ parseSource 100 (bytes "(1 + 2) * 3")
      = some (⟨[.ExpressionStatement ⟨"LEFTPARENTHESES", "("⟩
          (.InfixExpression ⟨"MULTIPLY", "*"⟩
            (.InfixExpression ⟨"PLUS", "+"⟩ (.Integer ⟨"INTEGER", "1"⟩ 1) "+"
              (.Integer ⟨"INTEGER", "2"⟩ 2))
            "*" (.Integer ⟨"INTEGER", "3"⟩ 3))]⟩, [])
    ∧ (parseSource 100 (bytes "1 + 2 * 3")).map
        (fun r => (r.2, Evaluate 100 (.Program r.1) ⟨CreateSymbolTable, ""⟩))
      = some ([], .value (.Integer 7, ⟨CreateSymbolTable, ""⟩))
    ∧ (parseSource 100 (bytes "(1 + 2) * 3")).map
        (fun r => (r.2, Evaluate 100 (.Program r.1) ⟨CreateSymbolTable, ""⟩))
      = some ([], .value (.Integer 9, ⟨CreateSymbolTable, ""⟩))
    ∧ (parseSource 100 (bytes "10 - 4 - 3")).map
        (fun r => (r.2, Evaluate 100 (.Program r.1) ⟨CreateSymbolTable, ""⟩))
      = some ([], .value (.Integer 3, ⟨CreateSymbolTable, ""⟩))
    ∧ parseSource (n + 12)
        (40 :: (digitBytes a ++ 32 :: (p.1 ++ 32 :: (digitBytes b ++ 41 :: 32 ::
          (q.1 ++ 32 :: digitBytes c)))))
      = some (⟨[.ExpressionStatement ⟨"LEFTPARENTHESES", "("⟩
          (.InfixExpression q.2
            (.InfixExpression p.2 (literalNode a) p.2.Value (literalNode b))
            q.2.Value (literalNode c))]⟩, [])
    ∧ parseSource (n + 12)
        (digitBytes a ++ 32 :: (p.1 ++ 32 :: 40 :: (digitBytes b ++ 32 ::
          (q.1 ++ 32 :: (digitBytes c ++ [41])))))
      = some (⟨[.ExpressionStatement ⟨"INTEGER", digitText a⟩
          (.InfixExpression p.2 (literalNode a) p.2.Value
            (.InfixExpression q.2 (literalNode b) q.2.Value (literalNode c)))]⟩, [])
    ∧ (∀ (fuel precedence : Nat) (fromPrint : Bool) (parser after : Parser) (e : Expression),
        parser.currentToken.Type_ = "LEFTPARENTHESES" →
        Parser.parseExpression fuel NILPRECEDENCE false parser.setTokens = some (e, after) →
        after.nextToken.Type_ = "RIGHTPARENTHESES" →
        Parser.parseBoundExpression (fuel + 1) parser = some (e, after.setTokens)
          ∧ Parser.parseExpression (fuel + 2) precedence fromPrint parser
            = (if !fromPrint ∧ (after.setTokens.nextToken.Type_ = "INTEGER"
                  ∨ after.setTokens.nextToken.Type_ = "IDENTIFIER") then
                some (.nil, after.setTokens.logError after.setTokens.nextToken.Value)
              else Parser.parseExpressionLoop (fuel + 1) precedence e after.setTokens)) := by
  obtain ⟨hp1, hp2, hp3, hp4, hp5⟩ := operatorTable_facts p hp
  obtain ⟨hq1, hq2, hq3, hq4, hq5⟩ := operatorTable_facts q hq
  refine ⟨?_, parsed_eq_of_beq (by decide!), by decide!, by decide!, by decide!, ?_, ?_, ?_⟩
  · obtain ⟨l0, l1, l2, l3, l4, l5, l6, l7, hl, h0, h1, h2, h3, h4, h5, h6⟩ :=
      lex_three_operands a b c p q ha hb hc hp hq
    have hparse := parse_three_operands l0 l1 l2 l3 l4 l5 l6 l7 ⟨"INTEGER", digitText a⟩ p.2
      ⟨"INTEGER", digitText b⟩ q.2 ⟨"INTEGER", digitText c⟩ _ _ _ _ _ 0 h0 h1 h2 h3 h4 h5 h6
      rfl rfl rfl (strconvParseInt_literal a ha hva) (strconvParseInt_literal b hb hvb)
      (strconvParseInt_literal c hc hvc) ⟨hp1, hp2⟩ ⟨hq1, hq2⟩ hp3 hq3 hp4 hq4 hp5 hq5 n
    unfold parseSource
    rw [hl]
    show Option.map _ (Parser.ParseProgram (n + 10) (Parser.CreateParser l0 0)) = _
    rw [hparse]
    rfl
  · obtain ⟨l0, l1, l2, l3, l4, l5, l6, l7, l8, l9, hl, h0, h1, h2, h3, h4, h5, h6, h7, h8⟩ :=
      lex_parenthesised_left a b c p q ha hb hc hp hq
    have hparse := parse_parenthesised_left l0 l1 l2 l3 l4 l5 l6 l7 l8 l9
      ⟨"INTEGER", digitText a⟩ p.2 ⟨"INTEGER", digitText b⟩ q.2 ⟨"INTEGER", digitText c⟩
      _ _ _ _ _ 0 h0 h1 h2 h3 h4 h5 h6 h7 h8
      rfl rfl rfl (strconvParseInt_literal a ha hva) (strconvParseInt_literal b hb hvb)
      (strconvParseInt_literal c hc hvc) ⟨hp1, hp2⟩ ⟨hq1, hq2⟩ hp3 hq3 hp4 hq4 hp5 hq5 n
    unfold parseSource
    rw [hl]
    show Option.map _ (Parser.ParseProgram (n + 12) (Parser.CreateParser l0 0)) = _
    rw [hparse]
    rfl
  · obtain ⟨l0, l1, l2, l3, l4, l5, l6, l7, l8, l9, hl, h0, h1, h2, h3, h4, h5, h6, h7, h8⟩ :=
      lex_parenthesised_right a b c p q ha hb hc hp hq
    have hparse := parse_parenthesised_right l0 l1 l2 l3 l4 l5 l6 l7 l8 l9
      ⟨"INTEGER", digitText a⟩ p.2 ⟨"INTEGER", digitText b⟩ q.2 ⟨"INTEGER", digitText c⟩
      _ _ _ _ _ 0 h0 h1 h2 h3 h4 h5 h6 h7 h8
      rfl rfl rfl (strconvParseInt_literal a ha hva) (strconvParseInt_literal b hb hvb)
      (strconvParseInt_literal c hc hvc) ⟨hp1, hp2⟩ ⟨hq1, hq2⟩ hp3 hq3 hp4 hq4 hp5 hq5 n
    unfold parseSource
    rw [hl]
    show Option.map _ (Parser.ParseProgram (n + 12) (Parser.CreateParser l0 0)) = _
    rw [hparse]
    rfl
  · intro fuel precedence fromPrint parser after e hopen hinner hclose
    exact parseExpression_parenthesised fuel precedence fromPrint parser after e hopen hinner
      hclose

/-- Witness for C2: the sources `1 + 2 * 3`, `(1 < 2) * 3` and `2 * (3 + 4)`. -/
theorem operator_precedence_parse_witness :
    (parseSource 10 (digitBytes [1] ++ 32 :: (([43], (⟨"PLUS", "+"⟩ : Token)).1 ++ 32 ::
        (digitBytes [2] ++ 32 :: (([42], (⟨"MULTIPLY", "*"⟩ : Token)).1 ++ 32 :: digitBytes [3]))))
      = some (⟨[.ExpressionStatement ⟨"INTEGER", digitText [1]⟩
          (if precedenceOf ⟨"PLUS", "+"⟩ < precedenceOf ⟨"MULTIPLY", "*"⟩ then
            .InfixExpression ⟨"PLUS", "+"⟩ (literalNode [1]) "+"
              (.InfixExpression ⟨"MULTIPLY", "*"⟩ (literalNode [2]) "*" (literalNode [3]))
          else
            .InfixExpression ⟨"MULTIPLY", "*"⟩
              (.InfixExpression ⟨"PLUS", "+"⟩ (literalNode [1]) "+" (literalNode [2]))
              "*" (literalNode [3]))]⟩, []))
    ∧ (parseSource 12 (40 :: (digitBytes [1] ++ 32 :: (([60], (⟨"LESSTHAN", "<"⟩ : Token)).1 ++
        32 :: (digitBytes [2] ++ 41 :: 32 :: (([42], (⟨"MULTIPLY", "*"⟩ : Token)).1 ++ 32 ::
          digitBytes [3])))))
      = some (⟨[.ExpressionStatement ⟨"LEFTPARENTHESES", "("⟩
          (.InfixExpression ⟨"MULTIPLY", "*"⟩
            (.InfixExpression ⟨"LESSTHAN", "<"⟩ (literalNode [1]) "<" (literalNode [2]))
            "*" (literalNode [3]))]⟩, []))
    ∧ (parseSource 12 (digitBytes [2] ++ 32 :: (([42], (⟨"MULTIPLY", "*"⟩ : Token)).1 ++ 32 ::
        40 :: (digitBytes [3] ++ 32 :: (([43], (⟨"PLUS", "+"⟩ : Token)).1 ++ 32 ::
          (digitBytes [4] ++ [41])))))
      = some (⟨[.ExpressionStatement ⟨"INTEGER", digitText [2]⟩
          (.InfixExpression ⟨"MULTIPLY", "*"⟩ (literalNode [2]) "*"
            (.InfixExpression ⟨"PLUS", "+"⟩ (literalNode [3]) "+" (literalNode [4])))]⟩, [])) :=
  ⟨(operator_precedence_parse [1] [2] [3] ([43], ⟨"PLUS", "+"⟩) ([42], ⟨"MULTIPLY", "*"⟩)
      (by simp [isLiteral]) (by simp [isLiteral]) (by simp [isLiteral])
      (by decide) (by decide) (by decide) (by decide) (by decide) 0).1,
    (operator_precedence_parse [1] [2] [3] ([60], ⟨"LESSTHAN", "<"⟩) ([42], ⟨"MULTIPLY", "*"⟩)
      (by simp [isLiteral]) (by simp [isLiteral]) (by simp [isLiteral])
      (by decide) (by decide) (by decide) (by decide) (by decide) 0).2.2.2.2.2.1,
    (operator_precedence_parse [2] [3] [4] ([42], ⟨"MULTIPLY", "*"⟩) ([43], ⟨"PLUS", "+"⟩)
      (by simp [isLiteral]) (by simp [isLiteral]) (by simp [isLiteral])
      (by decide) (by decide) (by decide) (by decide) (by decide) 0).2.2.2.2.2.2.1⟩

/-! ## Parser: an empty error list certifies a complete tree -/

theorem logError_errors_ne (p : Parser) (v : String) : (p.logError v).errors ≠ [] := by
  simp [Parser.logError]

theorem setTokens_errors (p : Parser) : p.setTokens.errors = p.errors := rfl

theorem certifies_logError (p q : Parser) (v : String) (c : Prop) :
    Certifies p (q.logError v) c :=
  fun h => absurd h (logError_errors_ne q v)

theorem certifies_trans {p q r : Parser} {c d : Prop} (h1 : Certifies p q c)
    (h2 : Certifies q r d) : Certifies p r (c ∧ d) :=
  fun h => ⟨(h1 (h2 h).1).1, (h1 (h2 h).1).2, (h2 h).2⟩

theorem parseInteger_certifies (p : Parser) :
    Certifies p p.parseInteger.2 p.parseInteger.1.complete := by
  unfold Parser.parseInteger
  cases strconvParseInt p.currentToken.Value with
  | none => intro h; simp at h
  | some v => intro h; exact ⟨h, trivial⟩

theorem expectNext_certifies (p : Parser) (t : String) :
    Certifies p (p.expectNext t).2 ((p.expectNext t).1 = true) := by
  unfold Parser.expectNext
  by_cases h : p.nextToken.Type_ = t
  · simp only [if_pos h]; intro he; exact ⟨he, trivial⟩
  · simp only [if_neg h]; exact certifies_logError _ _ _ _

theorem parseExpression_step (n : Nat)
    (hCP : ∀ f p e q, Parser.callPrefix n f p = some (e, q) → Certifies p q e.complete)
    (hL : ∀ prec left p e q, Parser.parseExpressionLoop n prec left p = some (e, q) →
      Certifies p q (left.complete → e.complete)) :
    ∀ prec fromPrint p e q, Parser.parseExpression (n + 1) prec fromPrint p = some (e, q) →
      Certifies p q e.complete := by
  intro prec fromPrint p e q h
  rw [Parser.parseExpression] at h
  cases hpre : prefixExpFuncs p.currentToken.Type_ with
  | none =>
    simp only [hpre, Option.some.injEq, Prod.mk.injEq] at h
    obtain ⟨-, rfl⟩ := h
    exact certifies_logError _ _ _ _
  | some f =>
    simp only [hpre] at h
    cases hcp : Parser.callPrefix n f p with
    | none => simp [hcp] at h
    | some r =>
      obtain ⟨left, p1⟩ := r
      simp only [hcp] at h
      split_ifs at h with hm
      · simp only [Option.some.injEq, Prod.mk.injEq] at h
        obtain ⟨-, rfl⟩ := h
        exact certifies_logError _ _ _ _
      · intro herr
        obtain ⟨h1, h2⟩ := hL _ _ _ _ _ h herr
        obtain ⟨h3, h4⟩ := hCP _ _ _ _ hcp h1
        exact ⟨h3, h2 h4⟩

theorem parseInfix_step (n : Nat)
    (hE : ∀ prec fromPrint p e q, Parser.parseExpression n prec fromPrint p = some (e, q) →
      Certifies p q e.complete) :
    ∀ left p e q, Parser.parseInfix (n + 1) left p = some (e, q) →
      Certifies p q (left.complete → e.complete) := by
  intro left p e q h
  rw [Parser.parseInfix] at h
  cases hr : Parser.parseExpression n p.checkCurrentPrecedence false p.setTokens with
  | none => simp [hr] at h
  | some r =>
    obtain ⟨right, p1⟩ := r
    simp only [hr, Option.some.injEq, Prod.mk.injEq] at h
    obtain ⟨rfl, rfl⟩ := h
    intro herr
    obtain ⟨h1, h2⟩ := hE _ _ _ _ _ hr herr
    exact ⟨h1, fun hl => ⟨hl, h2⟩⟩

theorem parseExpressionLoop_step (n : Nat)
    (hI : ∀ left p e q, Parser.parseInfix n left p = some (e, q) →
      Certifies p q (left.complete → e.complete))
    (hL : ∀ prec left p e q, Parser.parseExpressionLoop n prec left p = some (e, q) →
      Certifies p q (left.complete → e.complete)) :
    ∀ prec left p e q, Parser.parseExpressionLoop (n + 1) prec left p = some (e, q) →
      Certifies p q (left.complete → e.complete) := by
  intro prec left p e q h
  rw [Parser.parseExpressionLoop] at h
  split_ifs at h with h1 h2
  · cases hr : Parser.parseInfix n left p.setTokens with
    | none => simp [hr] at h
    | some r =>
      obtain ⟨e1, p1⟩ := r
      simp only [hr] at h
      intro herr
      obtain ⟨h3, h4⟩ := hL _ _ _ _ _ h herr
      obtain ⟨h5, h6⟩ := hI _ _ _ _ hr h3
      exact ⟨h5, fun hl => h4 (h6 hl)⟩
  · simp only [Option.some.injEq, Prod.mk.injEq] at h
    obtain ⟨rfl, rfl⟩ := h
    intro herr; exact ⟨herr, id⟩
  · simp only [Option.some.injEq, Prod.mk.injEq] at h
    obtain ⟨rfl, rfl⟩ := h
    intro herr; exact ⟨herr, id⟩

theorem parseBoundExpression_step (n : Nat)
    (hE : ∀ prec fromPrint p e q, Parser.parseExpression n prec fromPrint p = some (e, q) →
      Certifies p q e.complete) :
    ∀ p e q, Parser.parseBoundExpression (n + 1) p = some (e, q) →
      Certifies p q e.complete := by
  intro p e q h
  rw [Parser.parseBoundExpression] at h
  cases hr : Parser.parseExpression n NILPRECEDENCE false p.setTokens with
  | none => simp [hr] at h
  | some r =>
    obtain ⟨e1, p1⟩ := r
    simp only [hr] at h
    split_ifs at h with hx
    · simp only [Option.some.injEq, Prod.mk.injEq] at h
      obtain ⟨-, rfl⟩ := h
      exact certifies_logError _ _ _ _
    · simp only [Option.some.injEq, Prod.mk.injEq] at h
      obtain ⟨rfl, rfl⟩ := h
      intro herr
      obtain ⟨h1, -⟩ := expectNext_certifies p1 "RIGHTPARENTHESES" herr
      exact hE _ _ _ _ _ hr h1

theorem callPrefix_step (n : Nat)
    (hB : ∀ p e q, Parser.parseBoundExpression n p = some (e, q) → Certifies p q e.complete) :
    ∀ f p e q, Parser.callPrefix n f p = some (e, q) → Certifies p q e.complete := by
  intro f p e q h
  cases f with
  | parseIdentifier =>
    simp only [Parser.callPrefix, Parser.parseIdentifier, Option.some.injEq,
      Prod.mk.injEq] at h
    obtain ⟨rfl, rfl⟩ := h
    intro herr; exact ⟨herr, trivial⟩
  | parseInteger =>
    simp only [Parser.callPrefix, Option.some.injEq] at h
    have := parseInteger_certifies p
    rw [h] at this
    exact this
  | parseBoundExpression =>
    simp only [Parser.callPrefix] at h
    exact hB _ _ _ h

/-- The five invariants of the expression functions, for one amount of fuel. -/
theorem expression_certifies (n : Nat) :
    (∀ prec fromPrint p e q, Parser.parseExpression n prec fromPrint p = some (e, q) →
      Certifies p q e.complete) ∧
    (∀ f p e q, Parser.callPrefix n f p = some (e, q) → Certifies p q e.complete) ∧
    (∀ prec left p e q, Parser.parseExpressionLoop n prec left p = some (e, q) →
      Certifies p q (left.complete → e.complete)) ∧
    (∀ left p e q, Parser.parseInfix n left p = some (e, q) →
      Certifies p q (left.complete → e.complete)) ∧
    (∀ p e q, Parser.parseBoundExpression n p = some (e, q) → Certifies p q e.complete) := by
  induction n with
  | zero =>
    have hB : ∀ p e q, Parser.parseBoundExpression 0 p = some (e, q) →
        Certifies p q e.complete := by
      intro p e q h; simp [Parser.parseBoundExpression] at h
    refine ⟨?_, callPrefix_step 0 hB, ?_, ?_, hB⟩
    · intro prec fromPrint p e q h; simp [Parser.parseExpression] at h
    · intro prec left p e q h; simp [Parser.parseExpressionLoop] at h
    · intro left p e q h; simp [Parser.parseInfix] at h
  | succ n ih =>
    obtain ⟨hE, hCP, hL, hI, hB⟩ := ih
    have hB2 := parseBoundExpression_step n hE
    exact ⟨parseExpression_step n hCP hL, callPrefix_step (n + 1) hB2,
      parseExpressionLoop_step n hI hL, parseInfix_step n hE, hB2⟩

theorem parseExpression_certifies (n prec : Nat) (fromPrint : Bool) (p : Parser)
    (e : Expression) (q : Parser)
    (h : Parser.parseExpression n prec fromPrint p = some (e, q)) : Certifies p q e.complete :=
  (expression_certifies n).1 prec fromPrint p e q h

theorem statementsComplete_append (ss : List Statement) (s : Statement) :
    statementsComplete (ss ++ [s]) ↔ statementsComplete ss ∧ s.complete := by
  induction ss with
  | nil => simp [statementsComplete]
  | cons a rest ih => simp [statementsComplete, ih, and_assoc]

theorem blockPresent_some (b : BlockStatement) :
    blockPresent (some b) ↔ statementsComplete b.Statements := by
  cases b; simp [blockPresent, BlockStatement.Statements]

theorem blockOptional_some (b : BlockStatement) :
    blockOptional (some b) ↔ statementsComplete b.Statements := by
  cases b; simp [blockOptional, BlockStatement.Statements]

theorem parseExpressionStatement_certifies (n : Nat) (p : Parser) (s : Statement) (q : Parser)
    (h : p.parseExpressionStatement n = some (s, q)) : Certifies p q s.complete := by
  unfold Parser.parseExpressionStatement at h
  cases hr : Parser.parseExpression n NILPRECEDENCE false p with
  | none => simp [hr] at h
  | some r =>
    obtain ⟨e, p1⟩ := r
    simp only [hr, Option.some.injEq, Prod.mk.injEq] at h
    obtain ⟨rfl, rfl⟩ := h
    intro herr
    obtain ⟨h1, h2⟩ := parseExpression_certifies _ _ _ _ _ _ hr herr
    exact ⟨h1, by simpa [Statement.complete] using h2⟩

theorem setValues_certifies (n : Nat) : ∀ (values : List Expression) (p : Parser)
    (vs : List Expression) (q : Parser), Parser.setValues n values p = some (vs, q) →
    Certifies p q ((∀ v ∈ values, v.complete) → ∀ v ∈ vs, v.complete) := by
  induction n with
  | zero => intro values p vs q h; simp [Parser.setValues] at h
  | succ n ih =>
    intro values p vs q h
    rw [Parser.setValues] at h
    cases hr : Parser.parseExpression n NILPRECEDENCE true p.setTokens with
    | none => simp [hr] at h
    | some r =>
      obtain ⟨e, p1⟩ := r
      simp only [hr] at h
      have happ : (∀ v ∈ values, v.complete) → e.complete →
          ∀ v ∈ values ++ [e], v.complete := by
        intro hv he v hmem
        rcases List.mem_append.1 hmem with hm | hm
        · exact hv v hm
        · rw [List.mem_singleton.1 hm]; exact he
      split_ifs at h with hc
      · intro herr
        obtain ⟨h1, h2⟩ := ih _ _ _ _ h herr
        obtain ⟨h3, h4⟩ := parseExpression_certifies _ _ _ _ _ _ hr h1
        exact ⟨h3, fun hv => h2 (happ hv h4)⟩
      · simp only [Option.some.injEq, Prod.mk.injEq] at h
        obtain ⟨rfl, rfl⟩ := h
        intro herr
        obtain ⟨h3, h4⟩ := parseExpression_certifies _ _ _ _ _ _ hr herr
        exact ⟨h3, fun hv => happ hv h4⟩

theorem parsePrintStatement_certifies (n : Nat) (p : Parser) (s : Statement) (q : Parser)
    (h : p.parsePrintStatement n = some (s, q)) : Certifies p q s.complete := by
  unfold Parser.parsePrintStatement at h
  cases hr : Parser.setValues n [] p with
  | none => simp [hr] at h
  | some r =>
    obtain ⟨vs, p1⟩ := r
    simp only [hr, Option.some.injEq, Prod.mk.injEq] at h
    obtain ⟨rfl, rfl⟩ := h
    intro herr
    obtain ⟨h1, h2⟩ := setValues_certifies _ _ _ _ _ hr herr
    refine ⟨h1, ?_⟩
    simp only [Statement.complete]
    exact h2 (fun v hv => absurd hv (List.not_mem_nil v))

theorem parseVariableDeclaration_certifies (n : Nat) (p : Parser) (s : Statement) (q : Parser)
    (h : p.parseVariableDeclaration n = some (s, q)) : Certifies p q s.complete := by
  unfold Parser.parseVariableDeclaration at h
  simp only [] at h
  split_ifs at h with hx
  · simp only [Option.some.injEq, Prod.mk.injEq] at h
    obtain ⟨-, rfl⟩ := h
    exact certifies_logError _ _ _ _
  · cases hr : Parser.parseExpression n NILPRECEDENCE false
        (p.expectNext "ASSIGNMENT").2.setTokens with
    | none => simp [hr] at h
    | some r =>
      obtain ⟨e, p1⟩ := r
      simp only [hr, Option.some.injEq, Prod.mk.injEq] at h
      obtain ⟨rfl, rfl⟩ := h
      intro herr
      obtain ⟨h1, h2⟩ := parseExpression_certifies _ _ _ _ _ _ hr herr
      obtain ⟨h3, -⟩ := expectNext_certifies p "ASSIGNMENT" h1
      exact ⟨h3, by simpa [Statement.complete] using h2⟩

theorem parseStatement_step (n : Nat)
    (hIf : ∀ p s q, Parser.parseIfStatement n p = some (s, q) → Certifies p q s.complete)
    (hWh : ∀ p s q, Parser.parseWhileStatement n p = some (s, q) → Certifies p q s.complete) :
    ∀ fromBlock p s q, Parser.parseStatement (n + 1) fromBlock p = some (s, q) →
      Certifies p q s.complete := by
  intro fromBlock p s q h
  rw [Parser.parseStatement] at h
  split_ifs at h
  · exact parseExpressionStatement_certifies _ _ _ _ h
  · exact parseVariableDeclaration_certifies _ _ _ _ h
  · exact hIf _ _ _ h
  · exact hWh _ _ _ h
  · exact parsePrintStatement_certifies _ _ _ _ h
  · exact parseExpressionStatement_certifies _ _ _ _ h

theorem parseBlockStatement_step (n : Nat)
    (hBL : ∀ token statements returnBlock p b q,
      Parser.parseBlockLoop n token statements returnBlock p = some (b, q) →
      Certifies p q (statementsComplete statements → statementsComplete b.Statements)) :
    ∀ p b q, Parser.parseBlockStatement (n + 1) p = some (b, q) →
      Certifies p q (statementsComplete b.Statements) := by
  intro p b q h
  rw [Parser.parseBlockStatement] at h
  intro herr
  obtain ⟨h1, h2⟩ := hBL _ _ _ _ _ _ h herr
  refine ⟨?_, h2 (by simp [statementsComplete])⟩
  split_ifs at h1 <;> exact h1

theorem parseBlockLoop_step (n : Nat)
    (hS : ∀ fromBlock p s q, Parser.parseStatement n fromBlock p = some (s, q) →
      Certifies p q s.complete)
    (hBL : ∀ token statements returnBlock p b q,
      Parser.parseBlockLoop n token statements returnBlock p = some (b, q) →
      Certifies p q (statementsComplete statements → statementsComplete b.Statements)) :
    ∀ token statements returnBlock p b q,
      Parser.parseBlockLoop (n + 1) token statements returnBlock p = some (b, q) →
      Certifies p q (statementsComplete statements → statementsComplete b.Statements) := by
  intro token statements returnBlock p b q h
  rw [Parser.parseBlockLoop] at h
  have hret : ∀ (p1 : Parser), (some (BlockStatement.mk token statements, p1) = some (b, q)) →
      Certifies p1 q (statementsComplete statements → statementsComplete b.Statements) := by
    intro p1 he
    simp only [Option.some.injEq, Prod.mk.injEq] at he
    obtain ⟨rfl, rfl⟩ := he
    intro herr; exact ⟨herr, id⟩
  split_ifs at h with h1 h2 h3 h4
  · exact hret _ h
  · exact hret _ h
  · -- assignment inside the block
    cases hr : Parser.parseStatement n false p with
    | none => simp [hr] at h
    | some r =>
      obtain ⟨s, p1⟩ := r
      simp only [hr] at h
      have hs := hS _ _ _ _ hr
      split_ifs at h with h5 h6
      · intro herr
        obtain ⟨e1, e2⟩ := hBL _ _ _ _ _ _ h herr
        obtain ⟨e3, e4⟩ := hs e1
        exact ⟨e3, fun hc => e2 ((statementsComplete_append _ _).2 ⟨hc, e4⟩)⟩
      · intro herr
        obtain ⟨e1, e2⟩ := hBL _ _ _ _ _ _ h herr
        obtain ⟨e3, e4⟩ := hs e1
        exact ⟨e3, fun hc => e2 ((statementsComplete_append _ _).2 ⟨hc, e4⟩)⟩
      · intro herr
        obtain ⟨e1, e2⟩ := hret _ h herr
        obtain ⟨e3, -⟩ := hs e1
        exact ⟨e3, e2⟩
  · cases hr : Parser.parseStatement n true p with
    | none => simp [hr] at h
    | some r =>
      obtain ⟨s, p1⟩ := r
      simp only [hr] at h
      have hs := hS _ _ _ _ hr
      split_ifs at h with h5 h6
      · intro herr
        obtain ⟨e1, e2⟩ := hBL _ _ _ _ _ _ h herr
        obtain ⟨e3, e4⟩ := hs e1
        exact ⟨e3, fun hc => e2 ((statementsComplete_append _ _).2 ⟨hc, e4⟩)⟩
      · intro herr
        obtain ⟨e1, e2⟩ := hBL _ _ _ _ _ _ h herr
        obtain ⟨e3, e4⟩ := hs e1
        exact ⟨e3, fun hc => e2 ((statementsComplete_append _ _).2 ⟨hc, e4⟩)⟩
      · intro herr
        obtain ⟨e1, e2⟩ := hret _ h herr
        obtain ⟨e3, -⟩ := hs e1
        exact ⟨e3, e2⟩
  · exact hret _ h

theorem parseIfStatement_step (n : Nat)
    (hBS : ∀ p b q, Parser.parseBlockStatement n p = some (b, q) →
      Certifies p q (statementsComplete b.Statements)) :
    ∀ p s q, Parser.parseIfStatement (n + 1) p = some (s, q) → Certifies p q s.complete := by
  intro p s q h
  rw [Parser.parseIfStatement] at h
  simp only [] at h
  split_ifs at h with hx
  · simp only [Option.some.injEq, Prod.mk.injEq] at h
    obtain ⟨-, rfl⟩ := h
    exact certifies_logError _ _ _ _
  · cases hr : Parser.parseExpression n NILPRECEDENCE false
        (p.expectNext "LEFTPARENTHESES").2.setTokens with
    | none => simp [hr] at h
    | some r =>
      obtain ⟨c, p1⟩ := r
      simp only [hr] at h
      have hc := parseExpression_certifies _ _ _ _ _ _ hr
      split_ifs at h with hnil hy
      · simp only [Option.some.injEq, Prod.mk.injEq] at h
        obtain ⟨-, rfl⟩ := h
        exact certifies_logError _ _ _ _
      · simp only [Option.some.injEq, Prod.mk.injEq] at h
        obtain ⟨-, rfl⟩ := h
        exact certifies_logError _ _ _ _
      · cases hb : Parser.parseBlockStatement n
            (p1.expectNext "RIGHTPARENTHESES").2.setTokens with
        | none => simp [hb] at h
        | some r1 =>
          obtain ⟨first, p2⟩ := r1
          simp only [hb] at h
          have hfirst := hBS _ _ _ hb
          have hpre : p2.errors = [] → p.errors = [] ∧ c.complete ∧
              statementsComplete first.Statements := by
            intro e0
            obtain ⟨e1, e2⟩ := hfirst e0
            obtain ⟨e3, -⟩ := expectNext_certifies p1 "RIGHTPARENTHESES" e1
            obtain ⟨e4, e5⟩ := hc e3
            obtain ⟨e6, -⟩ := expectNext_certifies p "LEFTPARENTHESES" e4
            exact ⟨e6, e5, e2⟩
          split_ifs at h with helse
          · cases hb2 : Parser.parseBlockStatement n p2.setTokens with
            | none => simp [hb2] at h
            | some r2 =>
              obtain ⟨second, p3⟩ := r2
              simp only [hb2, Option.some.injEq, Prod.mk.injEq] at h
              obtain ⟨rfl, rfl⟩ := h
              intro herr
              obtain ⟨e1, e2⟩ := hBS _ _ _ hb2 herr
              obtain ⟨e3, e4, e5⟩ := hpre e1
              refine ⟨e3, ?_⟩
              simp only [Statement.complete]
              exact ⟨e4, (blockPresent_some _).2 e5, (blockOptional_some _).2 e2⟩
          · simp only [Option.some.injEq, Prod.mk.injEq] at h
            obtain ⟨rfl, rfl⟩ := h
            intro herr
            obtain ⟨e3, e4, e5⟩ := hpre herr
            refine ⟨e3, ?_⟩
            simp only [Statement.complete]
            exact ⟨e4, (blockPresent_some _).2 e5, by simp [blockOptional]⟩

theorem parseWhileStatement_step (n : Nat)
    (hBS : ∀ p b q, Parser.parseBlockStatement n p = some (b, q) →
      Certifies p q (statementsComplete b.Statements)) :
    ∀ p s q, Parser.parseWhileStatement (n + 1) p = some (s, q) → Certifies p q s.complete := by
  intro p s q h
  rw [Parser.parseWhileStatement] at h
  simp only [] at h
  split_ifs at h with hx
  · simp only [Option.some.injEq, Prod.mk.injEq] at h
    obtain ⟨-, rfl⟩ := h
    exact certifies_logError _ _ _ _
  · cases hr : Parser.parseExpression n NILPRECEDENCE false
        (p.expectNext "LEFTPARENTHESES").2.setTokens with
    | none => simp [hr] at h
    | some r =>
      obtain ⟨c, p1⟩ := r
      simp only [hr] at h
      have hc := parseExpression_certifies _ _ _ _ _ _ hr
      split_ifs at h with hnil hy
      · simp only [Option.some.injEq, Prod.mk.injEq] at h
        obtain ⟨-, rfl⟩ := h
        exact certifies_logError _ _ _ _
      · simp only [Option.some.injEq, Prod.mk.injEq] at h
        obtain ⟨-, rfl⟩ := h
        exact certifies_logError _ _ _ _
      · cases hb : Parser.parseBlockStatement n
            (p1.expectNext "RIGHTPARENTHESES").2.setTokens with
        | none => simp [hb] at h
        | some r1 =>
          obtain ⟨loop, p2⟩ := r1
          simp only [hb, Option.some.injEq, Prod.mk.injEq] at h
          obtain ⟨rfl, rfl⟩ := h
          intro e0
          obtain ⟨e1, e2⟩ := hBS _ _ _ hb e0
          obtain ⟨e3, -⟩ := expectNext_certifies p1 "RIGHTPARENTHESES" e1
          obtain ⟨e4, e5⟩ := hc e3
          obtain ⟨e6, -⟩ := expectNext_certifies p "LEFTPARENTHESES" e4
          refine ⟨e6, ?_⟩
          simp only [Statement.complete]
          exact ⟨e5, (blockPresent_some _).2 e2⟩

/-- The five invariants of the statement functions, for one amount of fuel. -/
theorem statement_certifies (n : Nat) :
    (∀ fromBlock p s q, Parser.parseStatement n fromBlock p = some (s, q) →
      Certifies p q s.complete) ∧
    (∀ p b q, Parser.parseBlockStatement n p = some (b, q) →
      Certifies p q (statementsComplete b.Statements)) ∧
    (∀ token statements returnBlock p b q,
      Parser.parseBlockLoop n token statements returnBlock p = some (b, q) →
      Certifies p q (statementsComplete statements → statementsComplete b.Statements)) ∧
    (∀ p s q, Parser.parseIfStatement n p = some (s, q) → Certifies p q s.complete) ∧
    (∀ p s q, Parser.parseWhileStatement n p = some (s, q) → Certifies p q s.complete) := by
  induction n with
  | zero =>
    refine ⟨?_, ?_, ?_, ?_, ?_⟩
    · intro fromBlock p s q h; simp [Parser.parseStatement] at h
    · intro p b q h; simp [Parser.parseBlockStatement] at h
    · intro token statements returnBlock p b q h; simp [Parser.parseBlockLoop] at h
    · intro p s q h; simp [Parser.parseIfStatement] at h
    · intro p s q h; simp [Parser.parseWhileStatement] at h
  | succ n ih =>
    obtain ⟨hS, hBS, hBL, hIf, hWh⟩ := ih
    exact ⟨parseStatement_step n hIf hWh, parseBlockStatement_step n hBL,
      parseBlockLoop_step n hS hBL, parseIfStatement_step n hBS, parseWhileStatement_step n hBS⟩

theorem parseProgramLoop_certifies (n : Nat) : ∀ (statements : List Statement) (p : Parser)
    (program : Program) (q : Parser),
    Parser.ParseProgramLoop n statements p = some (program, q) →
    Certifies p q (statementsComplete statements → statementsComplete program.Statements) := by
  induction n with
  | zero => intro statements p program q h; simp [Parser.ParseProgramLoop] at h
  | succ n ih =>
    intro statements p program q h
    rw [Parser.ParseProgramLoop] at h
    split_ifs at h with h1
    · cases hr : Parser.parseStatement n false p with
      | none => simp [hr] at h
      | some r =>
        obtain ⟨s, p1⟩ := r
        simp only [hr] at h
        have hs := (statement_certifies n).1 _ _ _ _ hr
        split_ifs at h with h2
        · intro herr
          obtain ⟨e1, e2⟩ := ih _ _ _ _ h herr
          obtain ⟨e3, e4⟩ := hs e1
          exact ⟨e3, fun hc => e2 ((statementsComplete_append _ _).2 ⟨hc, e4⟩)⟩
        · intro herr
          obtain ⟨e1, e2⟩ := ih _ _ _ _ h herr
          obtain ⟨e3, -⟩ := hs e1
          exact ⟨e3, e2⟩
    · simp only [Option.some.injEq, Prod.mk.injEq] at h
      obtain ⟨rfl, rfl⟩ := h
      intro herr; exact ⟨herr, id⟩

/-- C5. Whenever `ParseProgram` returns and `GetErrors` is then empty, every
statement of the returned Program is complete: each statement of each
statement list is present, each VariableStatement has a Value, each
ExpressionStatement an Expression, each InfixExpression both operands, each
IfStatement and WhileStatement a Condition and a (first) block, and each value
of a PrintStatement is present. -/
theorem empty_errors_certify_complete_tree (fuel : Nat) (parser : Parser) (program : Program)
    (after : Parser) (hreturn : parser.ParseProgram fuel = some (program, after))
    (herrors : after.GetErrors = []) : statementsComplete program.Statements :=
  (parseProgramLoop_certifies fuel [] parser program after hreturn herrors).2
    (by simp [statementsComplete])

/-- Witness for C5: the shipped sample program. -/
theorem empty_errors_certify_complete_tree_witness :
    ∃ program after,
      (Parser.CreateParser ⟨GetProgram, 0, 10⟩ 0).ParseProgram 200 = some (program, after) ∧
      after.GetErrors = [] ∧ statementsComplete program.Statements := by
  have hsome : ((Parser.CreateParser ⟨GetProgram, 0, 10⟩ 0).ParseProgram 200).isSome = true := by
    decide!
  obtain ⟨r, hr⟩ := Option.isSome_iff_exists.1 hsome
  have herr : (((Parser.CreateParser ⟨GetProgram, 0, 10⟩ 0).ParseProgram 200).map
      fun r => r.2.GetErrors) = some [] := by decide!
  rw [hr] at herr
  simp only [Option.map_some', Option.some.injEq] at herr
  exact ⟨r.1, r.2, hr, herr,
    empty_errors_certify_complete_tree 200 _ r.1 r.2 hr herr⟩

/-! ## Evaluator: the Boolean operators -/

/-- C16. For all integers `a` and `b` (so for all int64 values), `a && b`
evaluates to Integer 1 if `a = 1` and `b = 1` and to Integer 0 otherwise, and
`a || b` to Integer 1 if `a = 1` or `b = 1` and to Integer 0 otherwise, both as
the result of `evaluateInfix` on the operand values and as the result of
`Evaluate` on the InfixExpression of two Integer nodes; the programs `1 && 0`,
`1 || 0`, `2 && 1`, `2 || 0` and `0 - 1 || 0` print 0, 1, 0, 0 and 0. -/
theorem boolean_operators_coerce_operands (a b : Int) :
    evaluateInfix "&&" (.Integer a) (.Integer b)
        = some (.Integer (if a = 1 ∧ b = 1 then 1 else 0))
    ∧ evaluateInfix "||" (.Integer a) (.Integer b)
        = some (.Integer (if a = 1 ∨ b = 1 then 1 else 0))
    ∧ (∀ (n : Nat) (t ta tb : Token) (world : World),
        Evaluate (n + 2) (.Expression (.InfixExpression t (.Integer ta a) "&&" (.Integer tb b)))
            world
          = .value (.Integer (if a = 1 ∧ b = 1 then 1 else 0), world))
    ∧ (∀ (n : Nat) (t ta tb : Token) (world : World),
        Evaluate (n + 2) (.Expression (.InfixExpression t (.Integer ta a) "||" (.Integer tb b)))
            world
          = .value (.Integer (if a = 1 ∨ b = 1 then 1 else 0), world))
    ∧ run 100 (bytes "1 && 0") = .value "0" ∧ run 100 (bytes "1 || 0") = .value "1"
    ∧ run 100 (bytes "2 && 1") = .value "0" ∧ run 100 (bytes "2 || 0") = .value "0"
    ∧ run 100 (bytes "0 - 1 || 0") = .value "0" := by
  have hand : evaluateInfix "&&" (.Integer a) (.Integer b)
      = some (.Integer (if a = 1 ∧ b = 1 then 1 else 0)) := by
    by_cases ha : a = 1 <;> by_cases hb : b = 1 <;>
      simp [evaluateInfix, Symbol.assertInteger, evaluateBooleanInfix, setBooleanValue, ha, hb]
  have hor : evaluateInfix "||" (.Integer a) (.Integer b)
      = some (.Integer (if a = 1 ∨ b = 1 then 1 else 0)) := by
    by_cases ha : a = 1 <;> by_cases hb : b = 1 <;>
      simp [evaluateInfix, Symbol.assertInteger, evaluateBooleanInfix, setBooleanValue, ha, hb]
  refine ⟨hand, hor, ?_, ?_, by decide!, by decide!, by decide!, by decide!, by decide!⟩
  · intro n t ta tb world
    simp only [Evaluate, hand]
  · intro n t ta tb world
    simp only [Evaluate, hor]

/-! ## Evaluator: identifier lookup -/

/-- C17. For every symbol table and every Identifier node, `Evaluate` returns
without fault and leaves the state as it was; the value is the one bound to the
name when the name is bound, and otherwise an Error value with type tag
`ERROR`, which for a name made of letters renders as
`ERROR: Couldn't find identifier: ` followed by the name. -/
theorem identifier_lookup (n : Nat) (node : Identifier) (world : World) :
    (∀ value, world.symbolTable.Get node.Value = (value, true) →
      Evaluate (n + 1) (.Expression (.Identifier node)) world = .value (value, world))
    ∧ ((world.symbolTable.Get node.Value).2 = false →
      ∃ unbound, Evaluate (n + 1) (.Expression (.Identifier node)) world
          = .value (unbound, world)
        ∧ unbound.GetType = some "ERROR"
        ∧ (∀ name : List Nat, (∀ b ∈ name, letter b = true) → node.Value = textOf name →
            unbound.GetValue = some ("ERROR: Couldn't find identifier: " ++ textOf name))) := by
  refine ⟨?_, ?_⟩
  · intro value h
    simp [Evaluate, evaluateIdentifier, h]
  · intro h
    refine ⟨.Error ("Couldn't find identifier: " ++ node.Value), ?_, rfl, ?_⟩
    · simp [Evaluate, evaluateIdentifier, h, raiseError]
    · intro name _ hname
      have hjoin : "ERROR: " ++ "Couldn't find identifier: "
          = "ERROR: Couldn't find identifier: " := by decide
      simp only [Symbol.GetValue, hname]
      rw [← String.append_assoc, hjoin]

/-- Witness for C17: `x` looked up in the table binding `x` to 5, and in the
empty table. -/
theorem identifier_lookup_witness :
    Evaluate 1 (.Expression (.Identifier ⟨⟨"IDENTIFIER", "x"⟩, "x"⟩))
        ⟨CreateSymbolTable.Set "x" (.Integer 5), ""⟩
      = .value (.Integer 5, ⟨CreateSymbolTable.Set "x" (.Integer 5), ""⟩)
    ∧ ∃ unbound, Evaluate 1 (.Expression (.Identifier ⟨⟨"IDENTIFIER", "x"⟩, "x"⟩))
          ⟨CreateSymbolTable, ""⟩ = .value (unbound, ⟨CreateSymbolTable, ""⟩)
        ∧ unbound.GetType = some "ERROR"
        ∧ unbound.GetValue = some ("ERROR: Couldn't find identifier: " ++ textOf [120]) := by
  refine ⟨(identifier_lookup 0 ⟨⟨"IDENTIFIER", "x"⟩, "x"⟩
      ⟨CreateSymbolTable.Set "x" (.Integer 5), ""⟩).1 (.Integer 5) (by decide), ?_⟩
  obtain ⟨unbound, h1, h2, h3⟩ := (identifier_lookup 0 ⟨⟨"IDENTIFIER", "x"⟩, "x"⟩
      ⟨CreateSymbolTable, ""⟩).2 (by decide)
  exact ⟨unbound, h1, h2, h3 [120] (by decide) (by decide)⟩

/-! ## Lexer: identifiers, keywords and invalid characters -/

theorem bytes_textOf (run : List Nat) (h : ∀ b ∈ run, b < 55296) : bytes (textOf run) = run := by
  induction run with
  | nil => rfl
  | cons c t ih =>
    have hc : c < 55296 := h c (List.mem_cons_self _ _)
    have ht := ih (fun b hb => h b (List.mem_cons_of_mem _ hb))
    simp only [bytes, textOf, String.toList, List.map_cons] at ht ⊢
    rw [ht]
    congr 1
    simp only [Char.toNat, Char.ofNat]
    rw [dif_pos (Or.inl hc)]
    rfl

theorem letter_bounds (b : Nat) (h : letter b = true) :
    (97 ≤ b ∧ b ≤ 122) ∨ (65 ≤ b ∧ b ≤ 90) := by
  simpa [letter] using h

theorem textOf_eq_iff (run : List Nat) (hrun : ∀ b ∈ run, letter b = true) (s : String)
    (hs : textOf (bytes s) = s) : textOf run = s ↔ run = bytes s := by
  constructor
  · intro h
    rw [← h, bytes_textOf]
    intro b hb
    have := letter_bounds b (hrun b hb)
    omega
  · intro h
    rw [h, hs]

theorem takeWhile_run (f : Nat → Bool) (run rest : List Nat) (hrun : ∀ b ∈ run, f b = true)
    (hrest : f (rest.headD 0) = false) :
    (run ++ rest).takeWhile f = run ∧ (run ++ rest).dropWhile f = rest := by
  induction run with
  | nil =>
    cases rest with
    | nil => exact ⟨rfl, rfl⟩
    | cons r t =>
      simp only [List.headD_cons] at hrest
      simp [List.takeWhile_cons, List.dropWhile_cons, hrest]
  | cons c run ih =>
    have hc := hrun c (List.mem_cons_self _ _)
    have ih2 := ih (fun x hx => hrun x (List.mem_cons_of_mem _ hx))
    simp only [List.cons_append, List.takeWhile_cons, List.dropWhile_cons, hc, if_true]
    exact ⟨by rw [ih2.1], ih2.2⟩

theorem switchToken_letter (lexer : Lexer) (h : letter lexer.currentChar = true) :
    lexer.switchToken
      = (makeToken (IsKeyword lexer.createIdentifier.1) lexer.createIdentifier.1,
          lexer.createIdentifier.2, false) := by
  have hb := letter_bounds _ h
  have hd : ¬ digit lexer.currentChar = true := by
    simp only [digit, Bool.and_eq_true, decide_eq_true_eq]; omega
  simp only [Lexer.switchToken]
  rw [if_neg (show ¬ lexer.currentChar = 61 by omega),
    if_neg (show ¬ lexer.currentChar = 33 by omega),
    if_neg (show ¬ lexer.currentChar = 60 by omega),
    if_neg (show ¬ lexer.currentChar = 62 by omega),
    if_neg (show ¬ lexer.currentChar = 38 by omega),
    if_neg (show ¬ lexer.currentChar = 124 by omega),
    if_neg (show ¬ lexer.currentChar = 43 by omega),
    if_neg (show ¬ lexer.currentChar = 45 by omega),
    if_neg (show ¬ lexer.currentChar = 42 by omega),
    if_neg (show ¬ lexer.currentChar = 47 by omega),
    if_neg (show ¬ lexer.currentChar = 37 by omega),
    if_neg (show ¬ lexer.currentChar = 40 by omega),
    if_neg (show ¬ lexer.currentChar = 41 by omega),
    if_neg (show ¬ lexer.currentChar = 123 by omega),
    if_neg (show ¬ lexer.currentChar = 125 by omega),
    if_neg (show ¬ lexer.currentChar = 44 by omega),
    if_neg (show ¬ lexer.currentChar = 0 by omega), if_neg hd, if_pos h]

theorem letter_not_whitespace (c : Nat) (h : letter c = true) : whitespace c = false := by
  cases hw : whitespace c with
  | false => rfl
  | true => rw [whitespace_not_letter c hw] at h; exact absurd h (by decide)

/-- `ReadNextToken` on a lexer standing on a maximal run of letters. -/
theorem readNextToken_letters (consumed run rest : List Nat) (hne : run ≠ [])
    (hrun : ∀ b ∈ run, letter b = true) (hrest : letter (rest.headD 0) = false) :
    (Lexer.onRest consumed (run ++ rest)).ReadNextToken
      = (⟨IsKeyword (textOf run), textOf run⟩, Lexer.onRest (consumed ++ run) rest) := by
  obtain ⟨h1, h2⟩ := takeWhile_run letter run rest hrun hrest
  rcases run with _ | ⟨c, run2⟩
  · exact absurd rfl hne
  · have hc := hrun c (List.mem_cons_self _ _)
    have hw := letter_not_whitespace c hc
    have hcur : (Lexer.onRest consumed ((c :: run2) ++ rest)).currentChar = c := by
      rw [onRest_currentChar]; rfl
    unfold Lexer.ReadNextToken
    rw [skipWhitespace_of_not_whitespace _ (by rw [hcur]; exact hw),
      switchToken_letter _ (by rw [hcur]; exact hc), createIdentifier_onRest, h1, h2]
    simp [makeToken]

theorem isKeyword_kind (s : String) :
    (IsKeyword s = "IF" ↔ s = "if") ∧ (IsKeyword s = "ELSE" ↔ s = "else")
      ∧ (IsKeyword s = "WHILE" ↔ s = "while") ∧ (IsKeyword s = "PRINT" ↔ s = "print")
      ∧ (IsKeyword s = "IDENTIFIER" ↔
          s ≠ "if" ∧ s ≠ "else" ∧ s ≠ "while" ∧ s ≠ "print") := by
  unfold IsKeyword keywords
  by_cases h1 : s = "while"
  · subst h1; decide
  by_cases h2 : s = "if"
  · subst h2; decide
  by_cases h3 : s = "else"
  · subst h3; decide
  by_cases h4 : s = "print"
  · subst h4; decide
  simp [h1, h2, h3, h4, IDENTIFIER]

/-- C11. A maximal run of letters at the lexer's position is returned by
`ReadNextToken` as one token whose text is the whole run, the lexer being left
right after the run; the kind of the token is IF, ELSE, WHILE, PRINT exactly
when the run spells `if`, `else`, `while`, `print`, and IDENTIFIER for every
other run; `iff`, `If`, `printx` and `ifx` are IDENTIFIER tokens. -/
theorem letter_run_is_one_token (consumed run rest : List Nat) (hne : run ≠ [])
    (hrun : ∀ b ∈ run, letter b = true) (hrest : letter (rest.headD 0) = false) :
    (∃ kind, (Lexer.onRest consumed (run ++ rest)).ReadNextToken
          = (⟨kind, textOf run⟩, Lexer.onRest (consumed ++ run) rest)
        ∧ (kind = "IF" ↔ run = bytes "if") ∧ (kind = "ELSE" ↔ run = bytes "else")
        ∧ (kind = "WHILE" ↔ run = bytes "while") ∧ (kind = "PRINT" ↔ run = bytes "print")
        ∧ (kind = "IDENTIFIER" ↔
            run ≠ bytes "if" ∧ run ≠ bytes "else" ∧ run ≠ bytes "while" ∧ run ≠ bytes "print"))
    ∧ (CreateLexer (bytes "iff If printx if else while print ifx")).map (Lexer.readTokens 9)
        = some [⟨"IDENTIFIER", "iff"⟩, ⟨"IDENTIFIER", "If"⟩, ⟨"IDENTIFIER", "printx"⟩,
            ⟨"IF", "if"⟩, ⟨"ELSE", "else"⟩, ⟨"WHILE", "while"⟩, ⟨"PRINT", "print"⟩,
            ⟨"IDENTIFIER", "ifx"⟩, ⟨"END", "nil"⟩] := by
  refine ⟨⟨IsKeyword (textOf run), readNextToken_letters consumed run rest hne hrun hrest, ?_⟩,
    by decide!⟩
  obtain ⟨k1, k2, k3, k4, k5⟩ := isKeyword_kind (textOf run)
  have e1 := textOf_eq_iff run hrun "if" (by decide)
  have e2 := textOf_eq_iff run hrun "else" (by decide)
  have e3 := textOf_eq_iff run hrun "while" (by decide)
  have e4 := textOf_eq_iff run hrun "print" (by decide)
  refine ⟨k1.trans e1, k2.trans e2, k3.trans e3, k4.trans e4, ?_⟩
  rw [k5, ne_eq, ne_eq, ne_eq, ne_eq, e1, e2, e3, e4]

/-- Witness for C11: the run `iff` before `(x)` after `a `. -/
theorem letter_run_is_one_token_witness :
    ∃ kind, (Lexer.onRest (bytes "a ") (bytes "iff" ++ bytes "(x)")).ReadNextToken
          = (⟨kind, textOf (bytes "iff")⟩, Lexer.onRest (bytes "a " ++ bytes "iff") (bytes "(x)"))
        ∧ (kind = "IF" ↔ bytes "iff" = bytes "if") ∧ (kind = "ELSE" ↔ bytes "iff" = bytes "else")
        ∧ (kind = "WHILE" ↔ bytes "iff" = bytes "while")
        ∧ (kind = "PRINT" ↔ bytes "iff" = bytes "print")
        ∧ (kind = "IDENTIFIER" ↔
            bytes "iff" ≠ bytes "if" ∧ bytes "iff" ≠ bytes "else" ∧ bytes "iff" ≠ bytes "while"
              ∧ bytes "iff" ≠ bytes "print") :=
  (letter_run_is_one_token (bytes "a ") (bytes "iff") (bytes "(x)") (by decide) (by decide)
    (by decide)).1

theorem switchToken_invalid (lexer : Lexer) (h0 : lexer.currentChar ≠ 0)
    (hletter : letter lexer.currentChar = false) (hdigit : digit lexer.currentChar = false)
    (hlisted : lexer.currentChar ∉
      [61, 33, 60, 62, 38, 124, 43, 45, 42, 47, 37, 40, 41, 123, 125, 44]) :
    lexer.switchToken = (⟨"INVALID", byteString lexer.currentChar⟩, lexer, true) := by
  simp only [List.mem_cons, List.mem_singleton, List.not_mem_nil, or_false, not_or] at hlisted
  obtain ⟨a1, a2, a3, a4, a5, a6, a7, a8, a9, a10, a11, a12, a13, a14, a15, a16⟩ := hlisted
  simp only [Lexer.switchToken]
  rw [if_neg a1, if_neg a2, if_neg a3, if_neg a4, if_neg a5, if_neg a6, if_neg a7, if_neg a8,
    if_neg a9, if_neg a10, if_neg a11, if_neg a12, if_neg a13, if_neg a14, if_neg a15,
    if_neg a16, if_neg h0, if_neg (by rw [hdigit]; decide), if_neg (by rw [hletter]; decide)]
  rfl

/-- C12, as the code has it. A byte other than NUL that is not whitespace, not
a letter, not a digit and not one of the operator and punctuation characters
`= ! < > & | + - * / % ( ) { } ,` is returned by `ReadNextToken` as one INVALID
token whose text is the one character with that code, and so is each of `!`,
`&`, `|` when the next byte is not `=`, `&`, `|` respectively; the lexer is
left one `advance` further. -/
theorem invalid_byte_token (lexer : Lexer) :
    (lexer.currentChar ≠ 0 → lexer.currentChar < 256 →
      whitespace lexer.currentChar = false → letter lexer.currentChar = false →
      digit lexer.currentChar = false →
      lexer.currentChar ∉ [61, 33, 60, 62, 38, 124, 43, 45, 42, 47, 37, 40, 41, 123, 125, 44] →
      lexer.ReadNextToken = (⟨"INVALID", byteString lexer.currentChar⟩, lexer.advance)
        ∧ bytes (byteString lexer.currentChar) = [lexer.currentChar])
    ∧ (∀ entry ∈ [((33 : Nat), (61 : Nat), "!"), (38, 38, "&"), (124, 124, "|")],
        lexer.currentChar = entry.1 → lexer.peek ≠ entry.2.1 →
        lexer.ReadNextToken = (⟨"INVALID", entry.2.2⟩, lexer.advance)) := by
  refine ⟨?_, ?_⟩
  · intro h0 hbyte hw hl hd hlisted
    refine ⟨?_, ?_⟩
    · unfold Lexer.ReadNextToken
      rw [skipWhitespace_of_not_whitespace lexer hw, switchToken_invalid lexer h0 hl hd hlisted]
      rfl
    · rw [byteString_eq_textOf]
      apply bytes_textOf
      intro b hb
      rw [List.mem_singleton.1 hb]
      omega
  · intro entry hmem hc hp
    simp only [List.mem_cons, List.mem_singleton, List.not_mem_nil, or_false] at hmem
    rcases hmem with rfl | rfl | rfl <;>
    · simp only [] at hc hp
      have hw : whitespace lexer.currentChar = false := by rw [hc]; decide
      simp [Lexer.ReadNextToken, skipWhitespace_of_not_whitespace lexer hw, Lexer.switchToken,
        Lexer.twoCharacter, hc, hp, makeToken]
      decide

/-- Witness for C12: the lexer standing on the `@` of `a@b`, and on the `!` of
`a!b`. -/
theorem invalid_byte_token_witness :
    ((⟨bytes "a@b", 1, 64⟩ : Lexer).ReadNextToken
        = (⟨"INVALID", byteString 64⟩, (⟨bytes "a@b", 1, 64⟩ : Lexer).advance)
      ∧ bytes (byteString 64) = [64])
    ∧ (⟨bytes "a!b", 1, 33⟩ : Lexer).ReadNextToken
        = (⟨"INVALID", "!"⟩, (⟨bytes "a!b", 1, 33⟩ : Lexer).advance) :=
  ⟨(invalid_byte_token ⟨bytes "a@b", 1, 64⟩).1 (by decide) (by decide) (by decide) (by decide)
      (by decide) (by decide),
    (invalid_byte_token ⟨bytes "a!b", 1, 33⟩).2 (33, 61, "!") (by decide) (by decide)
      (by decide)⟩

/-- Counterexample for C12: the NUL byte is no whitespace, letter, digit or
listed operator or punctuation character, yet on the source made of a NUL byte
and `a` the lexer returns END for it, not INVALID, before it returns the
identifier `a`; and a character outside ASCII, such as the one with the two
bytes 195 and 169, comes back as two INVALID tokens, one per byte. -/
theorem nul_byte_is_not_invalid :
    whitespace 0 = false ∧ letter 0 = false ∧ digit 0 = false
    ∧ 0 ∉ [61, 33, 60, 62, 38, 124, 43, 45, 42, 47, 37, 40, 41, 123, 125, 44]
    ∧ (CreateLexer [0, 97]).map (Lexer.readTokens 3)
        = some [⟨"END", "nil"⟩, ⟨"IDENTIFIER", "a"⟩, ⟨"END", "nil"⟩]
    ∧ (CreateLexer [195, 169]).map (Lexer.readTokens 3)
        = some [⟨"INVALID", byteString 195⟩, ⟨"INVALID", byteString 169⟩, ⟨"END", "nil"⟩] := by
  decide!

/-! ## Parser: a missing right-hand side -/

theorem parse_missing_value (l0 l1 l2 l3 l4 l5 : Lexer) (name : Token) (count : Int)
    (h0 : l0.ReadNextToken = (name, l1)) (h1 : l1.ReadNextToken = (⟨"ASSIGNMENT", "="⟩, l2))
    (h2 : l2.ReadNextToken = (⟨"END", "nil"⟩, l3)) (h3 : l3.ReadNextToken = (⟨"END", "nil"⟩, l4))
    (h4 : l4.ReadNextToken = (⟨"END", "nil"⟩, l5))
    (hname : name.Type_ = "IDENTIFIER") (n : Nat) :
    (Parser.CreateParser l0 count).ParseProgram (n + 3)
      = some (⟨[.VariableStatement name ⟨name, name.Value⟩ .nil]⟩,
        ⟨l5, ⟨"END", "nil"⟩, ⟨"END", "nil"⟩, ["Syntax error, didn't expect nil"], 0⟩) := by
  simp [Parser.CreateParser, Parser.ParseProgram, Parser.ParseProgramLoop, Parser.setTokens,
    h0, h1, h2, h3, h4, hname, END, IDENTIFIER, IF, WHILE, PRINT, INTEGER,
    Parser.parseStatement, Parser.parseVariableDeclaration, Parser.expectNext,
    Parser.parseExpression, prefixExpFuncs, Parser.logError, NILPRECEDENCE, Statement.notNil]

theorem lex_missing_value (name : List Nat) (hne : name ≠ [])
    (hletters : ∀ b ∈ name, letter b = true)
    (hkey : name ∉ [bytes "if", bytes "else", bytes "while", bytes "print"]) :
    ∃ l0 l1 l2 l3 l4 l5 : Lexer,
      CreateLexer (name ++ bytes " = ") = some l0 ∧
      l0.ReadNextToken = (⟨"IDENTIFIER", textOf name⟩, l1) ∧
      l1.ReadNextToken = (⟨"ASSIGNMENT", "="⟩, l2) ∧
      l2.ReadNextToken = (⟨"END", "nil"⟩, l3) ∧
      l3.ReadNextToken = (⟨"END", "nil"⟩, l4) ∧
      l4.ReadNextToken = (⟨"END", "nil"⟩, l5) := by
  have h0 := readNextToken_letters [] name (bytes " = ") hne hletters (by decide)
  have hkind : IsKeyword (textOf name) = "IDENTIFIER" := by
    rw [(isKeyword_kind (textOf name)).2.2.2.2, ne_eq, ne_eq, ne_eq, ne_eq,
      textOf_eq_iff name hletters "if" (by decide), textOf_eq_iff name hletters "else" (by decide),
      textOf_eq_iff name hletters "while" (by decide),
      textOf_eq_iff name hletters "print" (by decide)]
    simpa using hkey
  rw [hkind] at h0
  obtain ⟨q2, h1⟩ := readNextToken_onRest ([] ++ name) (bytes " = ")
  rw [show scanToken (bytes " = ") = (⟨"ASSIGNMENT", "="⟩, [32]) by decide] at h1
  obtain ⟨q3, h2⟩ := readNextToken_onRest q2 [32]
  rw [show scanToken [32] = (⟨"END", "nil"⟩, []) by decide] at h2
  obtain ⟨q4, h3⟩ := readNextToken_onRest q3 []
  rw [scanToken_nil] at h3
  obtain ⟨q5, h4⟩ := readNextToken_onRest q4 []
  rw [scanToken_nil] at h4
  refine ⟨_, _, _, _, _, _, ?_, h0, h1, h2, h3, h4⟩
  rcases name with _ | ⟨c, rest⟩
  · exact absurd rfl hne
  · rfl

/-- C13. For every source `n = ` with `n` a run of letters that is no keyword
(in particular for `x = `), `ParseProgram` returns (with any fuel from 3 on):
the Program holds the one VariableStatement for `n` without a Value, and
`GetErrors` returns the one message `Syntax error, didn't expect nil`; `main`
then prints that message and does not evaluate. -/
theorem missing_right_hand_side (name : List Nat) (hne : name ≠ [])
    (hletters : ∀ b ∈ name, letter b = true)
    (hkey : name ∉ [bytes "if", bytes "else", bytes "while", bytes "print"]) (n : Nat) :
    parseSource (n + 3) (name ++ bytes " = ")
        = some (⟨[.VariableStatement ⟨"IDENTIFIER", textOf name⟩
              ⟨⟨"IDENTIFIER", textOf name⟩, textOf name⟩ .nil]⟩,
            ["Syntax error, didn't expect nil"])
    ∧ run (n + 3) (name ++ bytes " = ") = .value "Syntax error, didn't expect nil\n" := by
  obtain ⟨l0, l1, l2, l3, l4, l5, hl, h0, h1, h2, h3, h4⟩ :=
    lex_missing_value name hne hletters hkey
  have hparse := parse_missing_value l0 l1 l2 l3 l4 l5 ⟨"IDENTIFIER", textOf name⟩ 0
    h0 h1 h2 h3 h4 rfl n
  refine ⟨?_, ?_⟩
  · unfold parseSource
    rw [hl]
    show Option.map _ (Parser.ParseProgram (n + 3) (Parser.CreateParser l0 0)) = _
    rw [hparse]
    rfl
  · unfold run
    rw [hl]
    simp only [hparse, Parser.GetErrors]
    rw [if_neg (by decide)]
    decide

/-- Witness for C13: the source `x = `. -/
theorem missing_right_hand_side_witness :
    parseSource 3 (bytes "x" ++ bytes " = ")
        = some (⟨[.VariableStatement ⟨"IDENTIFIER", textOf (bytes "x")⟩
              ⟨⟨"IDENTIFIER", textOf (bytes "x")⟩, textOf (bytes "x")⟩ .nil]⟩,
            ["Syntax error, didn't expect nil"])
    ∧ run 3 (bytes "x" ++ bytes " = ") = .value "Syntax error, didn't expect nil\n" :=
  missing_right_hand_side (bytes "x") (by decide) (by decide) (by decide) 0

/-! ## Parser: a missing parenthesis after `if` or `while` -/

theorem parseStatement_keyword (n : Nat) (fromBlock : Bool) (p : Parser) :
    (p.currentToken.Type_ = "IF" →
      Parser.parseStatement (n + 1) fromBlock p = Parser.parseIfStatement n p)
    ∧ (p.currentToken.Type_ = "WHILE" →
      Parser.parseStatement (n + 1) fromBlock p = Parser.parseWhileStatement n p) := by
  refine ⟨?_, ?_⟩
  · intro h
    simp [Parser.parseStatement, h, IDENTIFIER, IF]
  · intro h
    simp [Parser.parseStatement, h, IDENTIFIER, IF, WHILE]

theorem parseProgramLoop_nil (n : Nat) (statements : List Statement) (p q : Parser)
    (hcur : p.currentToken.Type_ ≠ END)
    (h : Parser.parseStatement n false p = some (.nil, q)) :
    Parser.ParseProgramLoop (n + 1) statements p
      = Parser.ParseProgramLoop n statements q.setTokens := by
  rw [Parser.ParseProgramLoop, if_pos hcur, h]
  simp [Statement.notNil]

/-- C15. With the parser on `if` or `while`: when the next token is not `(`,
or the condition has been parsed and the token after it is not `)`, or the
condition is an identifier directly followed by another operand, the statement
parser returns no statement (nil) and the error list gains
`Syntax error, didn't expect T`, `T` being the text of that unexpected token
(twice in the first two cases; in the third once, followed by the message on a
nil condition); the loop of `ParseProgram` then appends nothing and goes on
with the next token.  `while x = 2` gives the Program `x = 2` and
`if (1 { x = 1 }` goes on with `{`, `x = 1`, `}`. -/
theorem expected_token_failure (n : Nat) (p : Parser) (fromBlock : Bool)
    (hkind : p.currentToken.Type_ = "IF" ∨ p.currentToken.Type_ = "WHILE") :
    (p.nextToken.Type_ ≠ "LEFTPARENTHESES" →
      Parser.parseStatement (n + 2) fromBlock p
          = some (.nil, (p.logError p.nextToken.Value).logError p.nextToken.Value)
        ∧ ((p.logError p.nextToken.Value).logError p.nextToken.Value).errors
          = p.errors ++ ["Syntax error, didn't expect " ++ p.nextToken.Value,
              "Syntax error, didn't expect " ++ p.nextToken.Value]
        ∧ ∀ statements, Parser.ParseProgramLoop (n + 3) statements p
          = Parser.ParseProgramLoop (n + 2) statements
              ((p.logError p.nextToken.Value).logError p.nextToken.Value).setTokens)
    ∧ (∀ condition after, p.nextToken.Type_ = "LEFTPARENTHESES" →
      Parser.parseExpression n NILPRECEDENCE false p.setTokens.setTokens
        = some (condition, after) →
      condition.isNil = false → after.nextToken.Type_ ≠ "RIGHTPARENTHESES" →
      Parser.parseStatement (n + 2) fromBlock p
          = some (.nil, (after.logError after.nextToken.Value).logError after.nextToken.Value)
        ∧ ((after.logError after.nextToken.Value).logError after.nextToken.Value).errors
          = after.errors ++ ["Syntax error, didn't expect " ++ after.nextToken.Value,
              "Syntax error, didn't expect " ++ after.nextToken.Value]
        ∧ ∀ statements, Parser.ParseProgramLoop (n + 3) statements p
          = Parser.ParseProgramLoop (n + 2) statements
              ((after.logError after.nextToken.Value).logError after.nextToken.Value).setTokens)
    ∧ (p.nextToken.Type_ = "LEFTPARENTHESES" →
      p.setTokens.setTokens.currentToken.Type_ = "IDENTIFIER" →
      (p.setTokens.setTokens.nextToken.Type_ = "INTEGER"
        ∨ p.setTokens.setTokens.nextToken.Type_ = "IDENTIFIER") →
      Parser.parseStatement (n + 3) fromBlock p
          = some (.nil, (p.setTokens.setTokens.logError
              p.setTokens.setTokens.nextToken.Value).logError "condition of statement to be nil")
        ∧ ((p.setTokens.setTokens.logError
              p.setTokens.setTokens.nextToken.Value).logError
                "condition of statement to be nil").errors
          = p.errors ++ ["Syntax error, didn't expect " ++ p.setTokens.setTokens.nextToken.Value,
              "Syntax error, didn't expect condition of statement to be nil"])
    ∧ parseSource 100 (bytes "while x = 2")
        = some (⟨[.VariableStatement ⟨"IDENTIFIER", "x"⟩ ⟨⟨"IDENTIFIER", "x"⟩, "x"⟩
              (.Integer ⟨"INTEGER", "2"⟩ 2)]⟩,
            ["Syntax error, didn't expect x", "Syntax error, didn't expect x"])
    ∧ parseSource 100 (bytes "if (1 \x7b x = 1 \x7d")
        = some (⟨[.ExpressionStatement ⟨"LEFTCURLYBRACE", "\x7b"⟩ .nil,
              .VariableStatement ⟨"IDENTIFIER", "x"⟩ ⟨⟨"IDENTIFIER", "x"⟩, "x"⟩
                (.Integer ⟨"INTEGER", "1"⟩ 1),
              .ExpressionStatement ⟨"RIGHTCURLYBRACE", "\x7d"⟩ .nil]⟩,
            ["Syntax error, didn't expect \x7b", "Syntax error, didn't expect \x7b",
              "Syntax error, didn't expect \x7b", "Syntax error, didn't expect \x7d"]) := by
  have hend : p.currentToken.Type_ ≠ END := by
    rcases hkind with h | h <;> rw [h] <;> decide
  have hdispatch : ∀ m : Nat, Parser.parseStatement (m + 1) fromBlock p
        = Parser.parseIfStatement m p ∧ p.currentToken.Type_ = "IF"
      ∨ Parser.parseStatement (m + 1) fromBlock p
        = Parser.parseWhileStatement m p ∧ p.currentToken.Type_ = "WHILE" := by
    intro m
    rcases hkind with h | h
    · exact Or.inl ⟨(parseStatement_keyword m fromBlock p).1 h, h⟩
    · exact Or.inr ⟨(parseStatement_keyword m fromBlock p).2 h, h⟩
  have hdispatch2 : ∀ m : Nat, Parser.parseStatement (m + 1) false p
        = Parser.parseStatement (m + 1) fromBlock p := by
    intro m
    rcases hkind with h | h
    · rw [(parseStatement_keyword m false p).1 h, (parseStatement_keyword m fromBlock p).1 h]
    · rw [(parseStatement_keyword m false p).2 h, (parseStatement_keyword m fromBlock p).2 h]
  refine ⟨?_, ?_, ?_, parsed_eq_of_beq (by decide!), parsed_eq_of_beq (by decide!)⟩
  · intro hnext
    have hres : Parser.parseStatement (n + 2) fromBlock p
        = some (.nil, (p.logError p.nextToken.Value).logError p.nextToken.Value) := by
      rcases hdispatch (n + 1) with ⟨h, -⟩ | ⟨h, -⟩
      · rw [h]
        simp [Parser.parseIfStatement, Parser.expectNext, hnext, Parser.logError]
      · rw [h]
        simp [Parser.parseWhileStatement, Parser.expectNext, hnext, Parser.logError]
    refine ⟨hres, by simp [Parser.logError], ?_⟩
    intro statements
    exact parseProgramLoop_nil (n + 2) statements p _ hend ((hdispatch2 (n + 1)).trans hres)
  · intro condition after hnext hcond hnil hclose
    have hres : Parser.parseStatement (n + 2) fromBlock p
        = some (.nil, (after.logError after.nextToken.Value).logError after.nextToken.Value) := by
      rcases hdispatch (n + 1) with ⟨h, -⟩ | ⟨h, -⟩
      · rw [h]
        simp [Parser.parseIfStatement, Parser.expectNext, hnext, hcond, hnil, hclose,
          Parser.logError]
      · rw [h]
        simp [Parser.parseWhileStatement, Parser.expectNext, hnext, hcond, hnil, hclose,
          Parser.logError]
    refine ⟨hres, by simp [Parser.logError], ?_⟩
    intro statements
    exact parseProgramLoop_nil (n + 2) statements p _ hend ((hdispatch2 (n + 1)).trans hres)
  · intro hnext hcur hoperand
    have hcond : Parser.parseExpression (n + 1) NILPRECEDENCE false p.setTokens.setTokens
        = some (.nil, p.setTokens.setTokens.logError p.setTokens.setTokens.nextToken.Value) := by
      rw [Parser.parseExpression]
      simp [prefixExpFuncs, hcur, IDENTIFIER, Parser.callPrefix, Parser.parseIdentifier,
        hoperand]
    refine ⟨?_, by simp [Parser.logError, Parser.setTokens]⟩
    rcases hdispatch (n + 2) with ⟨h, -⟩ | ⟨h, -⟩
    · rw [h]
      simp [Parser.parseIfStatement, Parser.expectNext, hnext, hcond, Expression.isNil]
    · rw [h]
      simp [Parser.parseWhileStatement, Parser.expectNext, hnext, hcond, Expression.isNil]

/-- Witness for C15: the parser on `while x = 2` (no parenthesis), on
`if (1 { x = 1 }` (no closing parenthesis) and on `if (a b) { }` (two
operands). -/
theorem expected_token_failure_witness :
    (Parser.parseStatement 2 false (Parser.CreateParser ⟨bytes "while x = 2", 0, 119⟩ 0)
        = some (.nil, ((Parser.CreateParser ⟨bytes "while x = 2", 0, 119⟩ 0).logError "x").logError
            "x"))
    ∧ (Parser.parseStatement 4 false (Parser.CreateParser ⟨bytes "if (1 \x7b x = 1 \x7d", 0, 105⟩ 0)
        = some (.nil,
            ((Parser.CreateParser ⟨bytes "if (1 \x7b x = 1 \x7d", 0, 105⟩ 0).setTokens.setTokens.logError
              "\x7b").logError "\x7b"))
    ∧ (Parser.parseStatement 3 false (Parser.CreateParser ⟨bytes "if (a b) \x7b \x7d", 0, 105⟩ 0)
        = some (.nil,
            ((Parser.CreateParser ⟨bytes "if (a b) \x7b \x7d", 0, 105⟩ 0).setTokens.setTokens.logError
              "b").logError "condition of statement to be nil")) :=
  ⟨((expected_token_failure 0 (Parser.CreateParser ⟨bytes "while x = 2", 0, 119⟩ 0) false
      (by decide)).1 (by decide)).1,
    ((expected_token_failure 2 (Parser.CreateParser ⟨bytes "if (1 \x7b x = 1 \x7d", 0, 105⟩ 0) false
      (by decide)).2.1 (.Integer ⟨"INTEGER", "1"⟩ 1)
      (Parser.CreateParser ⟨bytes "if (1 \x7b x = 1 \x7d", 0, 105⟩ 0).setTokens.setTokens
      (by decide) (by decide!) (by decide) (by decide)).1,
    ((expected_token_failure 0 (Parser.CreateParser ⟨bytes "if (a b) \x7b \x7d", 0, 105⟩ 0) false
      (by decide)).2.2.1 (by decide) (by decide) (by decide)).1⟩

/-! ## Parser: nested blocks -/

/-- C14. The source `if (a) { while (b) { if (c) { x = 1 } } }` parses with no
error into one IfStatement whose first block holds the WhileStatement alone,
whose block holds the inner IfStatement alone, whose first block holds `x = 1`
alone; with `y = 2` after the innermost `}`, or after the `}` of the `while`,
the assignment `y = 2` is the second statement of the enclosing block, and so
it is in `while (a) { if (b) { x = 1 } y = 2 }`.  But when the inner block is
empty, as in `while (a) { if (b) { } y = 2 }`, the block of the `while` ends
after the inner `if`: the token `y` is lost, `=`, `2` and `}` become top-level
statements and two syntax errors are recorded. -/
theorem statement_after_empty_inner_block_is_lost :
    parseSource 100 (bytes "if (a) \x7b while (b) \x7b if (c) \x7b x = 1 \x7d \x7d \x7d")
      = some (⟨[.IfStatement ⟨"IF", "if"⟩ (.Identifier ⟨⟨"IDENTIFIER", "a"⟩, "a"⟩)
          (some (.mk ⟨"WHILE", "while"⟩
            [.WhileStatement ⟨"WHILE", "while"⟩ (.Identifier ⟨⟨"IDENTIFIER", "b"⟩, "b"⟩)
              (some (.mk ⟨"IF", "if"⟩
                [.IfStatement ⟨"IF", "if"⟩ (.Identifier ⟨⟨"IDENTIFIER", "c"⟩, "c"⟩)
                  (some (.mk ⟨"IDENTIFIER", "x"⟩
                    [.VariableStatement ⟨"IDENTIFIER", "x"⟩ ⟨⟨"IDENTIFIER", "x"⟩, "x"⟩
                      (.Integer ⟨"INTEGER", "1"⟩ 1)]))
                  none]))]))
          none]⟩, [])
    ∧ parseSource 100
        (bytes "if (a) \x7b while (b) \x7b if (c) \x7b x = 1 \x7d y = 2 \x7d \x7d")
      = some (⟨[.IfStatement ⟨"IF", "if"⟩ (.Identifier ⟨⟨"IDENTIFIER", "a"⟩, "a"⟩)
          (some (.mk ⟨"WHILE", "while"⟩
            [.WhileStatement ⟨"WHILE", "while"⟩ (.Identifier ⟨⟨"IDENTIFIER", "b"⟩, "b"⟩)
              (some (.mk ⟨"IF", "if"⟩
                [.IfStatement ⟨"IF", "if"⟩ (.Identifier ⟨⟨"IDENTIFIER", "c"⟩, "c"⟩)
                  (some (.mk ⟨"IDENTIFIER", "x"⟩
                    [.VariableStatement ⟨"IDENTIFIER", "x"⟩ ⟨⟨"IDENTIFIER", "x"⟩, "x"⟩
                      (.Integer ⟨"INTEGER", "1"⟩ 1)]))
                  none,
                 .VariableStatement ⟨"IDENTIFIER", "y"⟩ ⟨⟨"IDENTIFIER", "y"⟩, "y"⟩
                  (.Integer ⟨"INTEGER", "2"⟩ 2)]))]))
          none]⟩, [])
    ∧ parseSource 100
        (bytes "if (a) \x7b while (b) \x7b if (c) \x7b x = 1 \x7d \x7d y = 2 \x7d")
      = some (⟨[.IfStatement ⟨"IF", "if"⟩ (.Identifier ⟨⟨"IDENTIFIER", "a"⟩, "a"⟩)
          (some (.mk ⟨"WHILE", "while"⟩
            [.WhileStatement ⟨"WHILE", "while"⟩ (.Identifier ⟨⟨"IDENTIFIER", "b"⟩, "b"⟩)
              (some (.mk ⟨"IF", "if"⟩
                [.IfStatement ⟨"IF", "if"⟩ (.Identifier ⟨⟨"IDENTIFIER", "c"⟩, "c"⟩)
                  (some (.mk ⟨"IDENTIFIER", "x"⟩
                    [.VariableStatement ⟨"IDENTIFIER", "x"⟩ ⟨⟨"IDENTIFIER", "x"⟩, "x"⟩
                      (.Integer ⟨"INTEGER", "1"⟩ 1)]))
                  none])),
             .VariableStatement ⟨"IDENTIFIER", "y"⟩ ⟨⟨"IDENTIFIER", "y"⟩, "y"⟩
              (.Integer ⟨"INTEGER", "2"⟩ 2)]))
          none]⟩, [])
    ∧ parseSource 100 (bytes "while (a) \x7b if (b) \x7b x = 1 \x7d y = 2 \x7d")
      = some (⟨[.WhileStatement ⟨"WHILE", "while"⟩ (.Identifier ⟨⟨"IDENTIFIER", "a"⟩, "a"⟩)
          (some (.mk ⟨"IF", "if"⟩
            [.IfStatement ⟨"IF", "if"⟩ (.Identifier ⟨⟨"IDENTIFIER", "b"⟩, "b"⟩)
              (some (.mk ⟨"IDENTIFIER", "x"⟩
                [.VariableStatement ⟨"IDENTIFIER", "x"⟩ ⟨⟨"IDENTIFIER", "x"⟩, "x"⟩
                  (.Integer ⟨"INTEGER", "1"⟩ 1)]))
              none,
             .VariableStatement ⟨"IDENTIFIER", "y"⟩ ⟨⟨"IDENTIFIER", "y"⟩, "y"⟩
              (.Integer ⟨"INTEGER", "2"⟩ 2)]))]⟩, [])
    ∧ parseSource 100 (bytes "while (a) \x7b if (b) \x7b \x7d y = 2 \x7d")
      = some (⟨[.WhileStatement ⟨"WHILE", "while"⟩ (.Identifier ⟨⟨"IDENTIFIER", "a"⟩, "a"⟩)
          (some (.mk ⟨"IF", "if"⟩
            [.IfStatement ⟨"IF", "if"⟩ (.Identifier ⟨⟨"IDENTIFIER", "b"⟩, "b"⟩)
              (some (.mk ⟨"RIGHTCURLYBRACE", "\x7d"⟩ []))
              none])),
          .ExpressionStatement ⟨"ASSIGNMENT", "="⟩ .nil,
          .ExpressionStatement ⟨"INTEGER", "2"⟩ (.Integer ⟨"INTEGER", "2"⟩ 2),
          .ExpressionStatement ⟨"RIGHTCURLYBRACE", "\x7d"⟩ .nil]⟩,
        ["Syntax error, didn't expect =", "Syntax error, didn't expect \x7d"]) :=
  ⟨parsed_eq_of_beq (by decide!), parsed_eq_of_beq (by decide!), parsed_eq_of_beq (by decide!),
    parsed_eq_of_beq (by decide!), parsed_eq_of_beq (by decide!)⟩

/-! ## Evaluator: more fuel does not change a finished evaluation -/

theorem timeout_or_step {α : Type} {x y : Outcome α} (h : x ≠ .timeout → y = x) :
    x = .timeout ∨ y = x := by
  by_cases hx : x = .timeout
  · exact Or.inl hx
  · exact Or.inr (h hx)

theorem evaluateWhileStatement_eq (n : Nat) (c : Expression) (l : Option BlockStatement)
    (w : World) :
    evaluateWhileStatement (n + 1) c l w
      = match Evaluate n (.Expression c) w with
        | .value (value, world) =>
          match value.GetValue with
          | none => .fault
          | some rendered =>
            if rendered = "1" then
              match Evaluate n (.BlockStatement l) world with
              | .value (_, world) => evaluateWhileStatement n c l world
              | .fault => .fault
              | .timeout => .timeout
            else .value (.Dummy "", world)
        | .fault => .fault
        | .timeout => .timeout := by
  rw [evaluateWhileStatement]

theorem evaluate_succ (n : Nat) :
    (∀ node w, Evaluate n node w ≠ .timeout → Evaluate (n + 1) node w = Evaluate n node w) ∧
    (∀ ss r w, evaluateStatements n ss r w ≠ .timeout →
      evaluateStatements (n + 1) ss r w = evaluateStatements n ss r w) ∧
    (∀ c f s w, evaluateIfStatement n c f s w ≠ .timeout →
      evaluateIfStatement (n + 1) c f s w = evaluateIfStatement n c f s w) ∧
    (∀ c l w, evaluateWhileStatement n c l w ≠ .timeout →
      evaluateWhileStatement (n + 1) c l w = evaluateWhileStatement n c l w) ∧
    (∀ vs w, evaluatePrintStatement n vs w ≠ .timeout →
      evaluatePrintStatement (n + 1) vs w = evaluatePrintStatement n vs w) := by
  induction n with
  | zero =>
    refine ⟨?_, ?_, ?_, ?_, ?_⟩
    · intro node w h; exact absurd (by simp [Evaluate]) h
    · intro ss r w h; exact absurd (by simp [evaluateStatements]) h
    · intro c f s w h; exact absurd (by simp [evaluateIfStatement]) h
    · intro c l w h; exact absurd (by simp [evaluateWhileStatement]) h
    · intro vs w h; exact absurd (by simp [evaluatePrintStatement]) h
  | succ n ih =>
    obtain ⟨hE, hS, hI, hW, hP⟩ := ih
    refine ⟨?_, ?_, ?_, ?_, ?_⟩
    · intro node w h
      cases node with
      | Program p =>
        simp only [Evaluate] at h ⊢
        exact hS _ _ _ h
      | BlockStatement b =>
        cases b with
        | none => simp only [Evaluate]
        | some b =>
          simp only [Evaluate] at h ⊢
          exact hS _ _ _ h
      | Statement s =>
        cases s with
        | nil => simp only [Evaluate]
        | nilVariableStatement => simp only [Evaluate]
        | VariableStatement t name value =>
          simp only [Evaluate] at h ⊢
          rcases timeout_or_step (hE (.Expression value) w) with ht | he
          · rw [ht] at h; exact absurd rfl h
          · rw [he]
        | ExpressionStatement t e =>
          simp only [Evaluate] at h ⊢
          exact hE _ _ h
        | IfStatement t c f s =>
          simp only [Evaluate] at h ⊢
          exact hI _ _ _ _ h
        | WhileStatement t c l =>
          simp only [Evaluate] at h ⊢
          exact hW _ _ _ h
        | PrintStatement t vs =>
          simp only [Evaluate] at h ⊢
          exact hP _ _ h
      | Expression e =>
        cases e with
        | nil => simp only [Evaluate]
        | Identifier i => simp only [Evaluate]
        | Integer t v => simp only [Evaluate]
        | InfixExpression t l o r =>
          simp only [Evaluate] at h ⊢
          rcases timeout_or_step (hE (.Expression l) w) with ht | he
          · rw [ht] at h; exact absurd rfl h
          · rw [he]
            cases hl : Evaluate n (.Expression l) w with
            | timeout => rfl
            | fault => rfl
            | value a =>
              obtain ⟨lv, w1⟩ := a
              rw [hl] at h
              simp only [] at h ⊢
              rcases timeout_or_step (hE (.Expression r) w1) with ht2 | he2
              · rw [ht2] at h; exact absurd rfl h
              · rw [he2]
    · intro ss r w h
      cases ss with
      | nil => simp only [evaluateStatements]
      | cons s rest =>
        simp only [evaluateStatements] at h ⊢
        rcases timeout_or_step (hE (.Statement s) w) with ht | he
        · rw [ht] at h; exact absurd rfl h
        · rw [he]
          cases hs : Evaluate n (.Statement s) w with
          | timeout => rfl
          | fault => rfl
          | value a =>
            obtain ⟨r1, w1⟩ := a
            rw [hs] at h
            simp only [] at h ⊢
            exact hS _ _ _ h
    · intro c f s w h
      simp only [evaluateIfStatement] at h ⊢
      rcases timeout_or_step (hE (.Expression c) w) with ht | he
      · rw [ht] at h; exact absurd rfl h
      · rw [he]
        cases hc : Evaluate n (.Expression c) w with
        | timeout => rfl
        | fault => rfl
        | value a =>
          obtain ⟨v, w1⟩ := a
          rw [hc] at h
          simp only [] at h ⊢
          cases hv : v.GetValue with
          | none => rfl
          | some rendered =>
            rw [hv] at h
            simp only [] at h ⊢
            by_cases h1 : rendered = "1"
            · simp only [if_pos h1] at h ⊢
              exact hE _ _ h
            · simp only [if_neg h1] at h ⊢
              by_cases h0 : rendered = "0" ∧ s.isSome = true
              · simp only [if_pos h0] at h ⊢
                exact hE _ _ h
              · simp only [if_neg h0]
    · intro c l w h
      rw [evaluateWhileStatement_eq] at h
      rw [evaluateWhileStatement_eq (n + 1), evaluateWhileStatement_eq n]
      rcases timeout_or_step (hE (.Expression c) w) with ht | he
      · rw [ht] at h; exact absurd rfl h
      · rw [he]
        cases hc : Evaluate n (.Expression c) w with
        | timeout => rfl
        | fault => rfl
        | value a =>
          obtain ⟨v, w1⟩ := a
          rw [hc] at h
          simp only [] at h ⊢
          cases hv : v.GetValue with
          | none => rfl
          | some rendered =>
            rw [hv] at h
            simp only [] at h ⊢
            by_cases h1 : rendered = "1"
            · simp only [if_pos h1] at h ⊢
              rcases timeout_or_step (hE (.BlockStatement l) w1) with ht2 | he2
              · rw [ht2] at h; exact absurd rfl h
              · rw [he2]
                cases hb : Evaluate n (.BlockStatement l) w1 with
                | timeout => rfl
                | fault => rfl
                | value b =>
                  obtain ⟨r2, w2⟩ := b
                  rw [hb] at h
                  simp only [] at h ⊢
                  exact hW _ _ _ h
            · simp only [if_neg h1]
    · intro vs w h
      cases vs with
      | nil => simp only [evaluatePrintStatement]
      | cons e rest =>
        simp only [evaluatePrintStatement] at h ⊢
        rcases timeout_or_step (hE (.Expression e) w) with ht | he
        · rw [ht] at h; exact absurd rfl h
        · rw [he]
          cases he2 : Evaluate n (.Expression e) w with
          | timeout => rfl
          | fault => rfl
          | value a =>
            obtain ⟨v, w1⟩ := a
            rw [he2] at h
            simp only [] at h ⊢
            cases hv : v.GetValue with
            | none => rfl
            | some rendered =>
              rw [hv] at h
              simp only [] at h ⊢
              exact hP _ _ h

/-- An evaluation that has finished with `n` units of fuel gives the same
outcome with any larger amount. -/
theorem evaluate_mono {n m : Nat} (hnm : n ≤ m) (node : Node) (w : World)
    (h : Evaluate n node w ≠ .timeout) : Evaluate m node w = Evaluate n node w := by
  induction hnm with
  | refl => rfl
  | step _ ih => rw [(evaluate_succ _).1 node w (by rw [ih]; exact h), ih]

theorem evaluateStatements_mono {n m : Nat} (hnm : n ≤ m) (ss : List Statement) (r : Symbol)
    (w : World) (h : evaluateStatements n ss r w ≠ .timeout) :
    evaluateStatements m ss r w = evaluateStatements n ss r w := by
  induction hnm with
  | refl => rfl
  | step _ ih => rw [(evaluate_succ _).2.1 ss r w (by rw [ih]; exact h), ih]

theorem evaluateWhileStatement_mono {n m : Nat} (hnm : n ≤ m) (c : Expression)
    (l : Option BlockStatement) (w : World) (h : evaluateWhileStatement n c l w ≠ .timeout) :
    evaluateWhileStatement m c l w = evaluateWhileStatement n c l w := by
  induction hnm with
  | refl => rfl
  | step _ ih => rw [(evaluate_succ _).2.2.2.1 c l w (by rw [ih]; exact h), ih]

/-! ## Evaluator: finished evaluations -/

theorem finishes_from {node : Node} {w : World} {o : Outcome (Symbol × World)}
    (h : Finishes node w o) : ∃ N, ∀ n, N ≤ n → Evaluate n node w = o := by
  obtain ⟨hne, N, hN⟩ := h
  refine ⟨N, fun n hn => ?_⟩
  rw [evaluate_mono hn node w (by rw [hN]; exact hne), hN]

theorem finishes_unique {node : Node} {w : World} {o1 o2 : Outcome (Symbol × World)}
    (h1 : Finishes node w o1) (h2 : Finishes node w o2) : o1 = o2 := by
  obtain ⟨N1, hN1⟩ := finishes_from h1
  obtain ⟨N2, hN2⟩ := finishes_from h2
  rw [← hN1 (max N1 N2) (le_max_left _ _), ← hN2 (max N1 N2) (le_max_right _ _)]

/-- When `a` with `d` more units of fuel does what `b` does, from some amount
of fuel on, the two nodes finish with the same outcomes. -/
theorem finishes_congr (a b : Node) (w w2 : World) (N d : Nat)
    (h : ∀ n, N ≤ n → Evaluate (n + d) a w = Evaluate n b w2)
    (o : Outcome (Symbol × World)) : Finishes a w o ↔ Finishes b w2 o := by
  constructor
  · intro ha
    obtain ⟨M, hM⟩ := finishes_from ha
    refine ⟨ha.1, max M N, ?_⟩
    rw [← h _ (le_max_right _ _)]
    exact hM _ (le_trans (le_max_left M N) (Nat.le_add_right _ _))
  · intro hb
    obtain ⟨M, hM⟩ := finishes_from hb
    refine ⟨hb.1, max M N + d, ?_⟩
    rw [h _ (le_max_right _ _)]
    exact hM _ (le_max_left _ _)

/-- Evaluating an expression leaves the state as it was. -/
theorem expression_keeps_world (e : Expression) : ∀ (n : Nat) (w : World) (v : Symbol)
    (w1 : World), Evaluate n (.Expression e) w = .value (v, w1) → w1 = w := by
  induction e with
  | nil =>
    intro n w v w1 h
    cases n with
    | zero => simp [Evaluate] at h
    | succ k =>
      simp only [Evaluate, Outcome.value.injEq, Prod.mk.injEq] at h
      exact h.2.symm
  | Identifier node =>
    intro n w v w1 h
    cases n with
    | zero => simp [Evaluate] at h
    | succ k =>
      simp only [Evaluate, Outcome.value.injEq, Prod.mk.injEq] at h
      exact h.2.symm
  | Integer t value =>
    intro n w v w1 h
    cases n with
    | zero => simp [Evaluate] at h
    | succ k =>
      simp only [Evaluate, Outcome.value.injEq, Prod.mk.injEq] at h
      exact h.2.symm
  | InfixExpression t l op r ihl ihr =>
    intro n w v w1 h
    cases n with
    | zero => simp [Evaluate] at h
    | succ k =>
      simp only [Evaluate] at h
      cases hl : Evaluate k (.Expression l) w with
      | timeout => simp [hl] at h
      | fault => simp [hl] at h
      | value a =>
        obtain ⟨lv, wl⟩ := a
        have e1 := ihl k w lv wl hl
        subst e1
        simp only [hl] at h
        cases hr : Evaluate k (.Expression r) wl with
        | timeout => simp [hr] at h
        | fault => simp [hr] at h
        | value b =>
          obtain ⟨rv, wr⟩ := b
          have e2 := ihr k wl rv wr hr
          subst e2
          simp only [hr] at h
          cases hi : evaluateInfix op lv rv with
          | none => simp [hi] at h
          | some result =>
            simp only [hi, Outcome.value.injEq, Prod.mk.injEq] at h
            exact h.2.symm

theorem finishes_expression_world {e : Expression} {w w1 : World} {v : Symbol}
    (h : Finishes (.Expression e) w (.value (v, w1))) : w1 = w := by
  obtain ⟨-, n, hn⟩ := h
  exact expression_keeps_world e n w v w1 hn

/-! ## Rendering of integers -/

theorem decimalDigits_ne_nil (fuel n : Nat) : decimalDigits (fuel + 1) n ≠ [] := by
  rw [decimalDigits]
  split_ifs <;> simp

theorem decimalDigits_single (n : Nat) (c : Char) (hc : c = '0' ∨ c = '1') :
    decimalDigits (n + 1) n = [c] ↔ n = c.toNat - 48 := by
  rw [decimalDigits]
  by_cases h : n < 10
  · rw [if_pos h]
    rcases hc with rfl | rfl <;> interval_cases n <;> decide
  · rw [if_neg h]
    have hn : n - 1 + 1 = n := by omega
    have hne := decimalDigits_ne_nil (n - 1) (n / 10)
    rw [hn] at hne
    constructor
    · intro heq
      have hlen := congrArg List.length heq
      simp only [List.length_append, List.length_singleton] at hlen
      have : (decimalDigits n (n / 10)).length = 0 := by omega
      exact absurd (List.length_eq_zero.1 this) hne
    · intro heq
      rcases hc with rfl | rfl
      · have : n = 0 := by simpa using heq
        omega
      · have : n = 1 := by simpa using heq
        omega

theorem formatInt_eq_one (v : Int) : formatInt v = "1" ↔ v = 1 := by
  unfold formatInt
  by_cases h : v < 0
  · rw [if_pos h]
    constructor
    · intro heq
      have := congrArg String.data heq
      simp at this
    · intro heq; omega
  · rw [if_neg h]
    have hone : ("1" : String) = String.mk ['1'] := rfl
    rw [hone, String.ext_iff]
    simp only []
    rw [decimalDigits_single _ '1' (Or.inr rfl)]
    have : ('1' : Char).toNat - 48 = 1 := by decide
    rw [this]
    omega

theorem formatInt_eq_zero (v : Int) : formatInt v = "0" ↔ v = 0 := by
  unfold formatInt
  by_cases h : v < 0
  · rw [if_pos h]
    constructor
    · intro heq
      have := congrArg String.data heq
      simp at this
    · intro heq; omega
  · rw [if_neg h]
    have hzero : ("0" : String) = String.mk ['0'] := rfl
    rw [hzero, String.ext_iff]
    simp only []
    rw [decimalDigits_single _ '0' (Or.inl rfl)]
    have : ('0' : Char).toNat - 48 = 0 := by decide
    rw [this]
    omega

theorem error_rendering (m : String) :
    (Symbol.Error m).GetValue ≠ some "1" ∧ (Symbol.Error m).GetValue ≠ some "0" := by
  have hdata : ("ERROR: " ++ m).data = 'E' :: ("RROR: ".data ++ m.data) := by
    rw [String.data_append]; rfl
  refine ⟨?_, ?_⟩
  · intro h
    simp only [Symbol.GetValue, Option.some.injEq] at h
    have := congrArg String.data h
    rw [hdata] at this
    simp at this
  · intro h
    simp only [Symbol.GetValue, Option.some.injEq] at h
    have := congrArg String.data h
    rw [hdata] at this
    simp at this

/-! ## Evaluator: the if statement -/

/-- C18. Let the condition of an IfStatement evaluate to `v` (which leaves the
state as it was).  If `v` renders as `1`, the statement finishes exactly as the
evaluation of the first branch does; if `v` renders as `0` and there is a
second branch, exactly as the evaluation of the second branch does; in every
other case with a rendering it returns Unit (`Dummy` with the empty text) in
the unchanged state.  An Integer renders as `1` only when it is 1 and as `0`
only when it is 0, an Error renders as neither, and Unit renders as the empty
text: so Integer 1 takes the first branch, Integer 0 the second if there is
one, and Integer 0 without second branch, any other Integer, an Error and Unit
give Unit. -/
theorem if_statement_evaluation (token : Token) (condition : Expression)
    (firstBranch secondBranch : Option BlockStatement) (world after : World) (v : Symbol)
    (hcond : Finishes (.Expression condition) world (.value (v, after))) :
    after = world
    ∧ (v.GetValue = some "1" → ∀ outcome,
        Finishes (.Statement (.IfStatement token condition firstBranch secondBranch)) world outcome
          ↔ Finishes (.BlockStatement firstBranch) world outcome)
    ∧ (v.GetValue = some "0" → secondBranch.isSome = true → ∀ outcome,
        Finishes (.Statement (.IfStatement token condition firstBranch secondBranch)) world outcome
          ↔ Finishes (.BlockStatement secondBranch) world outcome)
    ∧ (∀ rendered, v.GetValue = some rendered → rendered ≠ "1" →
        (rendered ≠ "0" ∨ secondBranch = none) →
        Finishes (.Statement (.IfStatement token condition firstBranch secondBranch)) world
          (.value (.Dummy "", world)))
    ∧ (∀ i : Int, ((Symbol.Integer i).GetValue = some "1" ↔ i = 1)
        ∧ ((Symbol.Integer i).GetValue = some "0" ↔ i = 0))
    ∧ (∀ m : String, (Symbol.Error m).GetValue ≠ some "1" ∧ (Symbol.Error m).GetValue ≠ some "0")
    ∧ (Symbol.Dummy "").GetValue = some "" := by
  have hw : after = world := finishes_expression_world hcond
  subst hw
  obtain ⟨N, hN⟩ := finishes_from hcond
  refine ⟨rfl, ?_, ?_, ?_, ?_, error_rendering, rfl⟩
  · intro hv outcome
    apply finishes_congr _ _ _ _ N 2
    intro n hn
    simp only [Evaluate, evaluateIfStatement, hN n hn, hv, if_true]
  · intro hv hsome outcome
    apply finishes_congr _ _ _ _ N 2
    intro n hn
    simp [Evaluate, evaluateIfStatement, hN n hn, hv, hsome]
  · intro rendered hv h1 h0
    refine ⟨by simp, N + 2, ?_⟩
    simp only [Evaluate, evaluateIfStatement, hN N (le_refl _), hv]
    rw [if_neg h1, if_neg]
    rintro ⟨e0, hsome⟩
    rcases h0 with h0 | h0
    · exact h0 e0
    · rw [h0] at hsome; exact absurd hsome (by decide)
  · intro i
    simp only [Symbol.GetValue, Option.some.injEq]
    exact ⟨formatInt_eq_one i, formatInt_eq_zero i⟩

/-- Witness for C18: `if (x) { y = 5 } else { y = 6 }` where `x` is bound to 1
returns 5 and binds `y` to 5. -/
theorem if_statement_evaluation_witness :
    Finishes (.Statement (.IfStatement ⟨"IF", "if"⟩ (.Identifier ⟨⟨"IDENTIFIER", "x"⟩, "x"⟩)
        (some (.mk ⟨"IDENTIFIER", "y"⟩
          [.VariableStatement ⟨"IDENTIFIER", "y"⟩ ⟨⟨"IDENTIFIER", "y"⟩, "y"⟩
            (.Integer ⟨"INTEGER", "5"⟩ 5)]))
        (some (.mk ⟨"IDENTIFIER", "y"⟩
          [.VariableStatement ⟨"IDENTIFIER", "y"⟩ ⟨⟨"IDENTIFIER", "y"⟩, "y"⟩
            (.Integer ⟨"INTEGER", "6"⟩ 6)]))))
      ⟨CreateSymbolTable.Set "x" (.Integer 1), ""⟩
      (.value (.Integer 5, ⟨(CreateSymbolTable.Set "x" (.Integer 1)).Set "y" (.Integer 5), ""⟩)) :=
  ((if_statement_evaluation ⟨"IF", "if"⟩ (.Identifier ⟨⟨"IDENTIFIER", "x"⟩, "x"⟩) _ _
    ⟨CreateSymbolTable.Set "x" (.Integer 1), ""⟩ ⟨CreateSymbolTable.Set "x" (.Integer 1), ""⟩
    (.Integer 1) ⟨by decide, 1, by decide⟩).2.1 (by decide) _).2 ⟨by decide, 4, by decide!⟩

/-! ## Evaluator: the while statement -/

theorem evaluateWhileStatement_unit (c : Expression) (l : Option BlockStatement) :
    ∀ (n : Nat) (w : World) (r : Symbol) (final : World),
      evaluateWhileStatement n c l w = .value (r, final) → r = .Dummy "" := by
  intro n
  induction n with
  | zero => intro w r final h; simp [evaluateWhileStatement] at h
  | succ k ih =>
    intro w r final h
    rw [evaluateWhileStatement_eq] at h
    cases hc : Evaluate k (.Expression c) w with
    | timeout => simp [hc] at h
    | fault => simp [hc] at h
    | value a =>
      obtain ⟨v, w1⟩ := a
      simp only [hc] at h
      cases hv : v.GetValue with
      | none => simp [hv] at h
      | some rendered =>
        simp only [hv] at h
        by_cases h1 : rendered = "1"
        · simp only [if_pos h1] at h
          cases hb : Evaluate k (.BlockStatement l) w1 with
          | timeout => simp [hb] at h
          | fault => simp [hb] at h
          | value b =>
            obtain ⟨r2, w2⟩ := b
            simp only [hb] at h
            exact ih w2 r final h
        · simp only [if_neg h1, Outcome.value.injEq, Prod.mk.injEq] at h
          exact h.1.symm

theorem evaluate_while (n : Nat) (token : Token) (c : Expression) (l : Option BlockStatement)
    (w : World) :
    Evaluate (n + 1) (.Statement (.WhileStatement token c l)) w
      = evaluateWhileStatement n c l w := by
  simp only [Evaluate]

/-- C19. Let the condition of a WhileStatement evaluate to `v` in the current
state (which leaves the state as it was).  If `v` has a rendering other than
`1`, the statement returns Unit and the state, symbol table and output, is
unchanged.  If `v` renders as `1`, the statement finishes with an outcome
exactly when the body faults and the outcome is that fault, or the body returns
leaving a state from which the same WhileStatement finishes with that outcome.
Whenever the statement returns, from any state, the value is Unit. -/
theorem while_statement_unfolding (token : Token) (condition : Expression)
    (loop : Option BlockStatement) (world after : World) (v : Symbol)
    (hcond : Finishes (.Expression condition) world (.value (v, after))) :
    after = world
    ∧ (∀ rendered, v.GetValue = some rendered → rendered ≠ "1" →
        Finishes (.Statement (.WhileStatement token condition loop)) world
          (.value (.Dummy "", world)))
    ∧ (v.GetValue = some "1" → ∀ outcome,
        Finishes (.Statement (.WhileStatement token condition loop)) world outcome
          ↔ (Finishes (.BlockStatement loop) world .fault ∧ outcome = .fault)
            ∨ ∃ result next, Finishes (.BlockStatement loop) world (.value (result, next))
                ∧ Finishes (.Statement (.WhileStatement token condition loop)) next outcome)
    ∧ (∀ (start final : World) (result : Symbol),
        Finishes (.Statement (.WhileStatement token condition loop)) start
          (.value (result, final)) → result = .Dummy "") := by
  have hw : after = world := finishes_expression_world hcond
  subst hw
  obtain ⟨N, hN⟩ := finishes_from hcond
  refine ⟨rfl, ?_, ?_, ?_⟩
  · intro rendered hv h1
    refine ⟨by simp, N + 2, ?_⟩
    rw [evaluate_while, evaluateWhileStatement_eq]
    simp only [hN N (le_refl _), hv, if_neg h1]
  · intro hv outcome
    have hstep : ∀ k, N ≤ k →
        Evaluate (k + 2) (.Statement (.WhileStatement token condition loop)) after
          = match Evaluate k (.BlockStatement loop) after with
            | .value (_, next) => evaluateWhileStatement k condition loop next
            | .fault => .fault
            | .timeout => .timeout := by
      intro k hk
      rw [evaluate_while, evaluateWhileStatement_eq]
      simp only [hN k hk, hv, if_true]
    constructor
    · intro hfin
      obtain ⟨M, hM⟩ := finishes_from hfin
      have h1 := hM (max M N + 2) (le_trans (le_max_left M N) (Nat.le_add_right _ _))
      rw [hstep _ (le_max_right M N)] at h1
      cases hb : Evaluate (max M N) (.BlockStatement loop) after with
      | timeout =>
        simp only [hb] at h1
        exact absurd h1.symm hfin.1
      | fault =>
        simp only [hb] at h1
        exact Or.inl ⟨⟨by simp, _, hb⟩, h1.symm⟩
      | value b =>
        obtain ⟨r2, w2⟩ := b
        simp only [hb] at h1
        refine Or.inr ⟨r2, w2, ⟨by simp, _, hb⟩, hfin.1, max M N + 1, ?_⟩
        rw [evaluate_while, h1]
    · rintro (⟨hbody, rfl⟩ | ⟨result, next, hbody, hrest⟩)
      · obtain ⟨B, hB⟩ := finishes_from hbody
        refine ⟨by simp, max B N + 2, ?_⟩
        rw [hstep _ (le_max_right B N), hB _ (le_max_left B N)]
      · obtain ⟨B, hB⟩ := finishes_from hbody
        obtain ⟨R, hR⟩ := finishes_from hrest
        refine ⟨hrest.1, max (max B R) N + 2, ?_⟩
        rw [hstep _ (le_max_right _ N),
          hB _ (le_trans (le_max_left B R) (le_max_left _ N))]
        simp only []
        rw [← evaluate_while _ token]
        exact hR _ (le_trans (le_trans (le_max_right B R) (le_max_left _ N))
          (Nat.le_add_right _ _))
  · intro start final result hfin
    obtain ⟨-, n, hn⟩ := hfin
    cases n with
    | zero => simp [Evaluate] at hn
    | succ k =>
      rw [evaluate_while] at hn
      exact evaluateWhileStatement_unit condition loop k start result final hn

/-- Witness for C19: `while (x) { x = 0 }` where `x` is bound to 0. -/
theorem while_statement_unfolding_witness :
    Finishes (.Statement (.WhileStatement ⟨"WHILE", "while"⟩
        (.Identifier ⟨⟨"IDENTIFIER", "x"⟩, "x"⟩)
        (some (.mk ⟨"IDENTIFIER", "x"⟩
          [.VariableStatement ⟨"IDENTIFIER", "x"⟩ ⟨⟨"IDENTIFIER", "x"⟩, "x"⟩
            (.Integer ⟨"INTEGER", "0"⟩ 0)]))))
      ⟨CreateSymbolTable.Set "x" (.Integer 0), ""⟩
      (.value (.Dummy "", ⟨CreateSymbolTable.Set "x" (.Integer 0), ""⟩)) :=
  (while_statement_unfolding ⟨"WHILE", "while"⟩ (.Identifier ⟨⟨"IDENTIFIER", "x"⟩, "x"⟩) _
    ⟨CreateSymbolTable.Set "x" (.Integer 0), ""⟩ ⟨CreateSymbolTable.Set "x" (.Integer 0), ""⟩
    (.Integer 0) ⟨by decide, 1, by decide⟩).2.1 "0" (by decide) (by decide)

/-! ## Evaluator: sequencing -/

theorem evaluateStatements_inOrder (ss : List Statement) :
    ∀ (r : Symbol) (w : World) (o : Outcome (Symbol × World)),
      (o ≠ .timeout ∧ ∃ n, evaluateStatements n ss r w = o) ↔ inOrder ss r w o := by
  induction ss with
  | nil =>
    intro r w o
    simp only [inOrder]
    constructor
    · rintro ⟨hne, n, hn⟩
      cases n with
      | zero => simp only [evaluateStatements] at hn; exact absurd hn.symm hne
      | succ k => simp only [evaluateStatements] at hn; exact hn.symm
    · intro h
      subst h
      exact ⟨by simp, 1, by simp only [evaluateStatements]⟩
  | cons s rest ih =>
    intro r w o
    simp only [inOrder]
    constructor
    · rintro ⟨hne, n, hn⟩
      cases n with
      | zero => simp only [evaluateStatements] at hn; exact absurd hn.symm hne
      | succ k =>
        simp only [evaluateStatements] at hn
        cases hs : Evaluate k (.Statement s) w with
        | timeout => simp only [hs] at hn; exact absurd hn.symm hne
        | fault =>
          simp only [hs] at hn
          exact Or.inl ⟨⟨by simp, k, hs⟩, hn.symm⟩
        | value a =>
          obtain ⟨r1, w1⟩ := a
          simp only [hs] at hn
          exact Or.inr ⟨r1, w1, ⟨by simp, k, hs⟩, (ih r1 w1 o).1 ⟨hne, k, hn⟩⟩
    · rintro (⟨hs, rfl⟩ | ⟨r1, w1, hs, hrest⟩)
      · obtain ⟨-, k, hk⟩ := hs
        exact ⟨by simp, k + 1, by simp only [evaluateStatements, hk]⟩
      · obtain ⟨A, hA⟩ := finishes_from hs
        obtain ⟨hne, b, hb⟩ := (ih r1 w1 o).2 hrest
        refine ⟨hne, max A b + 1, ?_⟩
        simp only [evaluateStatements, hA _ (le_max_left A b)]
        rw [evaluateStatements_mono (le_max_right A b) rest r1 w1 (by rw [hb]; exact hne), hb]

theorem inOrder_append (ss : List Statement) (s : Statement) :
    ∀ (r : Symbol) (w : World) (o : Outcome (Symbol × World)),
      inOrder (ss ++ [s]) r w o
        ↔ (inOrder ss r w .fault ∧ o = .fault)
          ∨ ∃ result next, inOrder ss r w (.value (result, next))
              ∧ ((Finishes (.Statement s) next .fault ∧ o = .fault)
                ∨ ∃ last final, Finishes (.Statement s) next (.value (last, final))
                    ∧ o = .value (last, final)) := by
  induction ss with
  | nil =>
    intro r w o
    simp only [List.nil_append, inOrder]
    constructor
    · intro h
      exact Or.inr ⟨r, w, rfl, h⟩
    · rintro (⟨h, -⟩ | ⟨result, next, h, hs⟩)
      · simp at h
      · simp only [Outcome.value.injEq, Prod.mk.injEq] at h
        obtain ⟨rfl, rfl⟩ := h
        exact hs
  | cons a rest ih =>
    intro r w o
    simp only [List.cons_append, inOrder]
    constructor
    · rintro (⟨ha, rfl⟩ | ⟨r1, w1, ha, hrest⟩)
      · exact Or.inl ⟨Or.inl ⟨ha, trivial⟩, rfl⟩
      · rcases (ih r1 w1 o).1 hrest with ⟨hf, rfl⟩ | ⟨result, next, hv, hs⟩
        · exact Or.inl ⟨Or.inr ⟨r1, w1, ha, hf⟩, rfl⟩
        · exact Or.inr ⟨result, next, Or.inr ⟨r1, w1, ha, hv⟩, hs⟩
    · rintro (⟨hf, rfl⟩ | ⟨result, next, hv, hs⟩)
      · rcases hf with ⟨ha, -⟩ | ⟨r1, w1, ha, hrest⟩
        · exact Or.inl ⟨ha, rfl⟩
        · exact Or.inr ⟨r1, w1, ha, (ih r1 w1 _).2 (Or.inl ⟨hrest, rfl⟩)⟩
      · rcases hv with ⟨-, h⟩ | ⟨r1, w1, ha, hrest⟩
        · simp at h
        · exact Or.inr ⟨r1, w1, ha, (ih r1 w1 o).2 (Or.inr ⟨result, next, hrest, hs⟩)⟩

/-- C20. Evaluating a Program, or a BlockStatement, finishes with an outcome
exactly when evaluating its statements in order does: each statement is
evaluated in the state left by the one before, a fault ends the evaluation, and
the value returned is that of the last statement alone (the values of the
others are dropped); for an empty statement list the result is the nil Symbol,
not Unit, in the unchanged state.  A program of whitespace only parses to the
empty Program without error, and `main` then faults when it asks the nil result
for its rendering, as it does for `if (1) { }`, whose taken branch is empty;
`x = 2 (x * 3) (x + 1)` prints 3, the value of its last statement. -/
theorem statements_evaluate_in_order (statements : List Statement) (token : Token)
    (world : World) :
    (∀ outcome, Finishes (.Program ⟨statements⟩) world outcome
        ↔ inOrder statements .nil world outcome)
    ∧ (∀ outcome, Finishes (.BlockStatement (some (.mk token statements))) world outcome
        ↔ inOrder statements .nil world outcome)
    ∧ (∀ (last : Statement) (result : Symbol) (outcome : Outcome (Symbol × World)),
        inOrder (statements ++ [last]) result world outcome
          ↔ (inOrder statements result world .fault ∧ outcome = .fault)
            ∨ ∃ dropped next, inOrder statements result world (.value (dropped, next))
                ∧ ((Finishes (.Statement last) next .fault ∧ outcome = .fault)
                  ∨ ∃ value final, Finishes (.Statement last) next (.value (value, final))
                      ∧ outcome = .value (value, final)))
    ∧ Finishes (.Program ⟨[]⟩) world (.value (.nil, world))
    ∧ Finishes (.BlockStatement (some (.mk token []))) world (.value (.nil, world))
    ∧ Symbol.nil.GetValue = none ∧ (Symbol.Dummy "").GetValue = some ""
    ∧ parseSource 100 (bytes " \n\t ") = some (⟨[]⟩, [])
    ∧ run 100 (bytes " \n\t ") = .fault
    ∧ run 100 (bytes "if (1) \x7b \x7d") = .fault
    ∧ run 100 (bytes "x = 2 (x * 3) (x + 1)") = .value "3" := by
  have hprog : ∀ outcome, Finishes (.Program ⟨statements⟩) world outcome
      ↔ inOrder statements .nil world outcome := by
    intro outcome
    rw [← evaluateStatements_inOrder]
    constructor
    · rintro ⟨hne, n, hn⟩
      cases n with
      | zero => simp only [Evaluate] at hn; exact absurd hn.symm hne
      | succ k => exact ⟨hne, k, by simpa only [Evaluate] using hn⟩
    · rintro ⟨hne, n, hn⟩
      exact ⟨hne, n + 1, by simpa only [Evaluate] using hn⟩
  have hblock : ∀ outcome,
      Finishes (.BlockStatement (some (.mk token statements))) world outcome
        ↔ inOrder statements .nil world outcome := by
    intro outcome
    rw [← evaluateStatements_inOrder]
    constructor
    · rintro ⟨hne, n, hn⟩
      cases n with
      | zero => simp only [Evaluate] at hn; exact absurd hn.symm hne
      | succ k => exact ⟨hne, k, by simpa only [Evaluate, BlockStatement.Statements] using hn⟩
    · rintro ⟨hne, n, hn⟩
      exact ⟨hne, n + 1, by simpa only [Evaluate, BlockStatement.Statements] using hn⟩
  refine ⟨hprog, hblock, fun last result outcome => inOrder_append statements last result world
    outcome, ⟨by simp, 2, by simp only [Evaluate, evaluateStatements]⟩,
    ⟨by simp, 2, by simp only [Evaluate, evaluateStatements, BlockStatement.Statements]⟩,
    rfl, rfl, parsed_eq_of_beq (by decide!), by decide!, by decide!, by decide!⟩

/-! ## Evaluator: assignment -/

theorem lookup_filter_ne (name other : String) (h : other ≠ name) :
    ∀ table : List (String × Symbol),
      List.lookup other (table.filter (fun entry => entry.1 ≠ name)) = List.lookup other table := by
  intro table
  induction table with
  | nil => rfl
  | cons entry rest ih =>
    obtain ⟨key, value⟩ := entry
    by_cases hk : key = name
    · subst hk
      have hne : (other == key) = false := by simpa using h
      simp only [List.filter_cons, ne_eq, not_true_eq_false, decide_False, List.lookup_cons, hne]
      exact ih
    · by_cases ho : other = key
      · subst ho
        simp [List.filter_cons, hk, List.lookup_cons]
      · have hne : (other == key) = false := by simpa using ho
        simp only [List.filter_cons, ne_eq, hk, not_false_eq_true, decide_True, if_true,
          List.lookup_cons, hne]
        exact ih

theorem get_set_same (table : SymbolTable) (name : String) (value : Symbol) :
    (table.Set name value).Get name = (value, true) := by
  simp [SymbolTable.Get, SymbolTable.Set, List.lookup_cons]

theorem get_set_other (table : SymbolTable) (name other : String) (value : Symbol)
    (h : other ≠ name) : (table.Set name value).Get other = table.Get other := by
  have hne : (other == name) = false := by simpa using h
  simp only [SymbolTable.Get, SymbolTable.Set, List.lookup_cons, hne]
  rw [lookup_filter_ne name other h]

theorem finishes_if_first (token : Token) (condition : Expression)
    (firstBranch secondBranch : Option BlockStatement) (world : World) (v : Symbol)
    (hcond : Finishes (.Expression condition) world (.value (v, world)))
    (hv : v.GetValue = some "1") (outcome : Outcome (Symbol × World)) :
    Finishes (.Statement (.IfStatement token condition firstBranch secondBranch)) world outcome
      ↔ Finishes (.BlockStatement firstBranch) world outcome := by
  obtain ⟨N, hN⟩ := finishes_from hcond
  apply finishes_congr _ _ _ _ N 2
  intro n hn
  simp only [Evaluate, evaluateIfStatement, hN n hn, hv, if_true]

theorem finishes_while_stop (token : Token) (condition : Expression)
    (loop : Option BlockStatement) (world : World) (v : Symbol) (rendered : String)
    (hcond : Finishes (.Expression condition) world (.value (v, world)))
    (hv : v.GetValue = some rendered) (h1 : rendered ≠ "1") :
    Finishes (.Statement (.WhileStatement token condition loop)) world
      (.value (.Dummy "", world)) := by
  obtain ⟨N, hN⟩ := finishes_from hcond
  refine ⟨by simp, N + 2, ?_⟩
  rw [evaluate_while, evaluateWhileStatement_eq]
  simp only [hN N (le_refl _), hv, if_neg h1]

theorem finishes_while_step (token : Token) (condition : Expression)
    (loop : Option BlockStatement) (world next : World) (v result : Symbol)
    (outcome : Outcome (Symbol × World))
    (hcond : Finishes (.Expression condition) world (.value (v, world)))
    (hv : v.GetValue = some "1")
    (hbody : Finishes (.BlockStatement loop) world (.value (result, next)))
    (hrest : Finishes (.Statement (.WhileStatement token condition loop)) next outcome) :
    Finishes (.Statement (.WhileStatement token condition loop)) world outcome := by
  obtain ⟨N, hN⟩ := finishes_from hcond
  obtain ⟨B, hB⟩ := finishes_from hbody
  obtain ⟨R, hR⟩ := finishes_from hrest
  refine ⟨hrest.1, max (max B R) N + 2, ?_⟩
  rw [evaluate_while, evaluateWhileStatement_eq]
  simp only [hN _ (le_max_right _ N), hv, if_true,
    hB _ (le_trans (le_max_left B R) (le_max_left _ N))]
  rw [← evaluate_while _ token]
  exact hR _ (le_trans (le_trans (le_max_right B R) (le_max_left _ N)) (Nat.le_add_right _ _))

/-- C21. When the expression `e` evaluates to `v` (of any kind), the
VariableStatement `n = e` returns `v` and leaves the state in which looking up
`n` yields `v`, whatever `n` was bound to before, every other name is looked
up as before the statement (evaluating `e` changes nothing), and the output is
untouched.  The namespace is flat: an IfStatement whose branch is taken, and a
WhileStatement whose body runs once, leave the state their block left, so a
binding made in the block is there afterwards; `if (1) { x = 5 } (x)` prints 5,
`i = 0 while (i < 3) { i = i + 1 } (i)` prints 3, `x = 1 if (1) { x = 2 } (x)`
prints 2 and `x = y (x)` prints the Error stored for `x`. -/
theorem assignment_stores_value (token : Token) (name : Identifier) (e : Expression)
    (world after : World) (v : Symbol)
    (hvalue : Finishes (.Expression e) world (.value (v, after))) :
    after = world
    ∧ Finishes (.Statement (.VariableStatement token name e)) world
        (.value (v, ⟨world.symbolTable.Set name.Value v, world.output⟩))
    ∧ (world.symbolTable.Set name.Value v).Get name.Value = (v, true)
    ∧ (∀ other, other ≠ name.Value →
        (world.symbolTable.Set name.Value v).Get other = world.symbolTable.Get other)
    ∧ (∀ (ifToken : Token) (condition : Expression) (firstBranch secondBranch :
          Option BlockStatement) (start left : World) (c result : Symbol),
        Finishes (.Expression condition) start (.value (c, start)) → c.GetValue = some "1" →
        Finishes (.BlockStatement firstBranch) start (.value (result, left)) →
        Finishes (.Statement (.IfStatement ifToken condition firstBranch secondBranch)) start
          (.value (result, left)))
    ∧ (∀ (whileToken : Token) (condition : Expression) (loop : Option BlockStatement)
          (start left : World) (c c2 result : Symbol) (rendered : String),
        Finishes (.Expression condition) start (.value (c, start)) → c.GetValue = some "1" →
        Finishes (.BlockStatement loop) start (.value (result, left)) →
        Finishes (.Expression condition) left (.value (c2, left)) →
        c2.GetValue = some rendered → rendered ≠ "1" →
        Finishes (.Statement (.WhileStatement whileToken condition loop)) start
          (.value (.Dummy "", left)))
    ∧ run 100 (bytes "if (1) \x7b x = 5 \x7d (x)") = .value "5"
    ∧ run 100 (bytes "i = 0 while (i < 3) \x7b i = i + 1 \x7d (i)") = .value "3"
    ∧ run 100 (bytes "x = 1 if (1) \x7b x = 2 \x7d (x)") = .value "2"
    ∧ run 100 (bytes "x = y (x)") = .value "ERROR: Couldn't find identifier: y" := by
  have hw : after = world := finishes_expression_world hvalue
  subst hw
  obtain ⟨N, hN⟩ := finishes_from hvalue
  refine ⟨rfl, ⟨by simp, N + 1, ?_⟩, get_set_same _ _ _,
    fun other h => get_set_other _ _ _ _ h, ?_, ?_, by decide!, by decide!, by decide!,
    by decide!⟩
  · simp only [Evaluate, hN N (le_refl _)]
  · intro ifToken condition firstBranch secondBranch start left c result hc hv hblock
    exact (finishes_if_first ifToken condition firstBranch secondBranch start c hc hv _).2 hblock
  · intro whileToken condition loop start left c c2 result rendered hc hv hbody hc2 hv2 h1
    exact finishes_while_step whileToken condition loop start left c result _ hc hv hbody
      (finishes_while_stop whileToken condition loop left c2 rendered hc2 hv2 h1)

/-- Witness for C21: `x = 7` in a state where `x` is bound to 1 and `y` to 2. -/
theorem assignment_stores_value_witness :
    Finishes (.Statement (.VariableStatement ⟨"IDENTIFIER", "x"⟩ ⟨⟨"IDENTIFIER", "x"⟩, "x"⟩
        (.Integer ⟨"INTEGER", "7"⟩ 7)))
      ⟨(CreateSymbolTable.Set "x" (.Integer 1)).Set "y" (.Integer 2), "out"⟩
      (.value (.Integer 7,
        ⟨((CreateSymbolTable.Set "x" (.Integer 1)).Set "y" (.Integer 2)).Set "x" (.Integer 7),
          "out"⟩))
    ∧ (((CreateSymbolTable.Set "x" (.Integer 1)).Set "y" (.Integer 2)).Set "x" (.Integer 7)).Get "x"
        = (.Integer 7, true)
    ∧ (((CreateSymbolTable.Set "x" (.Integer 1)).Set "y" (.Integer 2)).Set "x" (.Integer 7)).Get "y"
        = ((CreateSymbolTable.Set "x" (.Integer 1)).Set "y" (.Integer 2)).Get "y" :=
  ⟨(assignment_stores_value ⟨"IDENTIFIER", "x"⟩ ⟨⟨"IDENTIFIER", "x"⟩, "x"⟩
      (.Integer ⟨"INTEGER", "7"⟩ 7)
      ⟨(CreateSymbolTable.Set "x" (.Integer 1)).Set "y" (.Integer 2), "out"⟩
      ⟨(CreateSymbolTable.Set "x" (.Integer 1)).Set "y" (.Integer 2), "out"⟩ (.Integer 7)
      ⟨by decide, 1, by decide⟩).2.1,
    (assignment_stores_value ⟨"IDENTIFIER", "x"⟩ ⟨⟨"IDENTIFIER", "x"⟩, "x"⟩
      (.Integer ⟨"INTEGER", "7"⟩ 7)
      ⟨(CreateSymbolTable.Set "x" (.Integer 1)).Set "y" (.Integer 2), "out"⟩
      ⟨(CreateSymbolTable.Set "x" (.Integer 1)).Set "y" (.Integer 2), "out"⟩ (.Integer 7)
      ⟨by decide, 1, by decide⟩).2.2.1,
    (assignment_stores_value ⟨"IDENTIFIER", "x"⟩ ⟨⟨"IDENTIFIER", "x"⟩, "x"⟩
      (.Integer ⟨"INTEGER", "7"⟩ 7)
      ⟨(CreateSymbolTable.Set "x" (.Integer 1)).Set "y" (.Integer 2), "out"⟩
      ⟨(CreateSymbolTable.Set "x" (.Integer 1)).Set "y" (.Integer 2), "out"⟩ (.Integer 7)
      ⟨by decide, 1, by decide⟩).2.2.2.1 "y" (by decide)⟩

/-! ## Evaluator: arithmetic and comparison -/

theorem wrapInt64_spec (x : Int) :
    inInt64 (wrapInt64 x) ∧ (wrapInt64 x - x) % 18446744073709551616 = 0
      ∧ (inInt64 x → wrapInt64 x = x) := by
  unfold inInt64 wrapInt64
  refine ⟨by omega, by omega, fun h => by omega⟩

theorem neg_tmod_eq (a b : Int) : (-a).tmod b = -(a.tmod b) := by
  rw [Int.tmod_def, Int.tmod_def, Int.neg_tdiv]; ring

theorem tmod_bounds (a b : Int) (hb : b ≠ 0) :
    (a.tmod b).natAbs < b.natAbs ∧ (0 ≤ a → 0 ≤ a.tmod b) ∧ (a ≤ 0 → a.tmod b ≤ 0) := by
  have hsign2 : a ≤ 0 → a.tmod b ≤ 0 := by
    intro ha
    have := Int.tmod_nonneg b (show 0 ≤ -a by omega)
    rw [neg_tmod_eq] at this
    omega
  refine ⟨?_, Int.tmod_nonneg b, hsign2⟩
  rcases lt_or_gt_of_ne hb with hneg | hpos
  · have h1 := Int.tmod_lt_of_pos a (show 0 < -b by omega)
    have h2 := Int.tmod_lt_of_pos (-a) (show 0 < -b by omega)
    rw [Int.tmod_neg] at h1 h2
    rw [neg_tmod_eq] at h2
    omega
  · have h1 := Int.tmod_lt_of_pos a hpos
    have h2 := Int.tmod_lt_of_pos (-a) hpos
    rw [neg_tmod_eq] at h2
    omega

theorem tdiv_bound (a b : Int) (hb : b ≠ 0) (ha : inInt64 a)
    (hover : ¬ (a = -9223372036854775808 ∧ b = -1)) : inInt64 (a.tdiv b) := by
  unfold inInt64 at ha ⊢
  by_cases h1 : b = 1
  · subst h1; rw [Int.tdiv_one]; exact ha
  by_cases h2 : b = -1
  · subst h2
    rw [show (-1 : Int) = -(1 : Int) from rfl, Int.tdiv_neg, Int.tdiv_one]
    omega
  have hq := Int.natAbs_tdiv a b
  have hb2 : 2 ≤ b.natAbs := by omega
  have hle : a.natAbs / b.natAbs ≤ a.natAbs / 2 := Nat.div_le_div_left hb2 (by decide)
  have hq2 : (a.tdiv b).natAbs ≤ a.natAbs / 2 := by rw [hq]; exact hle
  omega

/-- C22. For all int64 values `a` and `b`, `evaluateInfix` returns for `+`,
`-`, `*` the Integer that is the int64 value congruent modulo 2^64 to the sum,
difference, product; for `b` other than 0 it returns for `/` the quotient
truncated toward zero (for the least int64 divided by -1 the least int64
again) and for `%` the remainder `r` with `a = (a / b) * b + r`, `|r| < |b|`
and the sign of `a`; and for `<`, `>`, `<=`, `>=`, `==`, `!=` Integer 1 when
the relation holds and Integer 0 otherwise. -/
theorem integer_operator_semantics (a b : Int) (ha : inInt64 a) (hb : inInt64 b) :
    (∀ entry ∈ [("+", a + b), ("-", a - b), ("*", a * b)],
        ∃ r, evaluateInfix entry.1 (.Integer a) (.Integer b) = some (.Integer r)
          ∧ inInt64 r ∧ (r - entry.2) % 18446744073709551616 = 0
          ∧ (inInt64 entry.2 → r = entry.2))
    ∧ (b ≠ 0 →
        evaluateInfix "/" (.Integer a) (.Integer b)
            = some (.Integer (if a = -9223372036854775808 ∧ b = -1 then -9223372036854775808
                else Int.tdiv a b))
        ∧ evaluateInfix "%" (.Integer a) (.Integer b) = some (.Integer (Int.tmod a b))
        ∧ Int.tdiv a b * b + Int.tmod a b = a
        ∧ (Int.tmod a b).natAbs < b.natAbs
        ∧ (0 ≤ a → 0 ≤ Int.tmod a b) ∧ (a ≤ 0 → Int.tmod a b ≤ 0)
        ∧ (¬ (a = -9223372036854775808 ∧ b = -1) → inInt64 (Int.tdiv a b))
        ∧ inInt64 (Int.tmod a b))
    ∧ evaluateInfix "<" (.Integer a) (.Integer b) = some (.Integer (if a < b then 1 else 0))
    ∧ evaluateInfix ">" (.Integer a) (.Integer b) = some (.Integer (if a > b then 1 else 0))
    ∧ evaluateInfix "<=" (.Integer a) (.Integer b) = some (.Integer (if a ≤ b then 1 else 0))
    ∧ evaluateInfix ">=" (.Integer a) (.Integer b) = some (.Integer (if a ≥ b then 1 else 0))
    ∧ evaluateInfix "==" (.Integer a) (.Integer b) = some (.Integer (if a = b then 1 else 0))
    ∧ evaluateInfix "!=" (.Integer a) (.Integer b) = some (.Integer (if a ≠ b then 1 else 0)) := by
  refine ⟨?_, ?_, ?_, ?_, ?_, ?_, ?_, ?_⟩
  · intro entry hmem
    simp only [List.mem_cons, List.mem_singleton, List.not_mem_nil, or_false] at hmem
    rcases hmem with rfl | rfl | rfl
    · exact ⟨wrapInt64 (a + b), by simp [evaluateInfix, Symbol.assertInteger],
        (wrapInt64_spec _).1, (wrapInt64_spec _).2.1, (wrapInt64_spec _).2.2⟩
    · exact ⟨wrapInt64 (a - b), by simp [evaluateInfix, Symbol.assertInteger],
        (wrapInt64_spec _).1, (wrapInt64_spec _).2.1, (wrapInt64_spec _).2.2⟩
    · exact ⟨wrapInt64 (a * b), by simp [evaluateInfix, Symbol.assertInteger],
        (wrapInt64_spec _).1, (wrapInt64_spec _).2.1, (wrapInt64_spec _).2.2⟩
  · intro hb0
    obtain ⟨t1, t2, t3⟩ := tmod_bounds a b hb0
    have hmodrange : inInt64 (Int.tmod a b) := by
      unfold inInt64 at hb ⊢
      omega
    refine ⟨?_, ?_, Int.tdiv_add_tmod' a b, t1, t2, t3, tdiv_bound a b hb0 ha, hmodrange⟩
    · by_cases hover : a = -9223372036854775808 ∧ b = -1
      · obtain ⟨rfl, rfl⟩ := hover
        simp [evaluateInfix, Symbol.assertInteger]
        decide
      · rw [if_neg hover]
        simp [evaluateInfix, Symbol.assertInteger, hb0]
        exact (wrapInt64_spec _).2.2 (tdiv_bound a b hb0 ha hover)
    · simp [evaluateInfix, Symbol.assertInteger, hb0]
      exact (wrapInt64_spec _).2.2 hmodrange
  · by_cases h : a < b <;> simp [evaluateInfix, Symbol.assertInteger, evaluateToBooleanInteger, h]
  · by_cases h : a > b <;> simp [evaluateInfix, Symbol.assertInteger, evaluateToBooleanInteger, h]
  · by_cases h : a ≤ b <;> simp [evaluateInfix, Symbol.assertInteger, evaluateToBooleanInteger, h]
  · by_cases h : a ≥ b <;> simp [evaluateInfix, Symbol.assertInteger, evaluateToBooleanInteger, h]
  · by_cases h : a = b <;> simp [evaluateInfix, Symbol.assertInteger, evaluateToBooleanInteger, h]
  · by_cases h : a = b <;> simp [evaluateInfix, Symbol.assertInteger, evaluateToBooleanInteger, h]

/-- Witness for C22: `-7 / 2` and `-7 % 2`. -/
theorem integer_operator_semantics_witness :
    evaluateInfix "/" (.Integer (-7)) (.Integer 2)
        = some (.Integer (if (-7 : Int) = -9223372036854775808 ∧ (2 : Int) = -1
            then -9223372036854775808 else Int.tdiv (-7) 2))
    ∧ evaluateInfix "%" (.Integer (-7)) (.Integer 2) = some (.Integer (Int.tmod (-7) 2))
    ∧ Int.tdiv (-7) 2 * 2 + Int.tmod (-7) 2 = -7
    ∧ (Int.tmod (-7) 2).natAbs < (2 : Int).natAbs
    ∧ ((0 : Int) ≤ -7 → 0 ≤ Int.tmod (-7) 2) ∧ ((-7 : Int) ≤ 0 → Int.tmod (-7) 2 ≤ 0)
    ∧ (¬ ((-7 : Int) = -9223372036854775808 ∧ (2 : Int) = -1) → inInt64 (Int.tdiv (-7) 2))
    ∧ inInt64 (Int.tmod (-7) 2) :=
  (integer_operator_semantics (-7) 2 ⟨by decide, by decide⟩ ⟨by decide, by decide⟩).2.1
    (by decide)

/-! ## Evaluator: faults of infix expressions -/

theorem evaluateInfix_none (operator : String) (lv rv : Symbol) :
    evaluateInfix operator lv rv = none
      ↔ (∀ a, lv ≠ .Integer a) ∨ (∀ b, rv ≠ .Integer b)
        ∨ ((operator = "/" ∨ operator = "%") ∧ rv = .Integer 0) := by
  cases lv with
  | nil => simp [evaluateInfix, Symbol.assertInteger]
  | Dummy t => simp [evaluateInfix, Symbol.assertInteger]
  | Error m => simp [evaluateInfix, Symbol.assertInteger]
  | Integer a =>
    cases rv with
    | nil => simp [evaluateInfix, Symbol.assertInteger]
    | Dummy t => simp [evaluateInfix, Symbol.assertInteger]
    | Error m => simp [evaluateInfix, Symbol.assertInteger]
    | Integer b =>
      simp only [evaluateInfix, Symbol.assertInteger]
      by_cases h1 : operator = "+"
      · subst h1; simp
      by_cases h2 : operator = "-"
      · subst h2; simp
      by_cases h3 : operator = "*"
      · subst h3; simp
      by_cases h4 : operator = "/"
      · subst h4; simp
      by_cases h5 : operator = "%"
      · subst h5; simp
      simp only [if_neg h1, if_neg h2, if_neg h3, if_neg h4, if_neg h5]
      have hno : ¬ ((∀ a2, Symbol.Integer a ≠ .Integer a2) ∨ (∀ b2, Symbol.Integer b ≠ .Integer b2)
          ∨ ((operator = "/" ∨ operator = "%") ∧ Symbol.Integer b = .Integer 0)) := by
        rintro (h | h | ⟨h | h, -⟩)
        · exact h a rfl
        · exact h b rfl
        · exact h4 h
        · exact h5 h
      refine ⟨fun h => ?_, fun h => absurd h hno⟩
      exfalso
      split_ifs at h

theorem expression_finishes (e : Expression) (w : World) :
    ∃ o, Finishes (.Expression e) w o := by
  induction e with
  | nil => exact ⟨.value (.nil, w), by simp, 1, rfl⟩
  | Identifier node =>
    exact ⟨.value (evaluateIdentifier node w.symbolTable, w), by simp, 1, rfl⟩
  | Integer t value => exact ⟨.value (.Integer value, w), by simp, 1, rfl⟩
  | InfixExpression t l op r ihl ihr =>
    obtain ⟨ol, hl⟩ := ihl
    obtain ⟨L, hL⟩ := finishes_from hl
    cases ol with
    | timeout => exact absurd rfl hl.1
    | fault => exact ⟨.fault, by simp, L + 1, by simp only [Evaluate, hL L (le_refl _)]⟩
    | value a =>
      obtain ⟨lv, wl⟩ := a
      have e1 := finishes_expression_world hl
      subst e1
      obtain ⟨or, hr⟩ := ihr
      obtain ⟨R, hR⟩ := finishes_from hr
      cases or with
      | timeout => exact absurd rfl hr.1
      | fault =>
        exact ⟨.fault, by simp, max L R + 1, by
          simp only [Evaluate, hL _ (le_max_left L R), hR _ (le_max_right L R)]⟩
      | value b =>
        obtain ⟨rv, wr⟩ := b
        have e2 := finishes_expression_world hr
        subst e2
        cases hi : evaluateInfix op lv rv with
        | none =>
          exact ⟨.fault, by simp, max L R + 1, by
            simp only [Evaluate, hL _ (le_max_left L R), hR _ (le_max_right L R), hi]⟩
        | some result =>
          exact ⟨.value (result, wr), by simp, max L R + 1, by
            simp only [Evaluate, hL _ (le_max_left L R), hR _ (le_max_right L R), hi]⟩

theorem finishes_operands (token : Token) (left right : Expression) (operator : String)
    (world : World) (outcome : Outcome (Symbol × World)) :
    Finishes (.Expression (.InfixExpression token left operator right)) world outcome
      ↔ (Finishes (.Expression left) world .fault ∧ outcome = .fault)
        ∨ ∃ lv, Finishes (.Expression left) world (.value (lv, world))
            ∧ ((Finishes (.Expression right) world .fault ∧ outcome = .fault)
              ∨ ∃ rv, Finishes (.Expression right) world (.value (rv, world))
                  ∧ ((∃ r, evaluateInfix operator lv rv = some r ∧ outcome = .value (r, world))
                    ∨ (evaluateInfix operator lv rv = none ∧ outcome = .fault))) := by
  constructor
  · rintro ⟨hne, n, hn⟩
    cases n with
    | zero => simp only [Evaluate] at hn; exact absurd hn.symm hne
    | succ k =>
      simp only [Evaluate] at hn
      cases hl : Evaluate k (.Expression left) world with
      | timeout => simp only [hl] at hn; exact absurd hn.symm hne
      | fault =>
        simp only [hl] at hn
        exact Or.inl ⟨⟨by simp, k, hl⟩, hn.symm⟩
      | value a =>
        obtain ⟨lv, wl⟩ := a
        have e1 := expression_keeps_world left k world lv wl hl
        subst e1
        simp only [hl] at hn
        refine Or.inr ⟨lv, ⟨by simp, k, hl⟩, ?_⟩
        cases hr : Evaluate k (.Expression right) wl with
        | timeout => simp only [hr] at hn; exact absurd hn.symm hne
        | fault =>
          simp only [hr] at hn
          exact Or.inl ⟨⟨by simp, k, hr⟩, hn.symm⟩
        | value b =>
          obtain ⟨rv, wr⟩ := b
          have e2 := expression_keeps_world right k wl rv wr hr
          subst e2
          simp only [hr] at hn
          refine Or.inr ⟨rv, ⟨by simp, k, hr⟩, ?_⟩
          cases hi : evaluateInfix operator lv rv with
          | none =>
            simp only [hi] at hn
            exact Or.inr ⟨rfl, hn.symm⟩
          | some result =>
            simp only [hi] at hn
            exact Or.inl ⟨result, rfl, hn.symm⟩
  · rintro (⟨hl, rfl⟩ | ⟨lv, hl, hrest⟩)
    · obtain ⟨-, k, hk⟩ := hl
      exact ⟨by simp, k + 1, by simp only [Evaluate, hk]⟩
    · obtain ⟨L, hL⟩ := finishes_from hl
      rcases hrest with ⟨hr, rfl⟩ | ⟨rv, hr, hrest⟩
      · obtain ⟨R, hR⟩ := finishes_from hr
        exact ⟨by simp, max L R + 1, by
          simp only [Evaluate, hL _ (le_max_left L R), hR _ (le_max_right L R)]⟩
      · obtain ⟨R, hR⟩ := finishes_from hr
        rcases hrest with ⟨r, hi, rfl⟩ | ⟨hi, rfl⟩
        · exact ⟨by simp, max L R + 1, by
            simp only [Evaluate, hL _ (le_max_left L R), hR _ (le_max_right L R), hi]⟩
        · exact ⟨by simp, max L R + 1, by
            simp only [Evaluate, hL _ (le_max_left L R), hR _ (le_max_right L R), hi]⟩

theorem evaluateInfix_integer (operator : String) (a b : Int)
    (hop : operator ∈ ["+", "-", "*", "/", "%", "<", ">", "<=", ">=", "==", "!=", "&&", "||"])
    (hzero : (operator = "/" ∨ operator = "%") → b ≠ 0) :
    ∃ r, evaluateInfix operator (.Integer a) (.Integer b) = some (.Integer r) := by
  simp only [List.mem_cons, List.mem_singleton, List.not_mem_nil, or_false] at hop
  rcases hop with h | h | h | h | h | h | h | h | h | h | h | h | h <;> subst h
  · exact ⟨wrapInt64 (a + b), by simp [evaluateInfix, Symbol.assertInteger]⟩
  · exact ⟨wrapInt64 (a - b), by simp [evaluateInfix, Symbol.assertInteger]⟩
  · exact ⟨wrapInt64 (a * b), by simp [evaluateInfix, Symbol.assertInteger]⟩
  · exact ⟨wrapInt64 (Int.tdiv a b),
      by simp [evaluateInfix, Symbol.assertInteger, hzero (Or.inl rfl)]⟩
  · exact ⟨wrapInt64 (Int.tmod a b),
      by simp [evaluateInfix, Symbol.assertInteger, hzero (Or.inr rfl)]⟩
  · exact ⟨evaluateToBooleanInteger (a < b), by simp [evaluateInfix, Symbol.assertInteger]⟩
  · exact ⟨evaluateToBooleanInteger (a > b), by simp [evaluateInfix, Symbol.assertInteger]⟩
  · exact ⟨evaluateToBooleanInteger (a ≤ b), by simp [evaluateInfix, Symbol.assertInteger]⟩
  · exact ⟨evaluateToBooleanInteger (a ≥ b), by simp [evaluateInfix, Symbol.assertInteger]⟩
  · exact ⟨evaluateToBooleanInteger (a = b), by simp [evaluateInfix, Symbol.assertInteger]⟩
  · exact ⟨evaluateToBooleanInteger (a ≠ b), by simp [evaluateInfix, Symbol.assertInteger]⟩
  · simp only [evaluateInfix, Symbol.assertInteger, evaluateBooleanInfix]
    by_cases hb : (setBooleanValue a && setBooleanValue b) = true
    · exact ⟨1, by simp [hb]⟩
    · exact ⟨0, by simp [hb]⟩
  · simp only [evaluateInfix, Symbol.assertInteger, evaluateBooleanInfix]
    by_cases hb : (setBooleanValue a || setBooleanValue b) = true
    · exact ⟨1, by simp [hb]⟩
    · exact ⟨0, by simp [hb]⟩

theorem evaluateInfix_integer_not_error (operator : String) (a b : Int) (m : String) :
    evaluateInfix operator (.Integer a) (.Integer b) ≠ some (.Error m) := by
  intro h
  simp only [evaluateInfix, Symbol.assertInteger] at h
  by_cases h1 : operator = "+"
  · subst h1; simp at h
  by_cases h2 : operator = "-"
  · subst h2; simp at h
  by_cases h3 : operator = "*"
  · subst h3; simp at h
  by_cases h4 : operator = "/"
  · subst h4
    by_cases hb : b = 0 <;> simp [hb] at h
  by_cases h5 : operator = "%"
  · subst h5
    by_cases hb : b = 0 <;> simp [hb] at h
  by_cases h6 : operator = "<"
  · subst h6; simp at h
  by_cases h7 : operator = ">"
  · subst h7; simp at h
  by_cases h8 : operator = "<="
  · subst h8; simp at h
  by_cases h9 : operator = ">="
  · subst h9; simp at h
  by_cases h10 : operator = "=="
  · subst h10; simp at h
  by_cases h11 : operator = "!="
  · subst h11; simp at h
  by_cases h12 : operator = "&&"
  · subst h12
    simp only [evaluateBooleanInfix] at h
    by_cases hb : (setBooleanValue a && setBooleanValue b) = true <;> simp [hb] at h
  by_cases h13 : operator = "||"
  · subst h13
    simp only [evaluateBooleanInfix] at h
    by_cases hb : (setBooleanValue a || setBooleanValue b) = true <;> simp [hb] at h
  simp [h1, h2, h3, h4, h5, h6, h7, h8, h9, h10, h11, h12, h13] at h

/-- C23. Evaluating an InfixExpression evaluates the left operand, then the
right one, whatever the operator (no short-circuit), and every such evaluation
finishes.  It faults, returning no value at all, exactly when the left operand
faults, or the left operand returns and the right one faults, or both return
and the operator application faults; and the operator application faults
exactly when an operand's value is not an Integer (an Error, Unit, or nil) or
the operator is `/` or `%` and the right operand is the Integer 0.  With two
Integer operands and one of the 13 operators, division by zero apart, the
result is an Integer; the operator application never yields an Error value.
The expression `x + 1` with `x` unassigned faults, and so do the programs
`(x + 1)`, `1 / 0` and `0 && (1 / 0)`. -/
theorem infix_expression_faults (token : Token) (left right : Expression) (operator : String)
    (world : World) :
    (∃ o, Finishes (.Expression left) world o)
    ∧ (∃ o, Finishes (.Expression right) world o)
    ∧ (∃ o, Finishes (.Expression (.InfixExpression token left operator right)) world o)
    ∧ (∀ outcome,
        Finishes (.Expression (.InfixExpression token left operator right)) world outcome
          ↔ (Finishes (.Expression left) world .fault ∧ outcome = .fault)
            ∨ ∃ lv, Finishes (.Expression left) world (.value (lv, world))
                ∧ ((Finishes (.Expression right) world .fault ∧ outcome = .fault)
                  ∨ ∃ rv, Finishes (.Expression right) world (.value (rv, world))
                      ∧ ((∃ r, evaluateInfix operator lv rv = some r
                            ∧ outcome = .value (r, world))
                        ∨ (evaluateInfix operator lv rv = none ∧ outcome = .fault))))
    ∧ (∀ lv, Finishes (.Expression left) world (.value (lv, world)) →
        Finishes (.Expression right) world .fault →
        Finishes (.Expression (.InfixExpression token left operator right)) world .fault)
    ∧ (∀ lv rv, Finishes (.Expression left) world (.value (lv, world)) →
        Finishes (.Expression right) world (.value (rv, world)) →
        (Finishes (.Expression (.InfixExpression token left operator right)) world .fault
          ↔ (∀ a, lv ≠ .Integer a) ∨ (∀ b, rv ≠ .Integer b)
            ∨ ((operator = "/" ∨ operator = "%") ∧ rv = .Integer 0)))
    ∧ (∀ a b : Int, Finishes (.Expression left) world (.value (.Integer a, world)) →
        Finishes (.Expression right) world (.value (.Integer b, world)) →
        operator ∈ ["+", "-", "*", "/", "%", "<", ">", "<=", ">=", "==", "!=", "&&", "||"] →
        ((operator = "/" ∨ operator = "%") → b ≠ 0) →
        ∃ r : Int, Finishes (.Expression (.InfixExpression token left operator right)) world
          (.value (.Integer r, world)))
    ∧ (∀ lv rv m, evaluateInfix operator lv rv ≠ some (.Error m))
    ∧ Finishes (.Expression (.InfixExpression ⟨"PLUS", "+"⟩
          (.Identifier ⟨⟨"IDENTIFIER", "x"⟩, "x"⟩) "+" (.Integer ⟨"INTEGER", "1"⟩ 1)))
        ⟨CreateSymbolTable, ""⟩ .fault
    ∧ run 100 (bytes "(x + 1)") = .fault
    ∧ run 100 (bytes "1 / 0") = .fault
    ∧ run 100 (bytes "0 && (1 / 0)") = .fault := by
  refine ⟨expression_finishes left world, expression_finishes right world,
    expression_finishes _ world, finishes_operands token left right operator world, ?_, ?_, ?_, ?_,
    ⟨by simp, 2, by decide!⟩, by decide!, by decide!, by decide!⟩
  · intro lv hl hr
    exact (finishes_operands token left right operator world .fault).2
      (Or.inr ⟨lv, hl, Or.inl ⟨hr, rfl⟩⟩)
  · intro lv rv hl hr
    rw [← evaluateInfix_none, finishes_operands]
    constructor
    · rintro (⟨hf, -⟩ | ⟨lv2, hl2, hrest⟩)
      · exact absurd (finishes_unique hf hl) (by simp)
      · have e1 := finishes_unique hl2 hl
        simp only [Outcome.value.injEq, Prod.mk.injEq, and_true] at e1
        subst e1
        rcases hrest with ⟨hf, -⟩ | ⟨rv2, hr2, hrest⟩
        · exact absurd (finishes_unique hf hr) (by simp)
        · have e2 := finishes_unique hr2 hr
          simp only [Outcome.value.injEq, Prod.mk.injEq, and_true] at e2
          subst e2
          rcases hrest with ⟨r, -, h⟩ | ⟨h, -⟩
          · exact absurd h (by simp)
          · exact h
    · intro h
      exact Or.inr ⟨lv, hl, Or.inr ⟨rv, hr, Or.inr ⟨h, rfl⟩⟩⟩
  · intro a b hl hr hop hzero
    obtain ⟨r, hres⟩ := evaluateInfix_integer operator a b hop hzero
    exact ⟨r, (finishes_operands token left right operator world _).2
      (Or.inr ⟨_, hl, Or.inr ⟨_, hr, Or.inl ⟨_, hres, rfl⟩⟩⟩)⟩
  · intro lv rv m h
    cases lv with
    | nil => simp [evaluateInfix, Symbol.assertInteger] at h
    | Dummy t => simp [evaluateInfix, Symbol.assertInteger] at h
    | Error e => simp [evaluateInfix, Symbol.assertInteger] at h
    | Integer a =>
      cases rv with
      | nil => simp [evaluateInfix, Symbol.assertInteger] at h
      | Dummy t => simp [evaluateInfix, Symbol.assertInteger] at h
      | Error e => simp [evaluateInfix, Symbol.assertInteger] at h
      | Integer b =>
        exact evaluateInfix_integer_not_error operator a b m h

/-! ## Lexer: the token texts make up the source -/

theorem scanHead_used (c : Nat) (t : List Nat) (hc : c ≠ 0) (hw : whitespace c = false) :
    ∃ used, c :: t = used ++ (scanHead c t).2 ∧ (scanHead c t).1.Value = textOf used
      ∧ ∀ b ∈ used, whitespace b = false := by
  apply scanHead_cases c t (fun r => ∃ used, c :: t = used ++ r.2 ∧ r.1.Value = textOf used
      ∧ ∀ b ∈ used, whitespace b = false)
  · intro second both single hs hws _ _
    unfold scanTwo
    split_ifs with h
    · cases t with
      | nil =>
        simp only [List.headD_nil] at h
        exact absurd h.symm hs
      | cons d t2 =>
        simp only [List.headD_cons] at h
        subst h
        exact ⟨[c, d], by simp, rfl, by simp [hw, hws]⟩
    · exact ⟨[c], by simp, rfl, by simp [hw]⟩
  · intro kind _
    exact ⟨[c], by simp, rfl, by simp [hw]⟩
  · intro h0
    exact absurd h0 hc
  · intro _
    refine ⟨(c :: t).takeWhile digit, (List.takeWhile_append_dropWhile _ _).symm, rfl, ?_⟩
    intro b hb
    have hd := List.mem_takeWhile_imp hb
    cases hws : whitespace b with
    | false => rfl
    | true => rw [whitespace_not_digit b hws] at hd; exact absurd hd (by decide)
  · intro _
    refine ⟨(c :: t).takeWhile letter, (List.takeWhile_append_dropWhile _ _).symm, rfl, ?_⟩
    intro b hb
    have hl := List.mem_takeWhile_imp hb
    cases hws : whitespace b with
    | false => rfl
    | true => rw [whitespace_not_letter b hws] at hl; exact absurd hl (by decide)

theorem filter_dropWhile_whitespace (r : List Nat) :
    (r.dropWhile whitespace).filter (fun b => !whitespace b)
      = r.filter (fun b => !whitespace b) := by
  induction r with
  | nil => rfl
  | cons c t ih =>
    cases hw : whitespace c with
    | true => simp [List.dropWhile_cons, List.filter_cons, hw, ih]
    | false => simp [List.dropWhile_cons, List.filter_cons, hw]

theorem filter_no_whitespace (used : List Nat) (h : ∀ b ∈ used, whitespace b = false) :
    used.filter (fun b => !whitespace b) = used := by
  rw [List.filter_eq_self]
  intro b hb
  simp [h b hb]

theorem scanTokens_text (n : Nat) : ∀ r : List Nat, r.length ≤ n → (∀ b ∈ r, b ≠ 0) →
    textBeforeEnd (scanTokens (n + 1) r)
      = some (textOf (r.filter (fun b => !whitespace b))) := by
  induction n with
  | zero =>
    intro r hr _
    have : r = [] := List.length_eq_zero.1 (Nat.le_zero.1 hr)
    subst this
    rfl
  | succ n ih =>
    intro r hr hnul
    cases hd : r.dropWhile whitespace with
    | nil =>
      have hf := filter_dropWhile_whitespace r
      rw [hd] at hf
      rw [← hf]
      simp only [scanTokens, scanToken_of_blank r hd, textBeforeEnd, END, if_true]
      rfl
    | cons c t =>
      have hsuf : c :: t <:+ r := hd ▸ List.dropWhile_suffix whitespace
      have hc : c ≠ 0 := hnul c (hsuf.subset (List.mem_cons_self _ _))
      have hw : whitespace c = false := by
        have := List.head_dropWhile_not whitespace r (by rw [hd]; simp)
        simpa [hd] using this
      have hst : scanToken r = scanHead c t := by simp [scanToken, hd]
      obtain ⟨used, hsplit, hvalue, hused⟩ := scanHead_used c t hc hw
      have hlen : (scanHead c t).2.length ≤ n := by
        have h1 := (scanHead_suffix c t).length_le
        have h2 := hsuf.length_le
        simp only [List.length_cons] at h2
        omega
      have hnul2 : ∀ b ∈ (scanHead c t).2, b ≠ 0 := fun b hb =>
        hnul b (hsuf.subset (List.mem_cons_of_mem _ ((scanHead_suffix c t).subset hb)))
      have hrest := ih (scanHead c t).2 hlen hnul2
      have hfilter : r.filter (fun b => !whitespace b)
          = used ++ (scanHead c t).2.filter (fun b => !whitespace b) := by
        rw [← filter_dropWhile_whitespace r, hd, hsplit, List.filter_append,
          filter_no_whitespace used hused]
      have hend : ¬ (scanHead c t).1.Type_ = END := scanHead_not_end c t hc
      rw [scanTokens, hst, textBeforeEnd, if_neg hend, hrest, hfilter, textOf_append, hvalue]
      rfl

/-- C24. For every non-empty source of ASCII bytes without a NUL byte, and
every number of calls of `ReadNextToken` above the length of the source, the
token list holds an END token and the texts of the tokens before the first END,
joined in order, are the source with its whitespace bytes removed; the
whitespace bytes are exactly space, tab, line feed, carriage return and form
feed. -/
theorem lexer_keeps_the_text (source : List Nat) (n : Nat) (hne : source ≠ [])
    (hascii : ∀ b ∈ source, b < 128) (hnul : ∀ b ∈ source, b ≠ 0)
    (hn : source.length ≤ n) :
    (∃ lexer text, CreateLexer source = some lexer
      ∧ textBeforeEnd (lexer.readTokens (n + 1)) = some text
      ∧ bytes text = source.filter (fun b => !whitespace b))
    ∧ ∀ b, whitespace b = true ↔ (b = 32 ∨ b = 9 ∨ b = 10 ∨ b = 13 ∨ b = 12) := by
  constructor
  · cases source with
    | nil => exact absurd rfl hne
    | cons c r =>
      refine ⟨Lexer.onRest [] (c :: r), textOf ((c :: r).filter (fun b => !whitespace b)),
        createLexer_cons c r, ?_, ?_⟩
      · rw [readTokens_onRest]
        exact scanTokens_text n (c :: r) hn hnul
      · apply bytes_textOf
        intro b hb
        have := hascii b (List.mem_of_mem_filter hb)
        omega
  · intro b
    simp only [whitespace, Bool.or_eq_true, decide_eq_true_eq]
    omega

/-- Witness for C24: the source `x = 1` followed by a line feed. -/
theorem lexer_keeps_the_text_witness :
    ∃ lexer text, CreateLexer [120, 32, 61, 32, 49, 10] = some lexer
      ∧ textBeforeEnd (lexer.readTokens 7) = some text
      ∧ bytes text = [120, 61, 49] :=
  (lexer_keeps_the_text [120, 32, 61, 32, 49, 10] 6 (by decide) (by decide) (by decide)
    (by decide)).1

/-! ## Parser: the token after a print statement -/

theorem parseStatement_print (fuel : Nat) (fromBlock : Bool) (p : Parser)
    (hprint : p.currentToken.Type_ = PRINT) :
    Parser.parseStatement (fuel + 1) fromBlock p = p.parsePrintStatement fuel := by
  have h1 : ¬ p.currentToken.Type_ = IDENTIFIER := by rw [hprint]; decide
  have h2 : ¬ p.currentToken.Type_ = IF := by rw [hprint]; decide
  have h3 : ¬ p.currentToken.Type_ = WHILE := by rw [hprint]; decide
  rw [Parser.parseStatement, if_neg h1, if_neg h2, if_neg h3, if_pos hprint]

/-- C25. Let the current token be `print` and let the argument list parse to
`values`, leaving the parser `q` (whose next token is the first token after the
argument list).  `parsePrintStatement` returns the PrintStatement and advances
once, so that token becomes the current one with the error list as it was.  At
top level `ParseProgram` then advances once more: the loop goes on with the
PrintStatement appended and with the two tokens the lexer yields after that
token as current and next token, so the token is never parsed, and no error is
recorded.  In a block the loop goes on with that token as the current token.
So `print 1 print 2` parses with no error into the PrintStatement of `1` and
the ExpressionStatement `2`, and `print 1 2 print 3` prints `1` and `3`, while
in the block of `while (1) { print 1 print 2 }` both print statements are
there. -/
theorem top_level_print_swallows_token (fuel : Nat) (statements : List Statement)
    (p q : Parser) (values : List Expression)
    (hprint : p.currentToken.Type_ = PRINT)
    (hvalues : Parser.setValues fuel [] p = some (values, q)) :
    Parser.parsePrintStatement fuel p
        = some (.PrintStatement p.currentToken values, q.setTokens)
    ∧ q.setTokens.currentToken = q.nextToken
    ∧ q.setTokens.errors = q.errors
    ∧ Parser.ParseProgramLoop (fuel + 2) statements p
        = Parser.ParseProgramLoop (fuel + 1)
            (statements ++ [.PrintStatement p.currentToken values])
            (Parser.setTokens { q.setTokens with leftBraceCount := 0 })
    ∧ (Parser.setTokens { q.setTokens with leftBraceCount := 0 }).currentToken
        = q.lexer.ReadNextToken.1
    ∧ (Parser.setTokens { q.setTokens with leftBraceCount := 0 }).nextToken
        = q.lexer.ReadNextToken.2.ReadNextToken.1
    ∧ (Parser.setTokens { q.setTokens with leftBraceCount := 0 }).lexer
        = q.lexer.ReadNextToken.2.ReadNextToken.2
    ∧ (Parser.setTokens { q.setTokens with leftBraceCount := 0 }).errors = q.errors
    ∧ (∀ token, Parser.parseBlockLoop (fuel + 2) token statements false p
        = if q.nextToken.Type_ = "RIGHTCURLYBRACE" ∧ q.leftBraceCount > 1 then
            Parser.parseBlockLoop (fuel + 1) token
              (statements ++ [.PrintStatement p.currentToken values]) true
              { q.setTokens.setTokens with leftBraceCount := wrapInt32 (q.leftBraceCount - 1) }
          else
            Parser.parseBlockLoop (fuel + 1) token
              (statements ++ [.PrintStatement p.currentToken values]) false q.setTokens)
    ∧ parseSource 100 (bytes "print 1 print 2")
        = some (⟨[.PrintStatement ⟨"PRINT", "print"⟩ [.Integer ⟨"INTEGER", "1"⟩ 1],
            .ExpressionStatement ⟨"INTEGER", "2"⟩ (.Integer ⟨"INTEGER", "2"⟩ 2)]⟩, [])
    ∧ run 100 (bytes "print 1 2 print 3") = .value "1 3 "
    ∧ parseSource 100 (bytes "while (1) \x7b print 1 print 2 \x7d")
        = some (⟨[.WhileStatement ⟨"WHILE", "while"⟩ (.Integer ⟨"INTEGER", "1"⟩ 1)
            (some (.mk ⟨"PRINT", "print"⟩
              [.PrintStatement ⟨"PRINT", "print"⟩ [.Integer ⟨"INTEGER", "1"⟩ 1],
               .PrintStatement ⟨"PRINT", "print"⟩ [.Integer ⟨"INTEGER", "2"⟩ 2]]))]⟩, []) := by
  have hstatement : ∀ fromBlock, Parser.parseStatement (fuel + 1) fromBlock p
      = some (.PrintStatement p.currentToken values, q.setTokens) := by
    intro fromBlock
    rw [parseStatement_print fuel fromBlock p hprint]
    simp only [Parser.parsePrintStatement, hvalues]
  have hend : p.currentToken.Type_ ≠ END := by rw [hprint]; decide
  refine ⟨?_, rfl, rfl, ?_, rfl, rfl, rfl, rfl, ?_, parsed_eq_of_beq (by decide!), by decide!,
    parsed_eq_of_beq (by decide!)⟩
  · simp only [Parser.parsePrintStatement, hvalues]
  · rw [Parser.ParseProgramLoop, if_pos hend, hstatement false]
    simp only [Statement.notNil, if_true]
  · intro token
    have h1 : p.currentToken.Type_ ≠ "RIGHTCURLYBRACE" ∧ p.currentToken.Type_ ≠ END := by
      rw [hprint]; decide
    have h2 : ¬ p.currentToken.Type_ = "ELSE" := by rw [hprint]; decide
    have h3 : ¬ (p.currentToken.Type_ = "IDENTIFIER" ∧ p.nextToken.Type_ = "ASSIGNMENT") := by
      rintro ⟨h, -⟩
      rw [hprint] at h
      exact absurd h (by decide)
    rw [Parser.parseBlockLoop, if_pos h1]
    simp only [Bool.false_eq_true, if_false, if_neg h2, if_neg h3, hstatement true,
      Statement.notNil, if_true]
    rfl

/-- Witness for C25: the parser created on `print 1 print 2`. -/
theorem top_level_print_swallows_token_witness :
    Parser.ParseProgramLoop 5 []
        (Parser.CreateParser ⟨bytes "print 1 print 2", 0, 112⟩ 0)
      = Parser.ParseProgramLoop 4 [.PrintStatement ⟨"PRINT", "print"⟩ [.Integer ⟨"INTEGER", "1"⟩ 1]]
          (Parser.setTokens { Parser.setTokens ⟨⟨bytes "print 1 print 2", 13, 32⟩,
              ⟨"INTEGER", "1"⟩, ⟨"PRINT", "print"⟩, [], 0⟩ with leftBraceCount := 0 }) :=
  (top_level_print_swallows_token 3 [] (Parser.CreateParser ⟨bytes "print 1 print 2", 0, 112⟩ 0)
    ⟨⟨bytes "print 1 print 2", 13, 32⟩, ⟨"INTEGER", "1"⟩, ⟨"PRINT", "print"⟩, [], 0⟩
    [.Integer ⟨"INTEGER", "1"⟩ 1] (by decide!) (by decide!)).2.2.2.1

/-! ## Parser: a failed expected-token check -/

theorem logError_twice (q : Parser) (v : String) :
    ((q.logError v).logError v).errors
        = q.errors ++ ["Syntax error, didn't expect " ++ v, "Syntax error, didn't expect " ++ v]
    ∧ ((q.logError v).logError v).currentToken = q.currentToken
    ∧ ((q.logError v).logError v).nextToken = q.nextToken
    ∧ ((q.logError v).logError v).lexer = q.lexer
    ∧ ((q.logError v).logError v).leftBraceCount = q.leftBraceCount := by
  simp [Parser.logError]

/-- C26. When `expectNext` is called for a token type other than the type of
the next token, it returns false and appends one message on the text `v` of
the next token; each of its callers then appends the same message again and
gives up: `parseVariableDeclaration` (on `=`), `parseIfStatement` and
`parseWhileStatement` (on `(`, and on `)` after the condition) and
`parseBoundExpression` (on `)` after the inner expression) return nil with a
parser whose error list has grown by `Syntax error, didn't expect v` twice and
whose current token, next token and lexer are as they were before the check.
The source `x 1` gives the error list of two `Syntax error, didn't expect 1`. -/
theorem failed_check_reported_twice (fuel : Nat) (p : Parser) :
    (∀ expected, p.nextToken.Type_ ≠ expected →
        p.expectNext expected = (false, p.logError p.nextToken.Value))
    ∧ (p.nextToken.Type_ ≠ "ASSIGNMENT" →
        p.parseVariableDeclaration fuel
          = some (.nilVariableStatement,
              (p.logError p.nextToken.Value).logError p.nextToken.Value))
    ∧ (p.nextToken.Type_ ≠ "LEFTPARENTHESES" →
        Parser.parseIfStatement (fuel + 1) p
            = some (.nil, (p.logError p.nextToken.Value).logError p.nextToken.Value)
          ∧ Parser.parseWhileStatement (fuel + 1) p
            = some (.nil, (p.logError p.nextToken.Value).logError p.nextToken.Value))
    ∧ (∀ condition after, p.nextToken.Type_ = "LEFTPARENTHESES" →
        Parser.parseExpression fuel NILPRECEDENCE false p.setTokens.setTokens
          = some (condition, after) →
        condition.isNil = false → after.nextToken.Type_ ≠ "RIGHTPARENTHESES" →
        Parser.parseIfStatement (fuel + 1) p
            = some (.nil, (after.logError after.nextToken.Value).logError after.nextToken.Value)
          ∧ Parser.parseWhileStatement (fuel + 1) p
            = some (.nil, (after.logError after.nextToken.Value).logError after.nextToken.Value))
    ∧ (∀ expression after,
        Parser.parseExpression fuel NILPRECEDENCE false p.setTokens = some (expression, after) →
        after.nextToken.Type_ ≠ "RIGHTPARENTHESES" →
        Parser.parseBoundExpression (fuel + 1) p
          = some (.nil, (after.logError after.nextToken.Value).logError after.nextToken.Value))
    ∧ (∀ (q : Parser) (v : String),
        ((q.logError v).logError v).errors
            = q.errors ++ ["Syntax error, didn't expect " ++ v,
                "Syntax error, didn't expect " ++ v]
          ∧ ((q.logError v).logError v).currentToken = q.currentToken
          ∧ ((q.logError v).logError v).nextToken = q.nextToken
          ∧ ((q.logError v).logError v).lexer = q.lexer)
    ∧ parseSource 100 (bytes "x 1")
        = some (⟨[.nilVariableStatement,
              .ExpressionStatement ⟨"INTEGER", "1"⟩ (.Integer ⟨"INTEGER", "1"⟩ 1)]⟩,
            ["Syntax error, didn't expect 1", "Syntax error, didn't expect 1"]) := by
  refine ⟨?_, ?_, ?_, ?_, ?_, ?_, parsed_eq_of_beq (by decide!)⟩
  · intro expected h
    rw [Parser.expectNext, if_neg h]
  · intro h
    simp [Parser.parseVariableDeclaration, Parser.expectNext, h, Parser.logError]
  · intro h
    constructor
    · simp [Parser.parseIfStatement, Parser.expectNext, h, Parser.logError]
    · simp [Parser.parseWhileStatement, Parser.expectNext, h, Parser.logError]
  · intro condition after hopen hcond hnil hclose
    constructor
    · simp [Parser.parseIfStatement, Parser.expectNext, hopen, hcond, hnil, hclose,
        Parser.logError]
    · simp [Parser.parseWhileStatement, Parser.expectNext, hopen, hcond, hnil, hclose,
        Parser.logError]
  · intro expression after hinner hclose
    simp [Parser.parseBoundExpression, Parser.expectNext, hinner, hclose, Parser.logError]
  · intro q v
    obtain ⟨h1, h2, h3, h4, -⟩ := logError_twice q v
    exact ⟨h1, h2, h3, h4⟩

/-- Witness for C26: the parser on `x 1` (no `=` after the identifier), and on
`(1 }` (no `)` after the inner expression). -/
theorem failed_check_reported_twice_witness :
    (Parser.parseVariableDeclaration 0 (Parser.CreateParser ⟨bytes "x 1", 0, 120⟩ 0)
        = some (.nilVariableStatement,
            ((Parser.CreateParser ⟨bytes "x 1", 0, 120⟩ 0).logError "1").logError "1"))
    ∧ (Parser.parseBoundExpression 3 (Parser.CreateParser ⟨bytes "(1 \x7d", 0, 40⟩ 0)
        = some (.nil,
            ((Parser.CreateParser ⟨bytes "(1 \x7d", 0, 40⟩ 0).setTokens.logError "\x7d").logError
              "\x7d")) :=
  ⟨(failed_check_reported_twice 0 (Parser.CreateParser ⟨bytes "x 1", 0, 120⟩ 0)).2.1 (by decide),
    (failed_check_reported_twice 2 (Parser.CreateParser ⟨bytes "(1 \x7d", 0, 40⟩ 0)).2.2.2.2.1
      (.Integer ⟨"INTEGER", "1"⟩ 1) (Parser.CreateParser ⟨bytes "(1 \x7d", 0, 40⟩ 0).setTokens
      (by decide!) (by decide)⟩

end GoInterpreter
